import Mathlib

/-!
# Memory-pool manager (`mem_pool.c`): shallow embedding

The pool manager of `src/mem_pool.c` is embedded as pure functions on an
explicit state.  Pointers to segment descriptors (`node_pt`) are modelled as
references `(heap, idx)`: `heap` numbers the node heaps in the order in which
`calloc` produced them (the source never frees a node heap when it grows, so
every heap stays readable and writable), `idx` is the slot inside that heap.
`NULL` is `none`.  The functions that access memory return an `Option`: `none`
stands for undefined behaviour of the C program (a `NULL` or out-of-bounds
dereference) or for an `assert` that aborts.

Machine integers are natural numbers reduced modulo `2^32` (`unsigned`) or
`2^64` (`size_t`) at each arithmetic operation of the source.
-/

namespace MemPool

/-! ## Types declared in `mem_pool.h` and `mem_pool.c` -/

/-- Modelled from the spec: the header `mem_pool.h` is not part of the sources;
the two allocation policies are the ones the spec names (FIRST_FIT, BEST_FIT). -/
inductive alloc_policy where
  | FIRST_FIT
  | BEST_FIT
  deriving DecidableEq, Repr

/-- Modelled from the spec: the header `mem_pool.h` is not part of the sources;
these are the four status codes that `mem_pool.c` returns. -/
inductive alloc_status where
  | ALLOC_OK
  | ALLOC_FAIL
  | ALLOC_NOT_FREED
  | ALLOC_CALLED_AGAIN
  deriving DecidableEq, Repr

/-- A non-null `node_pt`: slot `idx` of the node heap number `heap`. -/
structure NodeRef where
  heap : Nat
  idx : Nat
  deriving DecidableEq, Repr

/-- The struct `node_t`.  Its first member `alloc_record` is an `alloc_t`, a type
of the header `mem_pool.h`, of which `mem_pool.c` uses the fields `size` and
`mem`; they are flattened into the node.  `mem` is an offset from the start of
the pool buffer, `none` is `NULL`. -/
structure node_t where
  size : Nat
  mem : Option Nat
  used : Nat
  allocated : Nat
  next : Option NodeRef
  prev : Option NodeRef
  deriving DecidableEq, Repr

/-- The struct `gap_t`. -/
structure gap_t where
  size : Nat
  node : Option NodeRef
  deriving DecidableEq, Repr

/-- Modelled from the spec: `pool_t` is declared in the header `mem_pool.h`, which
is not part of the sources.  These are the fields that `mem_pool.c` reads and
writes: the selected policy, the size of the buffer, the allocated-byte total
and the counts of live allocations and of gaps.  The buffer `mem` itself is not
modelled; addresses inside it are offsets from its start. -/
structure pool_t where
  policy : alloc_policy
  total_size : Nat
  alloc_size : Nat
  num_allocs : Nat
  num_gaps : Nat
  deriving DecidableEq, Repr

/-- The struct `pool_mgr_t`.  `heaps` is the memory holding every node heap
allocated so far and `node_heap` is the number of the current one.  `gap_ix` has
one list element per `gap_t` of the allocated block, so its length is the
physical size of the block, which `gap_ix_capacity` only claims to describe. -/
structure pool_mgr_t where
  pool : pool_t
  heaps : List (List node_t)
  node_heap : Nat
  total_nodes : Nat
  used_nodes : Nat
  gap_ix : List gap_t
  gap_ix_capacity : Nat
  deriving DecidableEq, Repr

/-! ## Constants -/

def MEM_NODE_HEAP_INIT_CAPACITY : Nat := 40
def MEM_NODE_HEAP_EXPAND_FACTOR : Nat := 2
def MEM_GAP_IX_INIT_CAPACITY : Nat := 40
def MEM_GAP_IX_EXPAND_FACTOR : Nat := 2

/-- The test `(float) size / capacity >= 0.75f` of the three resize functions
(`MEM_*_FILL_FACTOR` is `0.75` everywhere).  `0.75` is a binary fraction, so the
test is exact as long as both operands are below `2^23`; `0 / 0` is a NaN and
compares false, `n / 0` with `n > 0` is `+inf` and compares true. -/
def fill_factor_reached (size capacity : Nat) : Bool :=
  size != 0 && decide (3 * capacity ≤ 4 * size)

/-- Size in bytes of a pointer and of a `gap_t` (LP64), used by the `realloc`
of `_mem_resize_gap_ix`, which computes the new block size with
`sizeof(pool_mgr_pt)`. -/
def sizeof_pool_mgr_pt : Nat := 8
def sizeof_gap_t : Nat := 16

/-- Arithmetic on `unsigned` (32 bits). -/
def u32 (n : Nat) : Nat := n % 4294967296

/-- Arithmetic on `size_t` (64 bits). -/
def u64 (n : Nat) : Nat := n % 18446744073709551616

/-- Subtraction on `unsigned`. -/
def sub32 (a b : Nat) : Nat := u32 (a + 4294967296 - u32 b)

/-- Subtraction on `size_t`. -/
def sub64 (a b : Nat) : Nat := u64 (a + 18446744073709551616 - u64 b)

/-! ## Memory -/

/-- A zeroed `node_t`, as `calloc` returns it. -/
def node_zero : node_t :=
  { size := 0, mem := none, used := 0, allocated := 0, next := none, prev := none }

/-- A zeroed `gap_t`. -/
def gap_zero : gap_t := { size := 0, node := none }

/-- Reads `*p`. -/
def getNode (hs : List (List node_t)) (p : Option NodeRef) : Option node_t :=
  match p with
  | none => none
  | some r =>
    match hs[r.heap]? with
    | none => none
    | some h => h[r.idx]?

/-- Writes `*r = n`. -/
def setNode (hs : List (List node_t)) (r : NodeRef) (n : node_t) :
    Option (List (List node_t)) :=
  match hs[r.heap]? with
  | none => none
  | some h => if r.idx < h.length then some (hs.set r.heap (h.set r.idx n)) else none

/-- Updates some fields of `*p`. -/
def modNode (hs : List (List node_t)) (p : Option NodeRef) (f : node_t → node_t) :
    Option (List (List node_t)) :=
  match p with
  | none => none
  | some r =>
    match getNode hs (some r) with
    | none => none
    | some n => setNode hs r (f n)

/-- The comparison `p < q` of two `node_pt`.  `NULL` is the lowest address;
inside one heap the slots are ordered by index; heaps are ordered by their
number (the entries of the gap index that are compared always lie in the
current heap or are `NULL`). -/
def ptr_lt (p q : Option NodeRef) : Bool :=
  match p, q with
  | _, none => false
  | none, some _ => true
  | some a, some b => decide (a.heap < b.heap) || (a.heap == b.heap && decide (a.idx < b.idx))

/-! ## Gap index -/

/-- The loop of `_mem_invalidate_gap_ix`: clears the entries `i, i+1, ...`,
`n` of them. -/
def invalidate_loop (g : List gap_t) : Nat → Nat → Option (List gap_t)
  | 0, _ => some g
  | n + 1, i => if i < g.length then invalidate_loop (g.set i gap_zero) n (i + 1) else none

/-- `_mem_invalidate_gap_ix`: clears the first `num_gaps` entries; `num_gaps`
itself is left as it is. -/
def _mem_invalidate_gap_ix (st : pool_mgr_t) : Option (pool_mgr_t × alloc_status) :=
  match invalidate_loop st.gap_ix st.pool.num_gaps 0 with
  | none => none
  | some g => some ({ st with gap_ix := g }, alloc_status.ALLOC_OK)

/-- The block returned by `realloc(gap_ix, bytes)`: the old entries that fit,
followed by as many further entries as the new size holds (their content is
indeterminate in C; no entry beyond `num_gaps` is read before it is written). -/
def realloc_gap_ix (g : List gap_t) (bytes : Nat) : List gap_t :=
  let n := bytes / sizeof_gap_t
  g.take n ++ List.replicate (n - g.length) gap_zero

/-- `_mem_resize_gap_ix`: the fill test reads `gap_ix->size`, the size field of
the first entry, and the new block is sized with `sizeof(pool_mgr_pt)`. -/
def _mem_resize_gap_ix (st : pool_mgr_t) : Option (pool_mgr_t × alloc_status) :=
  match st.gap_ix[0]? with
  | none => none
  | some g0 =>
    if fill_factor_reached g0.size st.gap_ix_capacity then
      some ({ st with
                gap_ix := realloc_gap_ix st.gap_ix
                  (u64 (u32 (st.gap_ix_capacity * MEM_GAP_IX_EXPAND_FACTOR) * sizeof_pool_mgr_pt))
                gap_ix_capacity := u32 (st.gap_ix_capacity * MEM_GAP_IX_EXPAND_FACTOR) },
            alloc_status.ALLOC_OK)
    else some (st, alloc_status.ALLOC_OK)

/-- The loop of `_mem_sort_gap_ix`, at index `i` (compares entry `i` with entry
`i - 1`, swaps them if entry `i` is smaller, and goes on down to index `1`). -/
def sort_loop (g : List gap_t) : Nat → Option (List gap_t)
  | 0 => some g
  | i + 1 =>
    match g[i + 1]?, g[i]? with
    | some cur, some prv =>
      if cur.size < prv.size || (cur.size == prv.size && ptr_lt cur.node prv.node) then
        sort_loop ((g.set (i + 1) prv).set i cur) i
      else sort_loop g i
    | _, _ => none

/-- `_mem_sort_gap_ix`: one pass from the last entry down.  The loop variable is
an `int` initialised from `num_gaps - 1`. -/
def _mem_sort_gap_ix (st : pool_mgr_t) : Option (pool_mgr_t × alloc_status) :=
  let i := sub32 st.pool.num_gaps 1
  if i < 2147483648 then
    match sort_loop st.gap_ix i with
    | none => none
    | some g => some ({ st with gap_ix := g }, alloc_status.ALLOC_OK)
  else some (st, alloc_status.ALLOC_OK)

/-- `_mem_add_to_gap_ix`. -/
def _mem_add_to_gap_ix (st : pool_mgr_t) (size : Nat) (node : Option NodeRef) :
    Option (pool_mgr_t × alloc_status) :=
  let resized :=
    if st.pool.num_gaps = st.gap_ix_capacity then (_mem_resize_gap_ix st).map Prod.fst else some st
  match resized with
  | none => none
  | some st1 =>
    if st1.pool.num_gaps < st1.gap_ix.length then
      _mem_sort_gap_ix
        { st1 with
            gap_ix := st1.gap_ix.set st1.pool.num_gaps { size := size, node := node }
            pool.num_gaps := u32 (st1.pool.num_gaps + 1) }
    else none

/-- The search loop of `_mem_remove_from_gap_ix`: the first index from `i` on,
below `i + n`, whose entry references `node`, or `i + n`. -/
def gap_find (g : List gap_t) (node : Option NodeRef) : Nat → Nat → Option Nat
  | 0, i => some i
  | n + 1, i =>
    match g[i]? with
    | none => none
    | some e => if e.node = node then some i else gap_find g node n (i + 1)

/-- The shifting loop of `_mem_remove_from_gap_ix`: `n` times, copies entry
`i + 1` over entry `i` and increments `i`; returns the array and the final `i`. -/
def gap_shift (g : List gap_t) : Nat → Nat → Option (List gap_t × Nat)
  | 0, i => some (g, i)
  | n + 1, i =>
    match g[i + 1]?, g[i]? with
    | some e, some _ => gap_shift (g.set i e) n (i + 1)
    | _, _ => none

/-- `_mem_remove_from_gap_ix` (the `size` argument is not used by the source). -/
def _mem_remove_from_gap_ix (st : pool_mgr_t) (_size : Nat) (node : Option NodeRef) :
    Option (pool_mgr_t × alloc_status) :=
  if st.pool.num_gaps = 0 then none
  else
    match gap_find st.gap_ix node st.pool.num_gaps 0 with
    | none => none
    | some i =>
      match gap_shift st.gap_ix (st.pool.num_gaps - 1 - i) i with
      | none => none
      | some (g, j) =>
        if j < g.length then
          some ({ st with pool.num_gaps := sub32 st.pool.num_gaps 1, gap_ix := g.set j gap_zero },
                alloc_status.ALLOC_OK)
        else none

/-! ## Node heap -/

/-- The copy loop of `_mem_resize_node_heap`: follows `it->next` from `it`,
copying `*it` to `new_heap[i]` and indexing the copy when it is not allocated.
The new heap is heap number `newh`; the first argument bounds the number of
iterations by the number of slots left, beyond which the copy is out of bounds. -/
def resize_copy (newh : Nat) : Nat → pool_mgr_t → Option NodeRef → Nat → Option pool_mgr_t
  | _, st, none, _ => some st
  | 0, _, some _, _ => none
  | f + 1, st, some r, i =>
    match getNode st.heaps (some r) with
    | none => none
    | some n =>
      match setNode st.heaps { heap := newh, idx := i } n with
      | none => none
      | some hs =>
        let st1 := { st with heaps := hs }
        let indexed :=
          if n.allocated = 0 then
            (_mem_add_to_gap_ix st1 n.size (some { heap := newh, idx := i })).map Prod.fst
          else some st1
        match indexed with
        | none => none
        | some st2 =>
          match getNode st2.heaps (some r) with
          | none => none
          | some n2 => resize_copy newh f st2 n2.next (i + 1)

/-- The loop `new_heap[i].next = &new_heap[i+1]`, `n` iterations from `i`. -/
def link_next (newh : Nat) : Nat → List (List node_t) → Nat → Option (List (List node_t))
  | 0, hs, _ => some hs
  | n + 1, hs, i =>
    match modNode hs (some { heap := newh, idx := i })
        (fun x => { x with next := some { heap := newh, idx := i + 1 } }) with
    | none => none
    | some hs1 => link_next newh n hs1 (i + 1)

/-- The loop `new_heap[i].prev = &new_heap[i-1]`, `n` iterations from `i`. -/
def link_prev (newh : Nat) : Nat → List (List node_t) → Nat → Option (List (List node_t))
  | 0, hs, _ => some hs
  | n + 1, hs, i =>
    match modNode hs (some { heap := newh, idx := i })
        (fun x => { x with prev := some { heap := newh, idx := i - 1 } }) with
    | none => none
    | some hs1 => link_prev newh n hs1 (i + 1)

/-- `_mem_resize_node_heap`.  The old heap is not freed and stays in memory. -/
def _mem_resize_node_heap (st : pool_mgr_t) : Option (pool_mgr_t × alloc_status) :=
  if fill_factor_reached st.used_nodes st.total_nodes then
    match _mem_invalidate_gap_ix st with
    | none => none
    | some (st1, _) =>
      let st2 := { st1 with pool.num_gaps := sub32 st1.pool.num_gaps 1 }
      let newlen := u32 (st2.total_nodes * MEM_NODE_HEAP_EXPAND_FACTOR)
      let newh := st2.heaps.length
      let st3 := { st2 with heaps := st2.heaps ++ [List.replicate newlen node_zero] }
      match resize_copy newh (newlen + 1) st3 (some { heap := st3.node_heap, idx := 0 }) 0 with
      | none => none
      | some st4 =>
        match link_next newh (sub32 st4.used_nodes 1) st4.heaps 0 with
        | none => none
        | some hs5 =>
          match link_prev newh (st4.used_nodes - 1) hs5 1 with
          | none => none
          | some hs6 =>
            some ({ st4 with
                      heaps := hs6
                      total_nodes := u32 (st4.total_nodes * MEM_NODE_HEAP_EXPAND_FACTOR)
                      node_heap := newh },
                  alloc_status.ALLOC_OK)
  else some (st, alloc_status.ALLOC_OK)

/-! ## User-facing functions -/

/-- The pool manager that `mem_pool_open (size, policy)` builds when every
allocation succeeds (lines 159-222): one free segment covering the buffer in
slot `0` of a zeroed node heap, one gap-index entry referencing it. -/
def mem_pool_open_mgr (size : Nat) (policy : alloc_policy) : pool_mgr_t :=
  { pool := { policy := policy, total_size := size, alloc_size := 0, num_allocs := 0,
              num_gaps := 1 }
    heaps := [(List.replicate MEM_NODE_HEAP_INIT_CAPACITY node_zero).set 0
                { size := size, mem := some 0, used := 1, allocated := 0,
                  next := none, prev := none }]
    node_heap := 0
    total_nodes := MEM_NODE_HEAP_INIT_CAPACITY
    used_nodes := 1
    gap_ix := (List.replicate MEM_GAP_IX_INIT_CAPACITY gap_zero).set 0
                { size := size, node := some { heap := 0, idx := 0 } }
    gap_ix_capacity := MEM_GAP_IX_INIT_CAPACITY }

/-- The FIRST_FIT loop of `mem_new_alloc`, with `n` iterations left and
`new_alloc = p`.  The result is the memory and the value of `new_alloc` after
the loop; the `return NULL` inside the loop is rendered as `new_alloc = NULL`,
on which the test after the loop returns `NULL` as well, nothing having been
written. -/
def first_fit_loop (size : Nat) :
    Nat → List (List node_t) → NodeRef → Option (List (List node_t) × Option NodeRef)
  | 0, hs, p => some (hs, some p)
  | n + 1, hs, p =>
    match getNode hs (some p) with
    | none => none
    | some x =>
      if x.used = 1 ∧ x.allocated = 0 ∧ size ≤ x.size then
        match setNode hs p { x with allocated := 1 } with
        | none => none
        | some hs1 => some (hs1, some p)
      else
        match x.next with
        | none => some (hs, none)
        | some q => first_fit_loop size n hs q

/-- The BEST_FIT loop of `mem_new_alloc`, with `n` iterations left from index
`i`: the first entry of the gap index that is large enough is taken. -/
def best_fit_loop (size : Nat) (g : List gap_t) :
    Nat → Nat → List (List node_t) → Option (List (List node_t) × Option NodeRef)
  | 0, _, hs => some (hs, none)
  | n + 1, i, hs =>
    match g[i]? with
    | none => none
    | some e =>
      if size ≤ e.size then
        match modNode hs e.node (fun x => { x with allocated := 1 }) with
        | none => none
        | some hs1 => some (hs1, e.node)
      else best_fit_loop size g n (i + 1) hs

/-- The slot scan of `mem_new_alloc` (lines 361-381), `n` iterations left from
slot `i`: the first slot that is not in service becomes the remainder gap and
is linked after `new_alloc`.  Returns the state and `new_gap`. -/
def new_gap_loop (new_alloc : NodeRef) (remaining_gap : Nat) :
    Nat → Nat → pool_mgr_t → Option (pool_mgr_t × Option NodeRef)
  | 0, _, st => some (st, none)
  | n + 1, i, st =>
    let new_gap : NodeRef := { heap := st.node_heap, idx := i }
    match getNode st.heaps (some new_gap) with
    | none => none
    | some x =>
      if x.used = 0 then
        let linked :=
          (modNode st.heaps (some new_gap)
            (fun y => { y with used := 1, mem := none, size := remaining_gap, allocated := 0 })).bind
          fun hs1 => (getNode hs1 (some new_alloc)).bind
          fun a => (match a.next with
                    | none => some hs1
                    | some nx => modNode hs1 (some nx) (fun y => { y with prev := some new_gap })).bind
          fun hs2 => (getNode hs2 (some new_alloc)).bind
          fun a2 => (modNode hs2 (some new_gap) (fun y => { y with next := a2.next })).bind
          fun hs3 => (modNode hs3 (some new_alloc) (fun y => { y with next := some new_gap })).bind
          fun hs4 => modNode hs4 (some new_gap) (fun y => { y with prev := some new_alloc })
        match linked with
        | none => none
        | some hs5 =>
          some ({ st with heaps := hs5, used_nodes := u32 (st.used_nodes + 1) }, some new_gap)
      else new_gap_loop new_alloc remaining_gap n (i + 1) st

/-- `mem_new_alloc (pool, size)`: the state after the call and the pointer
returned (`none` inside is `NULL`). -/
def mem_new_alloc (st0 : pool_mgr_t) (size : Nat) : Option (pool_mgr_t × Option NodeRef) :=
  if st0.pool.num_gaps = 0 then some (st0, none)
  else
    match _mem_resize_node_heap st0 with
    | none => none
    | some (st, _) =>
      if st.used_nodes > st.total_nodes then some (st, none)
      else
        let selected :=
          match st.pool.policy with
          | alloc_policy.FIRST_FIT =>
            first_fit_loop size st.total_nodes st.heaps { heap := st.node_heap, idx := 0 }
          | alloc_policy.BEST_FIT =>
            best_fit_loop size st.gap_ix st.pool.num_gaps 0 st.heaps
        match selected with
        | none => none
        | some (hs, none) => some ({ st with heaps := hs }, none)
        | some (hs, some new_alloc) =>
          match getNode hs (some new_alloc) with
          | none => none
          | some a =>
            if a.allocated = 0 then some ({ st with heaps := hs }, none)
            else
              let st1 := { st with heaps := hs
                                   pool.num_allocs := u32 (st.pool.num_allocs + 1)
                                   pool.alloc_size := u64 (st.pool.alloc_size + size) }
              let remaining_gap := sub64 a.size size
              match _mem_remove_from_gap_ix st1 a.size (some new_alloc) with
              | none => none
              | some (st2, _) =>
                match modNode st2.heaps (some new_alloc)
                    (fun y => { y with size := size, mem := some st2.pool.alloc_size }) with
                | none => none
                | some hs3 =>
                  let st3 := { st2 with heaps := hs3 }
                  if remaining_gap ≠ 0 then
                    match new_gap_loop new_alloc remaining_gap st3.total_nodes 0 st3 with
                    | none => none
                    | some (st4, new_gap) =>
                      match _mem_add_to_gap_ix st4 remaining_gap new_gap with
                      | none => none
                      | some (st5, status) =>
                        if status = alloc_status.ALLOC_FAIL then some (st5, none)
                        else some (st5, some new_alloc)
                  else some (st3, some new_alloc)

/-- The search loop of `mem_del_alloc`, with `n` iterations left: each iteration
reads the size fields of `node_heap[del_index]` and of `*node_handle` (their
comparison has an empty body) and leaves the loop when the address of the slot
is the handle.  Returns the value of `del_index` after the loop. -/
def find_del_index (hs : List (List node_t)) (node_heap : Nat) (handle : NodeRef) :
    Nat → Nat → Option Nat
  | 0, del_index => some del_index
  | n + 1, del_index =>
    match getNode hs (some { heap := node_heap, idx := del_index }), getNode hs (some handle) with
    | some _, some _ =>
      if ({ heap := node_heap, idx := del_index } : NodeRef) = handle then some del_index
      else find_del_index hs node_heap handle n (del_index + 1)
    | _, _ => none

/-- The merge of `node_handle->next` into `node_handle` (lines 428-456). -/
def merge_next (st : pool_mgr_t) (node_handle : NodeRef) : Option pool_mgr_t :=
  match getNode st.heaps (some node_handle) with
  | none => none
  | some h =>
    match h.next with
    | none => some st
    | some nx =>
      match getNode st.heaps (some nx) with
      | none => none
      | some x =>
        if x.allocated = 0 then
          match _mem_remove_from_gap_ix st x.size (some nx) with
          | none => none
          | some (st1, _) =>
            let hs :=
              (modNode st1.heaps (some node_handle)
                (fun y => { y with size := u64 (y.size + x.size) })).bind
              fun hs1 => (modNode hs1 (some nx) (fun y => { y with used := 0 })).bind
              fun hs2 => (getNode hs2 (some nx)).bind
              fun x2 => (match x2.next with
                         | none => some hs2
                         | some nn => modNode hs2 (some nn)
                                        (fun y => { y with prev := some node_handle })).bind
              fun hs3 => (getNode hs3 (some nx)).bind
              fun x3 => (modNode hs3 (some node_handle) (fun y => { y with next := x3.next })).bind
              fun hs4 => modNode hs4 (some nx)
                           (fun y => { y with next := none, prev := none, size := 0 })
            match hs with
            | none => none
            | some hs5 => some { st1 with heaps := hs5, used_nodes := sub32 st1.used_nodes 1 }
        else some st

/-- The merge of `node_handle->prev` into `node_handle` (lines 459-485). -/
def merge_prev (st : pool_mgr_t) (node_handle : NodeRef) : Option pool_mgr_t :=
  match getNode st.heaps (some node_handle) with
  | none => none
  | some h =>
    match h.prev with
    | none => some st
    | some pv =>
      match getNode st.heaps (some pv) with
      | none => none
      | some x =>
        if x.allocated = 0 then
          match _mem_remove_from_gap_ix st x.size (some pv) with
          | none => none
          | some (st1, _) =>
            let hs :=
              (modNode st1.heaps (some node_handle)
                (fun y => { y with size := u64 (y.size + x.size) })).bind
              fun hs1 => (modNode hs1 (some pv) (fun y => { y with used := 0 })).bind
              fun hs2 => (getNode hs2 (some pv)).bind
              fun x2 => (match x2.prev with
                         | none => some hs2
                         | some pp => modNode hs2 (some pp)
                                        (fun y => { y with next := some node_handle })).bind
              fun hs3 => (getNode hs3 (some pv)).bind
              fun x3 => (modNode hs3 (some node_handle) (fun y => { y with prev := x3.prev })).bind
              fun hs4 => modNode hs4 (some pv)
                           (fun y => { y with prev := none, next := none, size := 0 })
            match hs with
            | none => none
            | some hs5 => some { st1 with heaps := hs5, used_nodes := sub32 st1.used_nodes 1 }
        else some st

/-- `mem_del_alloc (pool, alloc)`, the handle being the address of a node. -/
def mem_del_alloc (st : pool_mgr_t) (alloc : NodeRef) : Option (pool_mgr_t × alloc_status) :=
  match find_del_index st.heaps st.node_heap alloc st.total_nodes 0 with
  | none => none
  | some del_index =>
    if del_index = st.total_nodes then some (st, alloc_status.ALLOC_FAIL)
    else
      let node_handle : NodeRef := { heap := st.node_heap, idx := del_index }
      match getNode st.heaps (some node_handle) with
      | none => none
      | some h =>
        match setNode st.heaps node_handle { h with allocated := 0 } with
        | none => none
        | some hs1 =>
          let st1 := { st with heaps := hs1
                               pool.num_allocs := sub32 st.pool.num_allocs 1
                               pool.alloc_size := sub64 st.pool.alloc_size h.size }
          match merge_next st1 node_handle with
          | none => none
          | some st2 =>
            match merge_prev st2 node_handle with
            | none => none
            | some st3 =>
              match getNode st3.heaps (some node_handle) with
              | none => none
              | some h3 =>
                match _mem_add_to_gap_ix st3 h3.size (some node_handle) with
                | none => none
                | some (st4, status) =>
                  if status = alloc_status.ALLOC_FAIL then some (st4, alloc_status.ALLOC_FAIL)
                  else some (st4, alloc_status.ALLOC_OK)

/-! ## Call sequences and observations -/

/-- One call of a client: `alloc s` is `mem_new_alloc (pool, s)`; `free k` is
`mem_del_alloc (pool, h)` where `h` is the pointer returned by the `k`-th
`alloc` of the sequence (counted from `0`). -/
inductive Call where
  | alloc (size : Nat)
  | free (k : Nat)
  deriving DecidableEq, Repr

/-- Runs a sequence of calls; the second component collects the pointers
returned by the allocations so far.  `none` if a call has undefined behaviour
or frees a handle that was never returned. -/
def run : pool_mgr_t → List (Option NodeRef) → List Call →
    Option (pool_mgr_t × List (Option NodeRef))
  | st, hs, [] => some (st, hs)
  | st, hs, Call.alloc s :: cs =>
    match mem_new_alloc st s with
    | none => none
    | some (st1, h) => run st1 (hs ++ [h]) cs
  | st, hs, Call.free k :: cs =>
    match hs[k]? with
    | some (some h) =>
      match mem_del_alloc st h with
      | none => none
      | some (st1, _) => run st1 hs cs
    | _ => none

/-- A sequence of calls uses the interface as intended: every request has a
positive size and fits `size_t`, and every `free k` names an allocation that
was made before it and has not been freed since (`live` lists the allocations
made so far with a flag telling whether they may still be freed). -/
def valid_calls : List Bool → List Call → Bool
  | _, [] => true
  | live, Call.alloc s :: cs =>
    decide (0 < s) && decide (s < 18446744073709551616) && valid_calls (live ++ [true]) cs
  | live, Call.free k :: cs => (live.getD k false) && valid_calls (live.set k false) cs

/-- Follows `next` from `p`, collecting the nodes met, until `NULL`; `none` if
`NULL` is not reached within `fuel` steps or a pointer cannot be read. -/
def walk_next (hs : List (List node_t)) : Nat → Option NodeRef → Option (List node_t)
  | _, none => some []
  | 0, some _ => none
  | fuel + 1, some r =>
    match getNode hs (some r) with
    | none => none
    | some n =>
      match walk_next hs fuel n.next with
      | none => none
      | some l => some (n :: l)

/-- Follows `prev` from `r` until a node without predecessor; `none` if none is
reached within `fuel` steps. -/
def walk_prev (hs : List (List node_t)) : Nat → NodeRef → Option NodeRef
  | 0, _ => none
  | fuel + 1, r =>
    match getNode hs (some r) with
    | none => none
    | some n =>
      match n.prev with
      | none => some r
      | some q => walk_prev hs fuel q

/-- Number of node slots in the whole memory: no acyclic chain is longer. -/
def memory_slots (hs : List (List node_t)) : Nat := (hs.map List.length).sum

/-- The current node heap. -/
def cur_heap (st : pool_mgr_t) : List node_t := (st.heaps[st.node_heap]?).getD []

/-- The slots of the current node heap that are in service and have no
predecessor. -/
def heads (st : pool_mgr_t) : List Nat :=
  (List.range (cur_heap st).length).filter
    fun i => match (cur_heap st)[i]? with
             | some n => n.used != 0 && n.prev == none
             | none => false

/-- The chain as the code of `mem_new_alloc` (FIRST_FIT) and of
`_mem_resize_node_heap` sees it: from `node_heap[0]` along `next`. -/
def chain_from_slot0 (st : pool_mgr_t) : Option (List node_t) :=
  walk_next st.heaps (memory_slots st.heaps) (some { heap := st.node_heap, idx := 0 })

/-- The chain as `mem_inspect_pool` finds it: from the first slot in service
back along `prev` to a node without predecessor, then along `next`. -/
def chain_inspect (st : pool_mgr_t) : Option (List node_t) :=
  match (cur_heap st).findIdx? (fun n => n.used != 0) with
  | none => none
  | some i =>
    match walk_prev st.heaps (memory_slots st.heaps) { heap := st.node_heap, idx := i } with
    | none => none
    | some h => walk_next st.heaps (memory_slots st.heaps) (some h)

/-- The `(size, allocated)` pairs of a list of nodes. -/
def segments (l : List node_t) : List (Nat × Nat) := l.map fun n => (n.size, n.allocated)

/-- Sum of the sizes of a list of nodes. -/
def total (l : List node_t) : Nat := (l.map node_t.size).sum

/-- Sum of the sizes of the allocated nodes of a list. -/
def total_allocated (l : List node_t) : Nat :=
  ((l.filter fun n => n.allocated != 0).map node_t.size).sum

/-- The nodes of the current node heap that are in service. -/
def in_service (st : pool_mgr_t) : List node_t := (cur_heap st).filter fun n => n.used != 0

/-- The entries of the gap index that count: the first `num_gaps`. -/
def gaps (st : pool_mgr_t) : List gap_t := st.gap_ix.take st.pool.num_gaps

/-! ## Call sequences used as concrete inputs -/

/-- BEST_FIT, 32 calls: allocations fill slots `0..28`, the two first are freed
(the second merge retires slot `0`), and a last allocation of one byte splits
the merged gap, which puts the remainder into slot `0`.  The chain then starts
at slot `1`, slot `0` is its second segment, and 30 of the 40 slots are in
service. -/
def calls_slot0_second : List Call :=
  [Call.alloc 1, Call.alloc 3] ++ List.replicate 27 (Call.alloc 5) ++
    [Call.free 0, Call.free 1, Call.alloc 1]

/-- BEST_FIT, 32 calls: as before, but the last allocation takes five bytes from
the last gap, so that slot `0` becomes the tail of the chain. -/
def calls_slot0_tail : List Call :=
  [Call.alloc 1, Call.alloc 3] ++ List.replicate 27 (Call.alloc 5) ++
    [Call.free 0, Call.free 1, Call.alloc 5]

/-- FIRST_FIT, 30 calls: 29 allocations of one byte fill slots `0..28`, then the
second one is freed. -/
def calls_two_gaps : List Call := List.replicate 29 (Call.alloc 1) ++ [Call.free 1]

/-- Four allocations of ten bytes, the two first freed (slot `0` retired), an
allocation of 950 bytes that puts a 10-byte remainder at the end of the pool
into slot `0`, and the fourth allocation freed. -/
def calls_equal_gaps : List Call :=
  [Call.alloc 10, Call.alloc 10, Call.alloc 10, Call.alloc 10, Call.free 0, Call.free 1,
   Call.alloc 950, Call.free 3]

/-! ## Well-formed pool states -/

/-- Number of slots of node heap number `h`. -/
def hlen (hs : List (List node_t)) (h : Nat) : Nat := ((hs[h]?).getD []).length

/-- The node in slot `i` of heap `h` (a zeroed node if there is no such slot). -/
def nd (hs : List (List node_t)) (h i : Nat) : node_t :=
  (getNode hs (some { heap := h, idx := i })).getD node_zero

/-- The memory after `modNode hs (some r) f` (unchanged if `r` cannot be read). -/
def upd (hs : List (List node_t)) (r : NodeRef) (f : node_t → node_t) : List (List node_t) :=
  (modNode hs (some r) f).getD hs

/-- The successor recorded in the last node of a run of slots that is followed
by the slots `rest` and then by `nxt`. -/
def next_of (h : Nat) (rest : List Nat) (nxt : Option NodeRef) : Option NodeRef :=
  match rest with
  | [] => nxt
  | j :: _ => some { heap := h, idx := j }

/-- The predecessor recorded in the first node after the run of slots `a`, which
itself comes after `prev`. -/
def last_of (h : Nat) (a : List Nat) (prev : Option NodeRef) : Option NodeRef :=
  match a.getLast? with
  | none => prev
  | some j => some { heap := h, idx := j }

/-- The slots `c` of heap `h`, in this order, are a run of the doubly-linked
chain: each is in service, its `prev` is the slot before it (`prev` for the
first) and its `next` the slot after it (`nxt` for the last). -/
def lseg (hs : List (List node_t)) (h : Nat) :
    Option NodeRef → List Nat → Option NodeRef → Prop
  | _, [], _ => True
  | prev, i :: rest, nxt =>
    (nd hs h i).used = 1 ∧ (nd hs h i).prev = prev ∧ (nd hs h i).next = next_of h rest nxt ∧
      lseg hs h (some { heap := h, idx := i }) rest nxt

/-- Whether `lseg` holds can be computed. -/
def lseg_dec (hs : List (List node_t)) (h : Nat) :
    (prev : Option NodeRef) → (c : List Nat) → (nxt : Option NodeRef) →
      Decidable (lseg hs h prev c nxt)
  | _, [], _ => isTrue trivial
  | prev, i :: rest, nxt =>
    match lseg_dec hs h (some { heap := h, idx := i }) rest nxt with
    | isTrue hr =>
      if h1 : (nd hs h i).used = 1 ∧ (nd hs h i).prev = prev ∧
          (nd hs h i).next = next_of h rest nxt then
        isTrue ⟨h1.1, h1.2.1, h1.2.2, hr⟩
      else isFalse fun hc => h1 ⟨hc.1, hc.2.1, hc.2.2.1⟩
    | isFalse hr => isFalse fun hc => hr hc.2.2.2

instance (hs : List (List node_t)) (h : Nat) (prev : Option NodeRef) (c : List Nat)
    (nxt : Option NodeRef) : Decidable (lseg hs h prev c nxt) :=
  lseg_dec hs h prev c nxt

/-- The `(size, allocated)` pairs of the slots `c` of the current node heap. -/
def slot_segments (st : pool_mgr_t) (c : List Nat) : List (Nat × Nat) :=
  c.map fun i => ((nd st.heaps st.node_heap i).size, (nd st.heaps st.node_heap i).allocated)

/-- The data-model invariant of a pool whose chain, from head to tail, occupies
the slots `c` of the current node heap:
* the current heap has `total_nodes` slots, the slots of `c` are distinct, in
  service, and doubly linked in this order from a head without predecessor to a
  tail without successor; every other slot is out of service with a null
  `next`; `used_nodes` counts the chain;
* the sizes along the chain sum to `total_size`;
* the first `num_gaps` entries of the gap index reference distinct free
  segments of the chain and record their sizes, and every free segment of the
  chain is referenced, the segment in slot `ex` (if any) excepted: it is the
  segment that a running `mem_del_alloc` has marked free and not indexed yet;
* `num_gaps` is within `gap_ix_capacity`, which is within the allocated block;
  the counters that the loops hold in an `int` fit one. -/
structure wf (st : pool_mgr_t) (c : List Nat) (ex : Option Nat) : Prop where
  heap_len : hlen st.heaps st.node_heap = st.total_nodes
  total_lt : st.total_nodes < 4294967296
  nodup : c.Nodup
  in_range : ∀ i ∈ c, i < st.total_nodes
  chain : lseg st.heaps st.node_heap none c none
  unused : ∀ i, i < st.total_nodes → i ∉ c →
    (nd st.heaps st.node_heap i).used = 0 ∧ (nd st.heaps st.node_heap i).next = none
  used_count : st.used_nodes = c.length
  sizes : (c.map fun i => (nd st.heaps st.node_heap i).size).sum = st.pool.total_size
  size_lt : st.pool.total_size < 18446744073709551616
  gaps_le : st.pool.num_gaps ≤ st.gap_ix_capacity
  cap_le : st.gap_ix_capacity ≤ st.gap_ix.length
  cap_lt : st.gap_ix_capacity < 2147483648
  gap_nodup : ((gaps st).map gap_t.node).Nodup
  gap_sound : ∀ e ∈ gaps st, ∃ i ∈ c, e.node = some { heap := st.node_heap, idx := i } ∧
    some i ≠ ex ∧ (nd st.heaps st.node_heap i).allocated = 0 ∧
    e.size = (nd st.heaps st.node_heap i).size
  gap_complete : ∀ i ∈ c, some i ≠ ex → (nd st.heaps st.node_heap i).allocated = 0 →
    ∃ e ∈ gaps st, e.node = some { heap := st.node_heap, idx := i }

instance (st : pool_mgr_t) (c : List Nat) (ex : Option Nat) : Decidable (wf st c ex) :=
  decidable_of_iff
    (hlen st.heaps st.node_heap = st.total_nodes ∧ st.total_nodes < 4294967296 ∧ c.Nodup ∧
      (∀ i ∈ c, i < st.total_nodes) ∧ lseg st.heaps st.node_heap none c none ∧
      (∀ i, i < st.total_nodes → i ∉ c →
        (nd st.heaps st.node_heap i).used = 0 ∧ (nd st.heaps st.node_heap i).next = none) ∧
      st.used_nodes = c.length ∧
      (c.map fun i => (nd st.heaps st.node_heap i).size).sum = st.pool.total_size ∧
      st.pool.total_size < 18446744073709551616 ∧ st.pool.num_gaps ≤ st.gap_ix_capacity ∧
      st.gap_ix_capacity ≤ st.gap_ix.length ∧ st.gap_ix_capacity < 2147483648 ∧
      ((gaps st).map gap_t.node).Nodup ∧
      (∀ e ∈ gaps st, ∃ i ∈ c, e.node = some { heap := st.node_heap, idx := i } ∧
        some i ≠ ex ∧ (nd st.heaps st.node_heap i).allocated = 0 ∧
        e.size = (nd st.heaps st.node_heap i).size) ∧
      (∀ i ∈ c, some i ≠ ex → (nd st.heaps st.node_heap i).allocated = 0 →
        ∃ e ∈ gaps st, e.node = some { heap := st.node_heap, idx := i }))
    ⟨fun ⟨a1, a2, a3, a4, a5, a6, a7, a8, a9, a10, a11, a12, a13, a14, a15⟩ =>
        ⟨a1, a2, a3, a4, a5, a6, a7, a8, a9, a10, a11, a12, a13, a14, a15⟩,
      fun w => ⟨w.heap_len, w.total_lt, w.nodup, w.in_range, w.chain, w.unused, w.used_count,
        w.sizes, w.size_lt, w.gaps_le, w.cap_le, w.cap_lt, w.gap_nodup, w.gap_sound,
        w.gap_complete⟩⟩

/-- A well-formed pool state with chain `c`: the data-model invariant holds and
the gap index has room for one more entry (the code writes a new entry at index
`num_gaps` of the block). -/
def well_formed (st : pool_mgr_t) (c : List Nat) : Prop :=
  wf st c none ∧ st.pool.num_gaps < st.gap_ix_capacity

instance (st : pool_mgr_t) (c : List Nat) : Decidable (well_formed st c) := by
  unfold well_formed; infer_instance

/-- The memory after the writes of the merge of slot `s` (the successor) into
slot `m`, both in heap `h` (lines 438-455). -/
def merge_next_heaps (hs : List (List node_t)) (h m s : Nat) : List (List node_t) :=
  let hs1 := upd hs { heap := h, idx := m }
    (fun y => { y with size := u64 (y.size + (nd hs h s).size) })
  let hs2 := upd hs1 { heap := h, idx := s } (fun y => { y with used := 0 })
  let hs3 :=
    match (nd hs h s).next with
    | none => hs2
    | some nn => upd hs2 nn (fun y => { y with prev := some { heap := h, idx := m } })
  let hs4 := upd hs3 { heap := h, idx := m } (fun y => { y with next := (nd hs h s).next })
  upd hs4 { heap := h, idx := s } (fun y => { y with next := none, prev := none, size := 0 })

/-- The memory after the writes of the merge of slot `p` (the predecessor) into
slot `m`, both in heap `h` (lines 469-484). -/
def merge_prev_heaps (hs : List (List node_t)) (h m p : Nat) : List (List node_t) :=
  let hs1 := upd hs { heap := h, idx := m }
    (fun y => { y with size := u64 (y.size + (nd hs h p).size) })
  let hs2 := upd hs1 { heap := h, idx := p } (fun y => { y with used := 0 })
  let hs3 :=
    match (nd hs h p).prev with
    | none => hs2
    | some pp => upd hs2 pp (fun y => { y with next := some { heap := h, idx := m } })
  let hs4 := upd hs3 { heap := h, idx := m } (fun y => { y with prev := (nd hs h p).prev })
  upd hs4 { heap := h, idx := p } (fun y => { y with prev := none, next := none, size := 0 })

/-- What one merge step of `mem_del_alloc` does: from `st` to `st'`, the free
segment in slot `s` is merged into the segment in slot `m`.  The gap-index entry
of `s` is removed, the size of `s` is added to `m`, the other segments keep
their size and flag, and `used_nodes` and `num_gaps` go down by one. -/
structure merge_rel (st st' : pool_mgr_t) (m s : Nat) : Prop where
  same_policy : st'.pool.policy = st.pool.policy
  same_total_size : st'.pool.total_size = st.pool.total_size
  same_alloc_size : st'.pool.alloc_size = st.pool.alloc_size
  same_num_allocs : st'.pool.num_allocs = st.pool.num_allocs
  node_heap : st'.node_heap = st.node_heap
  total_nodes : st'.total_nodes = st.total_nodes
  gap_ix_capacity : st'.gap_ix_capacity = st.gap_ix_capacity
  gaps_down : st'.pool.num_gaps + 1 = st.pool.num_gaps
  used_nodes : st'.used_nodes + 1 = st.used_nodes
  gaps : gaps st' =
    (gaps st).filter (fun e => decide (e.node ≠ some { heap := st.node_heap, idx := s }))
  others : ∀ i, i ≠ m → i ≠ s →
    (nd st'.heaps st.node_heap i).size = (nd st.heaps st.node_heap i).size ∧
    (nd st'.heaps st.node_heap i).allocated = (nd st.heaps st.node_heap i).allocated
  size : (nd st'.heaps st.node_heap m).size =
    (nd st.heaps st.node_heap m).size + (nd st.heaps st.node_heap s).size
  allocated : (nd st'.heaps st.node_heap m).allocated = (nd st.heaps st.node_heap m).allocated

/-- The state of `mem_del_alloc` after its first writes (lines 421-425): the
node in slot `m` of the current heap is marked free and the counters
`num_allocs` and `alloc_size` are decreased. -/
def mark_free (st : pool_mgr_t) (m : Nat) : pool_mgr_t :=
  { st with
      heaps := upd st.heaps { heap := st.node_heap, idx := m }
        (fun _ => { nd st.heaps st.node_heap m with allocated := 0 })
      pool.num_allocs := sub32 st.pool.num_allocs 1
      pool.alloc_size := sub64 st.pool.alloc_size (nd st.heaps st.node_heap m).size }

/-- The state of a pool opened with `size` and `policy` after the calls `calls`
(the freshly opened pool if the sequence cannot be run). -/
def state_after (size : Nat) (policy : alloc_policy) (calls : List Call) : pool_mgr_t :=
  ((run (mem_pool_open_mgr size policy) [] calls).map Prod.fst).getD
    (mem_pool_open_mgr size policy)

/-- FIRST_FIT pool of 1000 bytes after allocate 100, 200, 300 and the release of
the first and the third allocation: chain `[0, 1, 2]`, a gap of 100 bytes, an
allocation of 200 bytes and a gap of 700 bytes. -/
def state_free_alloc_free : pool_mgr_t :=
  state_after 1000 alloc_policy.FIRST_FIT
    [Call.alloc 100, Call.alloc 200, Call.alloc 300, Call.free 0, Call.free 2]

/-- BEST_FIT pool of 1000 bytes after the calls of `calls_slot0_second`. -/
def state_slot0_second : pool_mgr_t :=
  state_after 1000 alloc_policy.BEST_FIT calls_slot0_second

/-- The chain of `state_slot0_second`: slot 1, slot 0, then slots 2 to 29. -/
def chain_slot0_second : List Nat := [1, 0] ++ List.range' 2 28

/-! ## The pool store -/

def MEM_POOL_STORE_INIT_CAPACITY : Nat := 20
def MEM_POOL_STORE_EXPAND_FACTOR : Nat := 2

/-- The static variables of `mem_pool.c` and the pool managers in memory.  A
`pool_mgr_pt` (and the `pool_pt` that `mem_pool_open` returns) is the number of a
manager in `mgrs`, the list of the managers that `calloc` has produced so far,
in which a manager that has been freed is `none`.  `pool_store = none` is the
`NULL` pointer; otherwise it is the array of `pool_mgr_pt`, one list element
per pointer of the allocated block. -/
structure store_t where
  pool_store : Option (List (Option Nat))
  pool_store_size : Nat
  pool_store_capacity : Nat
  mgrs : List (Option pool_mgr_t)
  deriving DecidableEq, Repr

/-- The static variables as they are initialised (lines 75-77), no manager
having been allocated. -/
def store_start : store_t :=
  { pool_store := none, pool_store_size := 0, pool_store_capacity := 0, mgrs := [] }

/-- `mem_init`. -/
def mem_init (w : store_t) : store_t × alloc_status :=
  match w.pool_store with
  | none =>
    ({ w with pool_store := some (List.replicate MEM_POOL_STORE_INIT_CAPACITY none)
              pool_store_capacity := MEM_POOL_STORE_INIT_CAPACITY },
     alloc_status.ALLOC_OK)
  | some _ => (w, alloc_status.ALLOC_CALLED_AGAIN)

/-- The loop of `mem_free`, `n` iterations left from index `i`: whether some
`pool_store[i]` is not `NULL`. -/
def store_scan (l : List (Option Nat)) : Nat → Nat → Option Bool
  | 0, _ => some false
  | n + 1, i =>
    match l[i]? with
    | none => none
    | some (some _) => some true
    | some none => store_scan l n (i + 1)

/-- `mem_free`. -/
def mem_free (w : store_t) : Option (store_t × alloc_status) :=
  match w.pool_store with
  | none => some (w, alloc_status.ALLOC_CALLED_AGAIN)
  | some l =>
    match store_scan l w.pool_store_size 0 with
    | none => none
    | some true => some (w, alloc_status.ALLOC_NOT_FREED)
    | some false =>
      some ({ w with pool_store_capacity := 0, pool_store_size := 0, pool_store := none },
            alloc_status.ALLOC_OK)

/-- The block returned by `realloc(pool_store, bytes)`: the old pointers that
fit, followed by as many further pointers as the new size holds (their content
is indeterminate in C and is taken to be `NULL`). -/
def realloc_pool_store (l : List (Option Nat)) (bytes : Nat) : List (Option Nat) :=
  let n := bytes / sizeof_pool_mgr_pt
  l.take n ++ List.replicate (n - l.length) none

/-- `_mem_resize_pool_store`.  The new block is sized with the fill factor:
`pool_store_capacity * 0.75f * sizeof(pool_mgr_pt)`, which is
`6 * pool_store_capacity` bytes (exact in `float` for a capacity below `2^22`),
while the capacity is multiplied by the expand factor. -/
def _mem_resize_pool_store (w : store_t) : Option (store_t × alloc_status) :=
  if fill_factor_reached w.pool_store_size w.pool_store_capacity then
    match w.pool_store with
    | none => none
    | some l =>
      some ({ w with
                pool_store := some (realloc_pool_store l (u64 (6 * w.pool_store_capacity)))
                pool_store_capacity :=
                  u32 (w.pool_store_capacity * MEM_POOL_STORE_EXPAND_FACTOR) },
            alloc_status.ALLOC_OK)
  else some (w, alloc_status.ALLOC_OK)

/-- The loop of `mem_pool_open` that links the new manager to the pool store
(lines 228-234), `n` iterations left from index `i`: the first `NULL` entry below
`pool_store_size` receives the pointer and `pool_store_size` is incremented. -/
def store_link (new_pmgr : Nat) : Nat → Nat → store_t → Option store_t
  | 0, _, w => some w
  | n + 1, i, w =>
    match w.pool_store with
    | none => none
    | some l =>
      match l[i]? with
      | none => none
      | some none =>
        some { w with pool_store := some (l.set i (some new_pmgr))
                      pool_store_size := u32 (w.pool_store_size + 1) }
      | some (some _) => store_link new_pmgr n (i + 1) w

/-- `mem_pool_open (size, policy)`: the store after the call and the pointer
returned.  The four allocations of the function (`calloc` of the manager,
`malloc` of the pool, `calloc` of the node heap and of the gap index) are taken
to succeed. -/
def mem_pool_open (w : store_t) (size : Nat) (policy : alloc_policy) :
    Option (store_t × Option Nat) :=
  match w.pool_store with
  | none => some (w, none)
  | some _ =>
    match _mem_resize_pool_store w with
    | none => none
    | some (w1, ret_status) =>
      if ret_status ≠ alloc_status.ALLOC_OK then none
      else
        let new_pmgr := w1.mgrs.length
        let w2 := { w1 with mgrs := w1.mgrs ++ [some (mem_pool_open_mgr size policy)] }
        match store_link new_pmgr w2.pool_store_size 0 w2 with
        | none => none
        | some w3 => some (w3, some new_pmgr)

/-- The pool manager that a pointer returned by `mem_pool_open` designates. -/
def mgr_of (w : store_t) (pool : Option Nat) : Option pool_mgr_t :=
  match pool with
  | none => none
  | some p => (w.mgrs[p]?).join

/-! ## Calls on the pool store -/

/-- Modelled from the spec: `pool_segment_t` is declared in the header
`mem_pool.h`, which is not part of the sources; `mem_inspect_pool` writes its
fields `size` and `allocated`, the pair that the spec lists for each segment. -/
structure pool_segment_t where
  size : Nat
  allocated : Nat
  deriving DecidableEq, Repr

/-- The first loop of `mem_inspect_pool` (lines 511-516), `n` iterations left
from slot `i`: the address of the first slot in service, or `NULL`. -/
def inspect_first_used (hs : List (List node_t)) (node_heap : Nat) :
    Nat → Nat → Option (Option NodeRef)
  | 0, _ => some none
  | n + 1, i =>
    match getNode hs (some { heap := node_heap, idx := i }) with
    | none => none
    | some x =>
      if x.used ≠ 0 then some (some { heap := node_heap, idx := i })
      else inspect_first_used hs node_heap n (i + 1)

/-- The last loop of `mem_inspect_pool` (lines 524-531), `n` iterations left
with index `i`: writes the size and the flag of `*it` to `new_seg_array[i]` and
follows `it->next` until `NULL`. -/
def inspect_emit (hs : List (List node_t)) :
    Nat → Nat → List pool_segment_t → NodeRef → Option (List pool_segment_t)
  | 0, _, segs, _ => some segs
  | n + 1, i, segs, it =>
    match getNode hs (some it) with
    | none => none
    | some x =>
      if i < segs.length then
        match x.next with
        | none => some (segs.set i { size := x.size, allocated := x.allocated })
        | some q =>
          inspect_emit hs n (i + 1) (segs.set i { size := x.size, allocated := x.allocated }) q
      else none

/-- `mem_inspect_pool (pool, &segments, &num_segments)`: the pool manager after
the call, the array stored to `*segments` and the number stored to
`*num_segments`.  The `calloc` of the array is taken to succeed.  The loop
`while (it->prev != NULL)` has no bound in the source; it visits a node twice
only if it never ends, so it is run for at most as many steps as there are
nodes in memory, and `none` also stands for a loop that does not end. -/
def mem_inspect_pool (st : pool_mgr_t) : Option (pool_mgr_t × List pool_segment_t × Nat) :=
  let new_seg_array : List pool_segment_t :=
    List.replicate st.used_nodes { size := 0, allocated := 0 }
  match inspect_first_used st.heaps st.node_heap st.total_nodes 0 with
  | none => none
  | some none => none
  | some (some it) =>
    match walk_prev st.heaps (memory_slots st.heaps) it with
    | none => none
    | some head =>
      match inspect_emit st.heaps st.total_nodes 0 new_seg_array head with
      | none => none
      | some segs => some (st, segs, st.used_nodes)

/-- The `(size, allocated)` records of the slots `c` of the current node heap. -/
def slot_records (st : pool_mgr_t) (c : List Nat) : List pool_segment_t :=
  c.map fun i => { size := (nd st.heaps st.node_heap i).size
                   allocated := (nd st.heaps st.node_heap i).allocated }

/-! ## Further invariants of the data model -/

/-- No two free segments are adjacent in the chain `c`. -/
def coalesced (st : pool_mgr_t) (c : List Nat) : Prop :=
  List.Chain' (fun a b => ¬ ((nd st.heaps st.node_heap a).allocated = 0 ∧
    (nd st.heaps st.node_heap b).allocated = 0)) c

/-- The sizes of the first `num_gaps` entries of the gap index are in
non-decreasing order. -/
def gap_sorted (st : pool_mgr_t) : Prop :=
  List.Sorted (fun a b => a ≤ b) ((gaps st).map gap_t.size)

/-! ## Further concrete states -/

/-- FIRST_FIT pool of 1000 bytes after 29 allocations of one byte and the
release of the second one: chain `[0, ..., 29]`, 30 of the 40 slots in service,
two gaps (1 byte in slot 1, 971 bytes in slot 29). -/
def state_two_gaps : pool_mgr_t := state_after 1000 alloc_policy.FIRST_FIT calls_two_gaps

/-- The size recorded in entry `k` of the gap index (`0` outside the block). -/
def gsz (g : List gap_t) (k : Nat) : Nat := ((g[k]?).map gap_t.size).getD 0

/-- The first `n` entries of the block `g` are in non-decreasing order of size,
they lie inside the block, and the block has at most `2^31` entries (so that the
`int` counter of `_mem_sort_gap_ix` holds every index). -/
def ginv (g : List gap_t) (n : Nat) : Prop :=
  (∀ a b, a < b → b < n → gsz g a ≤ gsz g b) ∧ n ≤ g.length ∧ g.length ≤ 2147483648

/-- The state `st'` differs from `st` at most in the gap index, its capacity and
`num_gaps`. -/
def same_but_gaps (st st' : pool_mgr_t) : Prop :=
  st'.heaps = st.heaps ∧ st'.node_heap = st.node_heap ∧ st'.total_nodes = st.total_nodes ∧
  st'.used_nodes = st.used_nodes ∧ st'.pool.policy = st.pool.policy ∧
  st'.pool.total_size = st.pool.total_size ∧ st'.pool.alloc_size = st.pool.alloc_size ∧
  st'.pool.num_allocs = st.pool.num_allocs

/-- The state `st'` has the policy, the pool size, the counters `alloc_size` and
`num_allocs`, the current node heap and the number of slots of `st`. -/
def same_counters (st st' : pool_mgr_t) : Prop :=
  st'.node_heap = st.node_heap ∧ st'.total_nodes = st.total_nodes ∧
  st'.pool.policy = st.pool.policy ∧ st'.pool.total_size = st.pool.total_size ∧
  st'.pool.alloc_size = st.pool.alloc_size ∧ st'.pool.num_allocs = st.pool.num_allocs

/-! ## Concrete inputs for the later claims -/

/-- FIRST_FIT, 78 calls.  29 allocations of one byte fill slots `0..28`; the
allocations in slots `1, 3, ..., 27` are freed (15 gaps with the last segment);
then, eleven times, two allocations of `k + 2` bytes are made and the first of
the two is freed (`k = 0, ..., 10`), which adds one gap each time; the first of
these allocations grows the segment array.  Two allocations of 13 bytes
follow. -/
def calls_forty_gaps : List Call :=
  List.replicate 29 (Call.alloc 1) ++ (List.range 14).map (fun k => Call.free (2 * k + 1)) ++
    ((List.range 11).map
      (fun k => [Call.alloc (k + 2), Call.alloc (k + 2), Call.free (29 + 2 * k)])).flatten ++
    [Call.alloc 13, Call.alloc 13]

/-- The BEST_FIT pool of 1000 bytes after the 32 calls of `calls_slot0_second`
and one more allocation of one byte, the call that grows the segment array. -/
def state_after_growth : pool_mgr_t :=
  state_after 1000 alloc_policy.BEST_FIT (calls_slot0_second ++ [Call.alloc 1])

/-- The fields of the node in slot `i` of the current node heap that describe
its place in the chain: size, `used`, `allocated`, `prev` and `next`. -/
def slot_links (st : pool_mgr_t) (i : Nat) : Nat × Nat × Nat × Option NodeRef × Option NodeRef :=
  ((nd st.heaps st.node_heap i).size, (nd st.heaps st.node_heap i).used,
   (nd st.heaps st.node_heap i).allocated, (nd st.heaps st.node_heap i).prev,
   (nd st.heaps st.node_heap i).next)

/-- Whether `coalesced` holds can be computed. -/
def coalesced_dec (st : pool_mgr_t) : (c : List Nat) → Decidable (coalesced st c)
  | [] => isTrue List.chain'_nil
  | [a] => isTrue (List.chain'_singleton a)
  | a :: b :: rest =>
    match coalesced_dec st (b :: rest) with
    | isTrue hr =>
      if h1 : (nd st.heaps st.node_heap a).allocated = 0 ∧
          (nd st.heaps st.node_heap b).allocated = 0 then
        isFalse fun hc => (List.chain'_cons.mp hc).1 h1
      else isTrue (List.chain'_cons.mpr ⟨h1, hr⟩)
    | isFalse hr => isFalse fun hc => hr (List.chain'_cons.mp hc).2

instance (st : pool_mgr_t) (c : List Nat) : Decidable (coalesced st c) := coalesced_dec st c

/-! ## The steps of `mem_new_alloc` -/

/-- The node with the given `size`, `mem`, `used`, `allocated`, `next` and
`prev`. -/
def node_of (size : Nat) (mem : Option Nat) (used allocated : Nat)
    (next prev : Option NodeRef) : node_t :=
  { size := size, mem := mem, used := used, allocated := allocated, next := next, prev := prev }

/-- The address of slot `i` of node heap `h`. -/
def slot (h i : Nat) : Option NodeRef := some { heap := h, idx := i }

/-- The gap-index entry with the given size and node. -/
def gap_of (size : Nat) (node : Option NodeRef) : gap_t := { size := size, node := node }

/-- The first segment array of the pool, as the growth step of the 44th call of
`calls_forty_gaps` leaves it. -/
def heap_before_growth : List node_t :=
  [node_of 1 (some 1) 1 1 (slot 0 1) none,
   node_of 1 (some 2) 1 0 (slot 0 2) (slot 0 0),
   node_of 1 (some 3) 1 1 (slot 0 3) (slot 0 1),
   node_of 1 (some 4) 1 0 (slot 0 4) (slot 0 2),
   node_of 1 (some 5) 1 1 (slot 0 5) (slot 0 3),
   node_of 1 (some 6) 1 0 (slot 0 6) (slot 0 4),
   node_of 1 (some 7) 1 1 (slot 0 7) (slot 0 5),
   node_of 1 (some 8) 1 0 (slot 0 8) (slot 0 6),
   node_of 1 (some 9) 1 1 (slot 0 9) (slot 0 7),
   node_of 1 (some 10) 1 0 (slot 0 10) (slot 0 8),
   node_of 1 (some 11) 1 1 (slot 0 11) (slot 0 9),
   node_of 1 (some 12) 1 0 (slot 0 12) (slot 0 10),
   node_of 1 (some 13) 1 1 (slot 0 13) (slot 0 11),
   node_of 1 (some 14) 1 0 (slot 0 14) (slot 0 12),
   node_of 1 (some 15) 1 1 (slot 0 15) (slot 0 13),
   node_of 1 (some 16) 1 0 (slot 0 16) (slot 0 14),
   node_of 1 (some 17) 1 1 (slot 0 17) (slot 0 15),
   node_of 1 (some 18) 1 0 (slot 0 18) (slot 0 16),
   node_of 1 (some 19) 1 1 (slot 0 19) (slot 0 17),
   node_of 1 (some 20) 1 0 (slot 0 20) (slot 0 18),
   node_of 1 (some 21) 1 1 (slot 0 21) (slot 0 19),
   node_of 1 (some 22) 1 0 (slot 0 22) (slot 0 20),
   node_of 1 (some 23) 1 1 (slot 0 23) (slot 0 21),
   node_of 1 (some 24) 1 0 (slot 0 24) (slot 0 22),
   node_of 1 (some 25) 1 1 (slot 0 25) (slot 0 23),
   node_of 1 (some 26) 1 0 (slot 0 26) (slot 0 24),
   node_of 1 (some 27) 1 1 (slot 0 27) (slot 0 25),
   node_of 1 (some 28) 1 0 (slot 0 28) (slot 0 26),
   node_of 1 (some 29) 1 1 (slot 0 29) (slot 0 27),
   node_of 971 none 1 0 none (slot 0 28)] ++
  List.replicate 10 node_zero

/-- The segment array of the pool after the first 44 calls of `calls_forty_gaps`. -/
def heap_after_44 : List node_t :=
  [node_of 1 (some 1) 1 1 (slot 1 1) none,
   node_of 1 (some 2) 1 0 (slot 1 2) (slot 1 0),
   node_of 1 (some 3) 1 1 (slot 1 3) (slot 1 1),
   node_of 1 (some 4) 1 0 (slot 1 4) (slot 1 2),
   node_of 1 (some 5) 1 1 (slot 1 5) (slot 1 3),
   node_of 1 (some 6) 1 0 (slot 1 6) (slot 1 4),
   node_of 1 (some 7) 1 1 (slot 1 7) (slot 1 5),
   node_of 1 (some 8) 1 0 (slot 1 8) (slot 1 6),
   node_of 1 (some 9) 1 1 (slot 1 9) (slot 1 7),
   node_of 1 (some 10) 1 0 (slot 1 10) (slot 1 8),
   node_of 1 (some 11) 1 1 (slot 1 11) (slot 1 9),
   node_of 1 (some 12) 1 0 (slot 1 12) (slot 1 10),
   node_of 1 (some 13) 1 1 (slot 1 13) (slot 1 11),
   node_of 1 (some 14) 1 0 (slot 1 14) (slot 1 12),
   node_of 1 (some 15) 1 1 (slot 1 15) (slot 1 13),
   node_of 1 (some 16) 1 0 (slot 1 16) (slot 1 14),
   node_of 1 (some 17) 1 1 (slot 1 17) (slot 1 15),
   node_of 1 (some 18) 1 0 (slot 1 18) (slot 1 16),
   node_of 1 (some 19) 1 1 (slot 1 19) (slot 1 17),
   node_of 1 (some 20) 1 0 (slot 1 20) (slot 1 18),
   node_of 1 (some 21) 1 1 (slot 1 21) (slot 1 19),
   node_of 1 (some 22) 1 0 (slot 1 22) (slot 1 20),
   node_of 1 (some 23) 1 1 (slot 1 23) (slot 1 21),
   node_of 1 (some 24) 1 0 (slot 1 24) (slot 1 22),
   node_of 1 (some 25) 1 1 (slot 1 25) (slot 1 23),
   node_of 1 (some 26) 1 0 (slot 1 26) (slot 1 24),
   node_of 1 (some 27) 1 1 (slot 1 27) (slot 1 25),
   node_of 1 (some 28) 1 0 (slot 1 28) (slot 1 26),
   node_of 1 (some 29) 1 1 (slot 1 29) (slot 1 27),
   node_of 2 (some 17) 1 1 (slot 1 30) (slot 1 28),
   node_of 969 none 1 0 none (slot 1 29)] ++
  List.replicate 49 node_zero

/-- The gap index after the first 44 calls of `calls_forty_gaps`. -/
def gap_ix_after_44 : List gap_t :=
  List.replicate 14 gap_zero ++
  [gap_of 1 (slot 1 1),
   gap_of 1 (slot 1 3),
   gap_of 1 (slot 1 5),
   gap_of 1 (slot 1 7),
   gap_of 1 (slot 1 9),
   gap_of 1 (slot 1 11),
   gap_of 1 (slot 1 13),
   gap_of 1 (slot 1 15),
   gap_of 1 (slot 1 17),
   gap_of 1 (slot 1 19),
   gap_of 1 (slot 1 21),
   gap_of 1 (slot 1 23),
   gap_of 1 (slot 1 25),
   gap_of 1 (slot 1 27),
   gap_of 969 (slot 1 30)] ++
  List.replicate 11 gap_zero

/-- The pool after the first 44 calls of `calls_forty_gaps`. -/
def state_after_44 : pool_mgr_t :=
  { pool := { policy := alloc_policy.FIRST_FIT, total_size := 1000,
              alloc_size := 17, num_allocs := 16, num_gaps := 29 }
    heaps := [heap_before_growth, heap_after_44]
    node_heap := 1
    total_nodes := 80
    used_nodes := 31
    gap_ix := gap_ix_after_44
    gap_ix_capacity := 40 }

/-- The segment array of the pool after the first 61 calls of `calls_forty_gaps`. -/
def heap_after_61 : List node_t :=
  [node_of 1 (some 1) 1 1 (slot 1 1) none,
   node_of 1 (some 2) 1 0 (slot 1 2) (slot 1 0),
   node_of 1 (some 3) 1 1 (slot 1 3) (slot 1 1),
   node_of 1 (some 4) 1 0 (slot 1 4) (slot 1 2),
   node_of 1 (some 5) 1 1 (slot 1 5) (slot 1 3),
   node_of 1 (some 6) 1 0 (slot 1 6) (slot 1 4),
   node_of 1 (some 7) 1 1 (slot 1 7) (slot 1 5),
   node_of 1 (some 8) 1 0 (slot 1 8) (slot 1 6),
   node_of 1 (some 9) 1 1 (slot 1 9) (slot 1 7),
   node_of 1 (some 10) 1 0 (slot 1 10) (slot 1 8),
   node_of 1 (some 11) 1 1 (slot 1 11) (slot 1 9),
   node_of 1 (some 12) 1 0 (slot 1 12) (slot 1 10),
   node_of 1 (some 13) 1 1 (slot 1 13) (slot 1 11),
   node_of 1 (some 14) 1 0 (slot 1 14) (slot 1 12),
   node_of 1 (some 15) 1 1 (slot 1 15) (slot 1 13),
   node_of 1 (some 16) 1 0 (slot 1 16) (slot 1 14),
   node_of 1 (some 17) 1 1 (slot 1 17) (slot 1 15),
   node_of 1 (some 18) 1 0 (slot 1 18) (slot 1 16),
   node_of 1 (some 19) 1 1 (slot 1 19) (slot 1 17),
   node_of 1 (some 20) 1 0 (slot 1 20) (slot 1 18),
   node_of 1 (some 21) 1 1 (slot 1 21) (slot 1 19),
   node_of 1 (some 22) 1 0 (slot 1 22) (slot 1 20),
   node_of 1 (some 23) 1 1 (slot 1 23) (slot 1 21),
   node_of 1 (some 24) 1 0 (slot 1 24) (slot 1 22),
   node_of 1 (some 25) 1 1 (slot 1 25) (slot 1 23),
   node_of 1 (some 26) 1 0 (slot 1 26) (slot 1 24),
   node_of 1 (some 27) 1 1 (slot 1 27) (slot 1 25),
   node_of 1 (some 28) 1 0 (slot 1 28) (slot 1 26),
   node_of 1 (some 29) 1 1 (slot 1 29) (slot 1 27),
   node_of 2 (some 17) 1 0 (slot 1 30) (slot 1 28),
   node_of 2 (some 19) 1 1 (slot 1 31) (slot 1 29),
   node_of 3 (some 20) 1 0 (slot 1 32) (slot 1 30),
   node_of 3 (some 23) 1 1 (slot 1 33) (slot 1 31),
   node_of 4 (some 24) 1 0 (slot 1 34) (slot 1 32),
   node_of 4 (some 28) 1 1 (slot 1 35) (slot 1 33),
   node_of 5 (some 29) 1 0 (slot 1 36) (slot 1 34),
   node_of 5 (some 34) 1 1 (slot 1 37) (slot 1 35),
   node_of 6 (some 35) 1 0 (slot 1 38) (slot 1 36),
   node_of 6 (some 41) 1 1 (slot 1 39) (slot 1 37),
   node_of 7 (some 42) 1 0 (slot 1 40) (slot 1 38),
   node_of 7 (some 49) 1 1 (slot 1 41) (slot 1 39),
   node_of 917 none 1 0 none (slot 1 40)] ++
  List.replicate 38 node_zero

/-- The gap index after the first 61 calls of `calls_forty_gaps`. -/
def gap_ix_after_61 : List gap_t :=
  List.replicate 14 gap_zero ++
  [gap_of 1 (slot 1 1),
   gap_of 1 (slot 1 3),
   gap_of 1 (slot 1 5),
   gap_of 1 (slot 1 7),
   gap_of 1 (slot 1 9),
   gap_of 1 (slot 1 11),
   gap_of 1 (slot 1 13),
   gap_of 1 (slot 1 15),
   gap_of 1 (slot 1 17),
   gap_of 1 (slot 1 19),
   gap_of 1 (slot 1 21),
   gap_of 1 (slot 1 23),
   gap_of 1 (slot 1 25),
   gap_of 1 (slot 1 27),
   gap_of 2 (slot 1 29),
   gap_of 3 (slot 1 31),
   gap_of 4 (slot 1 33),
   gap_of 5 (slot 1 35),
   gap_of 6 (slot 1 37),
   gap_of 7 (slot 1 39),
   gap_of 917 (slot 1 41)] ++
  List.replicate 5 gap_zero

/-- The pool after the first 61 calls of `calls_forty_gaps`. -/
def state_after_61 : pool_mgr_t :=
  { pool := { policy := alloc_policy.FIRST_FIT, total_size := 1000,
              alloc_size := 42, num_allocs := 21, num_gaps := 35 }
    heaps := [heap_before_growth, heap_after_61]
    node_heap := 1
    total_nodes := 80
    used_nodes := 42
    gap_ix := gap_ix_after_61
    gap_ix_capacity := 40 }

/-- The pointers returned by the allocations among the first `29 + k` calls that
allocate: slots `0..28` of the first segment array, then slots `29, 30, ...` of
the second one. -/
def handles_after (k : Nat) : List (Option NodeRef) :=
  (List.range 29).map (slot 0) ++ (List.range' 29 k).map (slot 1)

/-- What C21 reads of the pool `r.1` and of the pointers `r.2` that its
allocations have returned: the pointer returned by the 52nd allocation;
`num_gaps`, `gap_ix_capacity`, the number of entries of the block of the gap
index and its first entry; the segment in slot 51 and the allocation flags of
its two neighbours; the capacity and the number of entries after
`_mem_resize_gap_ix`; the number of entries of the block that its `realloc`
would return; the result of the insertion that the release of slot 51 makes, of
that release, and of the call `free` of the 52nd allocation. -/
def full_index_view (r : pool_mgr_t × List (Option NodeRef)) :
    Option (Option NodeRef) × (Nat × Nat × Nat × Option gap_t) ×
    ((Nat × Nat × Nat × Option NodeRef × Option NodeRef) × Nat × Nat) ×
    Option (Nat × Nat) × Nat ×
    Option (pool_mgr_t × alloc_status) × Option (pool_mgr_t × alloc_status) ×
    Option (pool_mgr_t × List (Option NodeRef)) :=
  (r.2[51]?,
   (r.1.pool.num_gaps, r.1.gap_ix_capacity, r.1.gap_ix.length, r.1.gap_ix[0]?),
   (slot_links r.1 51, (nd r.1.heaps r.1.node_heap 50).allocated,
     (nd r.1.heaps r.1.node_heap 52).allocated),
   (_mem_resize_gap_ix r.1).map (fun q => (q.1.gap_ix_capacity, q.1.gap_ix.length)),
   (realloc_gap_ix r.1.gap_ix
     (u64 (u32 (r.1.gap_ix_capacity * MEM_GAP_IX_EXPAND_FACTOR) * sizeof_pool_mgr_pt))).length,
   _mem_add_to_gap_ix (mark_free r.1 51) 13 (slot r.1.node_heap 51),
   mem_del_alloc r.1 { heap := r.1.node_heap, idx := 51 },
   run r.1 r.2 [Call.free 51])

/-! ## The split step of `mem_new_alloc` -/

/-- The slots `c` of heap `h` are linked by `next` in this order, and the last
of them has no successor: the walk `it = it->next` from the first slot of `c`
visits the slots of `c` and ends. -/
def next_run (hs : List (List node_t)) (h : Nat) : List Nat → Prop
  | [] => True
  | i :: rest => (nd hs h i).next = next_of h rest none ∧ next_run hs h rest

/-- Whether `next_run` holds can be computed. -/
def next_run_dec (hs : List (List node_t)) (h : Nat) : (c : List Nat) → Decidable (next_run hs h c)
  | [] => isTrue trivial
  | i :: rest =>
    match next_run_dec hs h rest with
    | isTrue hr =>
      if h1 : (nd hs h i).next = next_of h rest none then isTrue ⟨h1, hr⟩
      else isFalse fun hc => h1 hc.1
    | isFalse hr => isFalse fun hc => hr hc.2

instance (hs : List (List node_t)) (h : Nat) (c : List Nat) : Decidable (next_run hs h c) :=
  next_run_dec hs h c

theorem getNode_eq (hs : List (List node_t)) (h i : Nat) :
    getNode hs (some { heap := h, idx := i }) =
      if i < hlen hs h then some (nd hs h i) else none := by
  simp only [nd, hlen, getNode]
  cases hh : hs[h]? with
  | none => simp
  | some l =>
    by_cases hi : i < l.length
    · simp [hi, List.getElem?_eq_getElem]
    · simp [hi, List.getElem?_eq_none (Nat.le_of_not_lt hi)]

theorem setNode_eq (hs : List (List node_t)) (h i : Nat) (n : node_t) :
    setNode hs { heap := h, idx := i } n =
      if i < hlen hs h then some (upd hs { heap := h, idx := i } (fun _ => n)) else none := by
  simp only [upd, modNode, getNode, setNode, hlen]
  cases hh : hs[h]? with
  | none => simp
  | some l =>
    by_cases hi : i < l.length
    · simp [hi, List.getElem?_eq_getElem]
    · simp [hi, List.getElem?_eq_none (Nat.le_of_not_lt hi)]

theorem modNode_eq (hs : List (List node_t)) (h i : Nat) (f : node_t → node_t) :
    modNode hs (some { heap := h, idx := i }) f =
      if i < hlen hs h then some (upd hs { heap := h, idx := i } f) else none := by
  simp only [upd, modNode, getNode, setNode, hlen]
  cases hh : hs[h]? with
  | none => simp
  | some l =>
    by_cases hi : i < l.length
    · simp [hi, List.getElem?_eq_getElem]
    · simp [hi, List.getElem?_eq_none (Nat.le_of_not_lt hi)]

theorem upd_eq_set (hs : List (List node_t)) (h i : Nat) (f : node_t → node_t) (l : List node_t)
    (hh : hs[h]? = some l) (hi : i < l.length) :
    upd hs { heap := h, idx := i } f = hs.set h (l.set i (f l[i])) := by
  simp [upd, modNode, getNode, setNode, hh, hi, List.getElem?_eq_getElem]

theorem upd_eq_self (hs : List (List node_t)) (h i : Nat) (f : node_t → node_t)
    (hi : ¬ i < hlen hs h) : upd hs { heap := h, idx := i } f = hs := by
  unfold upd
  rw [modNode_eq]
  simp [hi]

theorem hlen_upd (hs : List (List node_t)) (r : NodeRef) (f : node_t → node_t) (h : Nat) :
    hlen (upd hs r f) h = hlen hs h := by
  obtain ⟨rh, ri⟩ := r
  by_cases hi : ri < hlen hs rh
  · have hi' := hi
    simp only [hlen] at hi'
    cases hh : hs[rh]? with
    | none => simp [hh] at hi'
    | some l =>
      simp only [hh, Option.getD_some] at hi'
      rw [upd_eq_set hs rh ri f l hh hi']
      have hlt : rh < hs.length := by
        by_contra hc
        rw [List.getElem?_eq_none (Nat.le_of_not_lt hc)] at hh
        exact Option.noConfusion hh
      simp only [hlen, List.getElem?_set]
      by_cases e : rh = h
      · subst e; simp [hlt, hh]
      · simp [e]
  · rw [upd_eq_self hs rh ri f hi]

theorem length_upd (hs : List (List node_t)) (r : NodeRef) (f : node_t → node_t) :
    (upd hs r f).length = hs.length := by
  obtain ⟨rh, ri⟩ := r
  by_cases hi : ri < hlen hs rh
  · have hi' := hi
    simp only [hlen] at hi'
    cases hh : hs[rh]? with
    | none => simp [hh] at hi'
    | some l =>
      simp only [hh, Option.getD_some] at hi'
      rw [upd_eq_set hs rh ri f l hh hi']
      simp
  · rw [upd_eq_self hs rh ri f hi]

theorem nd_upd (hs : List (List node_t)) (h i : Nat) (f : node_t → node_t) (h' j : Nat) :
    nd (upd hs { heap := h, idx := i } f) h' j =
      if h' = h ∧ j = i ∧ i < hlen hs h then f (nd hs h i) else nd hs h' j := by
  by_cases hi : i < hlen hs h
  · have hi' := hi
    simp only [hlen] at hi'
    cases hh : hs[h]? with
    | none => simp [hh] at hi'
    | some l =>
      simp only [hh, Option.getD_some] at hi'
      rw [upd_eq_set hs h i f l hh hi']
      have hlt : h < hs.length := by
        by_contra hc
        rw [List.getElem?_eq_none (Nat.le_of_not_lt hc)] at hh
        exact Option.noConfusion hh
      simp only [nd, getNode, hi, and_true, List.getElem?_set]
      by_cases e1 : h = h'
      · subst e1
        simp only [hlt, if_true, true_and, hh]
        by_cases e2 : i = j
        · subst e2
          simp [hi', List.getElem?_eq_getElem]
        · simp [e2, Ne.symm e2]
      · simp [e1, Ne.symm e1]
  · rw [upd_eq_self hs h i f hi]; simp [hi]

theorem getNode_cur (hs : List (List node_t)) (h i : Nat) (hi : i < hlen hs h) :
    getNode hs (some { heap := h, idx := i }) = some (nd hs h i) := by
  rw [getNode_eq, if_pos hi]

theorem modNode_cur (hs : List (List node_t)) (h i : Nat) (f : node_t → node_t)
    (hi : i < hlen hs h) :
    modNode hs (some { heap := h, idx := i }) f = some (upd hs { heap := h, idx := i } f) := by
  rw [modNode_eq, if_pos hi]

theorem setNode_cur (hs : List (List node_t)) (h i : Nat) (n : node_t) (hi : i < hlen hs h) :
    setNode hs { heap := h, idx := i } n = some (upd hs { heap := h, idx := i } (fun _ => n)) := by
  rw [setNode_eq, if_pos hi]

theorem nd_upd_same (hs : List (List node_t)) (h i : Nat) (f : node_t → node_t)
    (hi : i < hlen hs h) : nd (upd hs { heap := h, idx := i } f) h i = f (nd hs h i) := by
  rw [nd_upd]; simp [hi]

theorem nd_upd_ne (hs : List (List node_t)) (h i j : Nat) (f : node_t → node_t) (hne : j ≠ i) :
    nd (upd hs { heap := h, idx := i } f) h j = nd hs h j := by
  rw [nd_upd]; simp [hne]

theorem find_del_index_spec (hs : List (List node_t)) (h m : Nat) (hm : m < hlen hs h) :
    ∀ (n i : Nat), i ≤ m → m < i + n →
      find_del_index hs h { heap := h, idx := m } n i = some m
  | 0, i, h1, h2 => by omega
  | n + 1, i, h1, h2 => by
    have hi : i < hlen hs h := by omega
    by_cases e : i = m
    · subst e; simp [find_del_index, getNode_cur _ _ _ hi]
    · have : ¬ ({ heap := h, idx := i } : NodeRef) = { heap := h, idx := m } := by
        intro hc; exact e (by injection hc)
      simp only [find_del_index, getNode_cur _ _ _ hi, getNode_cur _ _ _ hm, this, if_false]
      exact find_del_index_spec hs h m hm n (i + 1) (by omega) (by omega)

theorem nodup_length_le : ∀ (c : List Nat) (n : Nat), c.Nodup → (∀ i ∈ c, i < n) → c.length ≤ n := by
  intro c n hnd hlt
  have hsub : c ⊆ List.range n := fun i hi => List.mem_range.mpr (hlt i hi)
  have := List.Subperm.length_le (List.subperm_of_subset hnd hsub)
  simpa using this

/-! ## Gap index lemmas -/

theorem gap_find_found (g : List gap_t) (node : Option NodeRef) (k : Nat) (e : gap_t)
    (hk : g[k]? = some e) (he : e.node = node)
    (hfirst : ∀ j, j < k → ∀ x, g[j]? = some x → x.node ≠ node) :
    ∀ (n i : Nat), i ≤ k → k < i + n → gap_find g node n i = some k
  | 0, i, h1, h2 => by omega
  | n + 1, i, h1, h2 => by
    by_cases hik : i = k
    · subst hik
      simp [gap_find, hk, he]
    · have hi : i < g.length := by
        have := (List.getElem?_eq_some_iff.mp hk).1
        omega
      simp only [gap_find, List.getElem?_eq_getElem hi]
      have hne := hfirst i (by omega) g[i] (List.getElem?_eq_getElem hi)
      simp only [hne, if_false]
      exact gap_find_found g node k e hk he hfirst n (i + 1) (by omega) (by omega)

theorem gap_shift_spec :
    ∀ (n : Nat) (g : List gap_t) (i : Nat), i + n < g.length →
      ∃ g', gap_shift g n i = some (g', i + n) ∧ g'.length = g.length ∧
        ∀ k, g'[k]? = if i ≤ k ∧ k < i + n then g[k + 1]? else g[k]?
  | 0, g, i, _ => ⟨g, by simp [gap_shift], rfl, fun k => by
      have : ¬ (i ≤ k ∧ k < i + 0) := by omega
      simp only [this, if_false]⟩
  | n + 1, g, i, h => by
    have hi : i < g.length := by omega
    have hi1 : i + 1 < g.length := by omega
    obtain ⟨g', h1, h2, h3⟩ := gap_shift_spec n (g.set i g[i + 1]) (i + 1) (by simp; omega)
    refine ⟨g', ?_, by simpa using h2, ?_⟩
    · simp only [gap_shift, List.getElem?_eq_getElem hi, List.getElem?_eq_getElem hi1]
      rw [h1]; simp; omega
    · intro k
      rw [h3 k]
      simp only [List.getElem?_set]
      by_cases c1 : i + 1 ≤ k ∧ k < i + 1 + n
      · have : ¬ i = k + 1 := by omega
        have c2 : i ≤ k ∧ k < i + (n + 1) := by omega
        simp [c1, c2, this]
      · by_cases c3 : i = k
        · subst c3
          have c2 : i ≤ i ∧ i < i + (n + 1) := by omega
          simp [c1, c2, hi, List.getElem?_eq_getElem hi1]
        · have c2 : ¬ (i ≤ k ∧ k < i + (n + 1)) := by omega
          simp [c1, c2, c3]

theorem sub32_one (a : Nat) (h1 : 0 < a) (h2 : a < 4294967296) : sub32 a 1 = a - 1 := by
  unfold sub32 u32
  omega

theorem remove_spec (st : pool_mgr_t) (sz : Nat) (node : Option NodeRef) (k : Nat) (e : gap_t)
    (hn : st.pool.num_gaps ≤ st.gap_ix.length) (hn32 : st.pool.num_gaps < 4294967296)
    (hk : k < st.pool.num_gaps) (hek : st.gap_ix[k]? = some e) (he : e.node = node)
    (hfirst : ∀ j, j < k → ∀ x, st.gap_ix[j]? = some x → x.node ≠ node) :
    ∃ g', _mem_remove_from_gap_ix st sz node =
        some ({ st with pool.num_gaps := st.pool.num_gaps - 1, gap_ix := g' }, alloc_status.ALLOC_OK) ∧
      g'.length = st.gap_ix.length ∧
      g'.take (st.pool.num_gaps - 1) = (st.gap_ix.take st.pool.num_gaps).eraseIdx k := by
  have hfind := gap_find_found st.gap_ix node k e hek he hfirst st.pool.num_gaps 0 (by omega) (by omega)
  obtain ⟨g1, hs1, hs2, hs3⟩ := gap_shift_spec (st.pool.num_gaps - 1 - k) st.gap_ix k (by omega)
  have hj : k + (st.pool.num_gaps - 1 - k) = st.pool.num_gaps - 1 := by omega
  rw [hj] at hs1 hs3
  refine ⟨g1.set (st.pool.num_gaps - 1) gap_zero, ?_, by simp [hs2], ?_⟩
  · unfold _mem_remove_from_gap_ix
    have h0 : st.pool.num_gaps ≠ 0 := by omega
    have hlt : st.pool.num_gaps - 1 < g1.length := by omega
    simp only [h0, if_false, hfind, hs1, hlt, if_true, sub32_one st.pool.num_gaps (by omega) hn32]
  · apply List.ext_getElem?
    intro m
    simp only [List.getElem?_take, List.getElem?_eraseIdx, List.getElem?_set, hs3]
    by_cases c1 : m < st.pool.num_gaps - 1
    · have c2 : ¬ st.pool.num_gaps - 1 = m := by omega
      have c3 : m < st.pool.num_gaps := by omega
      have c4 : m + 1 < st.pool.num_gaps := by omega
      by_cases c5 : m < k
      · have c6 : ¬ (k ≤ m ∧ m < st.pool.num_gaps - 1) := by omega
        simp [c1, c2, c3, c5, c6]
      · have c6 : (k ≤ m ∧ m < st.pool.num_gaps - 1) := by omega
        simp [c1, c2, c4, c5, c6]
    · by_cases c5 : m < k
      · omega
      · have c4 : ¬ m + 1 < st.pool.num_gaps := by omega
        simp [c1, c4, c5]

theorem swap_perm {α : Type} : ∀ (g : List α) (i : Nat) (x y : α),
    g[i]? = some x → g[i + 1]? = some y → ((g.set (i + 1) x).set i y).Perm g
  | [], _, _, _, h, _ => by simp at h
  | [_], 0, _, _, _, h => by simp at h
  | a :: b :: t, 0, x, y, h1, h2 => by
    simp at h1 h2
    subst h1; subst h2
    simp only [List.set_cons_succ, List.set_cons_zero]
    exact List.Perm.swap _ _ _
  | a :: t, i + 1, x, y, h1, h2 => by
    simp only [List.getElem?_cons_succ] at h1 h2
    simp only [List.set_cons_succ]
    exact List.Perm.cons a (swap_perm t i x y h1 h2)

theorem sort_loop_spec : ∀ (i : Nat) (g : List gap_t), i < g.length →
    ∃ g', sort_loop g i = some g' ∧ g'.length = g.length ∧ g'.Perm g ∧
      ∀ k, i < k → g'[k]? = g[k]?
  | 0, g, _ => ⟨g, by simp [sort_loop], rfl, List.Perm.refl _, fun _ _ => rfl⟩
  | i + 1, g, h => by
    have hi : i < g.length := by omega
    simp only [sort_loop, List.getElem?_eq_getElem hi, List.getElem?_eq_getElem h]
    split
    · obtain ⟨g', h1, h2, h3, h4⟩ :=
        sort_loop_spec i ((g.set (i + 1) g[i]).set i g[i + 1]) (by simp; omega)
      refine ⟨g', h1, by simpa using h2, ?_, ?_⟩
      · exact h3.trans (swap_perm g i g[i] g[i + 1] (List.getElem?_eq_getElem hi)
          (List.getElem?_eq_getElem h))
      · intro k hk
        rw [h4 k (by omega)]
        have e1 : ¬ i = k := by omega
        have e2 : ¬ i + 1 = k := by omega
        simp [List.getElem?_set, e1, e2]
    · obtain ⟨g', h1, h2, h3, h4⟩ := sort_loop_spec i g hi
      exact ⟨g', h1, h2, h3, fun k hk => h4 k (by omega)⟩

theorem sort_gap_ix_eq (st : pool_mgr_t) (h : 0 < st.pool.num_gaps) (h2 : st.pool.num_gaps ≤ 2147483648) :
    _mem_sort_gap_ix st =
      (sort_loop st.gap_ix (st.pool.num_gaps - 1)).map
        (fun g => ({ st with gap_ix := g }, alloc_status.ALLOC_OK)) := by
  have hs : sub32 st.pool.num_gaps 1 = st.pool.num_gaps - 1 := sub32_one _ h (by omega)
  have hlt : st.pool.num_gaps - 1 < 2147483648 := by omega
  unfold _mem_sort_gap_ix
  simp only [hs, hlt, if_true]
  cases sort_loop st.gap_ix (st.pool.num_gaps - 1) <;> rfl

theorem add_spec (st : pool_mgr_t) (sz : Nat) (node : Option NodeRef)
    (h1 : st.pool.num_gaps < st.gap_ix_capacity) (h2 : st.pool.num_gaps < st.gap_ix.length)
    (h3 : st.pool.num_gaps + 1 < 2147483648) :
    ∃ g', _mem_add_to_gap_ix st sz node =
        some ({ st with gap_ix := g', pool.num_gaps := st.pool.num_gaps + 1 }, alloc_status.ALLOC_OK) ∧
      g'.length = st.gap_ix.length ∧
      (g'.take (st.pool.num_gaps + 1)).Perm
        ({ size := sz, node := node } :: st.gap_ix.take st.pool.num_gaps) := by
  obtain ⟨g', s1, s2, s3, s4⟩ :=
    sort_loop_spec st.pool.num_gaps (st.gap_ix.set st.pool.num_gaps { size := sz, node := node })
      (by simpa using h2)
  refine ⟨g', ?_, by simpa using s2, ?_⟩
  · have hne : st.pool.num_gaps ≠ st.gap_ix_capacity := by omega
    have hu : u32 (st.pool.num_gaps + 1) = st.pool.num_gaps + 1 := by unfold u32; omega
    have hlt : st.pool.num_gaps < 2147483648 := by omega
    unfold _mem_add_to_gap_ix
    rw [if_neg hne]
    simp only []
    rw [if_pos h2]
    rw [sort_gap_ix_eq _ (by show 0 < u32 (st.pool.num_gaps + 1); rw [hu]; omega)
      (by show u32 (st.pool.num_gaps + 1) ≤ 2147483648; rw [hu]; omega)]
    show Option.map _ (sort_loop _ (u32 (st.pool.num_gaps + 1) - 1)) = _
    rw [hu, Nat.add_sub_cancel, s1]
    rfl
  · have hd : g'.drop (st.pool.num_gaps + 1) =
        (st.gap_ix.set st.pool.num_gaps { size := sz, node := node }).drop (st.pool.num_gaps + 1) := by
      apply List.ext_getElem?
      intro m
      simp only [List.getElem?_drop]
      exact s4 _ (by omega)
    have hp : (g'.take (st.pool.num_gaps + 1) ++ g'.drop (st.pool.num_gaps + 1)).Perm
        ((st.gap_ix.set st.pool.num_gaps { size := sz, node := node }).take (st.pool.num_gaps + 1) ++
          (st.gap_ix.set st.pool.num_gaps { size := sz, node := node }).drop (st.pool.num_gaps + 1)) := by
      rw [List.take_append_drop, List.take_append_drop]; exact s3
    rw [hd] at hp
    have hp2 := (List.perm_append_right_iff _).mp hp
    refine hp2.trans ?_
    have ht : (st.gap_ix.set st.pool.num_gaps { size := sz, node := node }).take (st.pool.num_gaps + 1) =
        st.gap_ix.take st.pool.num_gaps ++ [{ size := sz, node := node }] := by
      apply List.ext_getElem?
      intro m
      simp only [List.getElem?_take, List.getElem?_set, List.getElem?_append, List.length_take,
        Nat.min_eq_left (Nat.le_of_lt h2)]
      by_cases c1 : m < st.pool.num_gaps
      · have : ¬ st.pool.num_gaps = m := by omega
        have c2 : m < st.pool.num_gaps + 1 := by omega
        simp [c1, c2, this]
      · by_cases c2 : m = st.pool.num_gaps
        · subst c2; simp [h2]
        · have c3 : ¬ m < st.pool.num_gaps + 1 := by omega
          have c4 : ¬ m - st.pool.num_gaps = 0 := by omega
          simp [c1, c3]
          omega
    rw [ht]
    exact List.perm_append_singleton _ _

/-! ## Runs of the chain -/

theorem lseg_congr (hs hs' : List (List node_t)) (h : Nat) :
    ∀ (c : List Nat) (prev nxt : Option NodeRef), (∀ i ∈ c, nd hs' h i = nd hs h i) →
      (lseg hs' h prev c nxt ↔ lseg hs h prev c nxt)
  | [], _, _, _ => by simp [lseg]
  | i :: rest, prev, nxt, hc => by
    have hi := hc i (List.mem_cons_self _ _)
    have hr := lseg_congr hs hs' h rest (some { heap := h, idx := i }) nxt
      (fun j hj => hc j (List.mem_cons_of_mem _ hj))
    simp only [lseg, hi, hr]

theorem lseg_append (hs : List (List node_t)) (h : Nat) :
    ∀ (a b : List Nat) (prev nxt : Option NodeRef),
      lseg hs h prev (a ++ b) nxt ↔
        lseg hs h prev a (next_of h b nxt) ∧ lseg hs h (last_of h a prev) b nxt
  | [], b, prev, nxt => by simp [lseg, last_of]
  | [i], b, prev, nxt => by
    cases b <;> simp [lseg, last_of, next_of, and_assoc]
  | i :: j :: rest, b, prev, nxt => by
    have hr := lseg_append hs h (j :: rest) b (some { heap := h, idx := i }) nxt
    have hl : last_of h (i :: j :: rest) prev =
        last_of h (j :: rest) (some { heap := h, idx := i }) := by
      simp only [last_of, List.getLast?_cons_cons]
      rw [List.getLast?_eq_getLast _ (List.cons_ne_nil j rest)]
    have e1 : (i :: j :: rest) ++ b = i :: ((j :: rest) ++ b) := rfl
    rw [e1, lseg, hr, hl]
    simp only [lseg, next_of, List.cons_append, and_assoc]

theorem lseg_prev_irrel (hs : List (List node_t)) (h : Nat) (i : Nat) (rest : List Nat)
    (p nxt : Option NodeRef) (hl : lseg hs h p (i :: rest) nxt) :
    (nd hs h i).used = 1 ∧ (nd hs h i).next = next_of h rest nxt ∧
      lseg hs h (some { heap := h, idx := i }) rest nxt :=
  ⟨hl.1, hl.2.2.1, hl.2.2.2⟩


theorem hlen_merge_next_heaps (hs : List (List node_t)) (h m s h' : Nat) :
    hlen (merge_next_heaps hs h m s) h' = hlen hs h' := by
  unfold merge_next_heaps
  cases (nd hs h s).next <;> simp only [hlen_upd]

theorem merge_next_eval (st : pool_mgr_t) (m s : Nat) (g' : List gap_t)
    (hm : m < hlen st.heaps st.node_heap) (hs : s < hlen st.heaps st.node_heap) (hms : m ≠ s)
    (hnext : (nd st.heaps st.node_heap m).next = some { heap := st.node_heap, idx := s })
    (hfree : (nd st.heaps st.node_heap s).allocated = 0)
    (hrem : _mem_remove_from_gap_ix st (nd st.heaps st.node_heap s).size
        (some { heap := st.node_heap, idx := s }) =
      some ({ st with pool.num_gaps := st.pool.num_gaps - 1, gap_ix := g' }, alloc_status.ALLOC_OK))
    (hq : ∀ q, (nd st.heaps st.node_heap s).next = some q →
      q.heap = st.node_heap ∧ q.idx < hlen st.heaps st.node_heap ∧ q.idx ≠ m ∧ q.idx ≠ s)
    (hu1 : 0 < st.used_nodes) (hu2 : st.used_nodes < 4294967296) :
    merge_next st { heap := st.node_heap, idx := m } =
        some { st with pool.num_gaps := st.pool.num_gaps - 1, gap_ix := g',
                       heaps := merge_next_heaps st.heaps st.node_heap m s,
                       used_nodes := st.used_nodes - 1 } := by
  cases hnx : (nd st.heaps st.node_heap s).next with
  | none =>
    simp only [merge_next, merge_next_heaps, getNode_cur _ _ _ hm, hnext, getNode_cur _ _ _ hs, hfree,
      if_true, hrem,
      modNode_cur, hm, hs, hlen_upd, Option.bind_some, Option.some_bind, getNode_cur, nd_upd_same,
      nd_upd_ne _ _ _ _ _ (Ne.symm hms), nd_upd_ne _ _ _ _ _ hms, hnx,
      sub32_one _ hu1 hu2]
  | some q =>
    obtain ⟨q1, q2, q3, q4⟩ := hq q hnx
    obtain ⟨qh, qi⟩ := q
    simp only at q1 q2 q3 q4
    subst q1
    simp only [merge_next, merge_next_heaps, getNode_cur _ _ _ hm, hnext, getNode_cur _ _ _ hs, hfree,
      if_true, hrem,
      modNode_cur, hm, hs, q2, hlen_upd, Option.bind_some, Option.some_bind, getNode_cur, nd_upd_same,
      nd_upd_ne _ _ _ _ _ (Ne.symm hms), nd_upd_ne _ _ _ _ _ hms, hnx,
      nd_upd_ne _ _ _ _ _ (Ne.symm q4), nd_upd_ne _ _ _ _ _ (Ne.symm q3),
      sub32_one _ hu1 hu2]

theorem nd_merge_next_heaps (hs : List (List node_t)) (h m s : Nat)
    (hm : m < hlen hs h) (hs' : s < hlen hs h) (hms : m ≠ s)
    (hq : ∀ q, (nd hs h s).next = some q →
      q.heap = h ∧ q.idx < hlen hs h ∧ q.idx ≠ m ∧ q.idx ≠ s) (i : Nat) :
    nd (merge_next_heaps hs h m s) h i =
      if i = s then { nd hs h s with used := 0, next := none, prev := none, size := 0 }
      else if i = m then
        { nd hs h m with size := u64 ((nd hs h m).size + (nd hs h s).size)
                         next := (nd hs h s).next }
      else if (nd hs h s).next = some { heap := h, idx := i } then
        { nd hs h i with prev := some { heap := h, idx := m } }
      else nd hs h i := by
  cases hnx : (nd hs h s).next with
  | none =>
    by_cases e1 : i = s
    · subst e1
      simp [merge_next_heaps, nd_upd_same, hm, hs', hlen_upd, nd_upd_ne _ _ _ _ _ (Ne.symm hms), hnx]
    · by_cases e2 : i = m
      · subst e2
        simp [merge_next_heaps, nd_upd_same, hm, hs', hlen_upd, nd_upd_ne _ _ _ _ _ hms,
          nd_upd_ne _ _ _ _ _ e1, e1, hnx]
      · simp [merge_next_heaps, nd_upd_ne _ _ _ _ _ e1, nd_upd_ne _ _ _ _ _ e2, e1, e2, hnx]
  | some q =>
    obtain ⟨q1, q2, q3, q4⟩ := hq q hnx
    obtain ⟨qh, qi⟩ := q
    simp only at q1 q2 q3 q4
    subst q1
    by_cases e1 : i = s
    · subst e1
      simp [merge_next_heaps, nd_upd_same, hm, hs', q2, hlen_upd, nd_upd_ne _ _ _ _ _ (Ne.symm hms),
        hnx, nd_upd_ne _ _ _ _ _ (Ne.symm q4)]
    · by_cases e2 : i = m
      · subst e2
        simp [merge_next_heaps, nd_upd_same, hm, hs', q2, hlen_upd, nd_upd_ne _ _ _ _ _ hms,
          nd_upd_ne _ _ _ _ _ e1, e1,
          hnx, nd_upd_ne _ _ _ _ _ (Ne.symm q3), nd_upd_ne _ _ _ _ _ (Ne.symm q4)]
      · by_cases e3 : i = qi
        · subst e3
          simp [merge_next_heaps, nd_upd_same, hm, hs', q2, hlen_upd, nd_upd_ne _ _ _ _ _ e1,
            nd_upd_ne _ _ _ _ _ e2, e1, e2, hnx]
        · have : ¬ qi = i := fun hc => e3 hc.symm
          simp [merge_next_heaps, nd_upd_ne _ _ _ _ _ e1, nd_upd_ne _ _ _ _ _ e2,
            nd_upd_ne _ _ _ _ _ e3, e1, e2, this, hnx]


/-! ## Facts drawn from the invariant -/

theorem lseg_mid (hs : List (List node_t)) (h : Nat) (pre rest : List Nat) (m : Nat)
    (prev nxt : Option NodeRef) (hl : lseg hs h prev (pre ++ m :: rest) nxt) :
    lseg hs h prev pre (some { heap := h, idx := m }) ∧ (nd hs h m).used = 1 ∧
      (nd hs h m).prev = last_of h pre prev ∧ (nd hs h m).next = next_of h rest nxt ∧
      lseg hs h (some { heap := h, idx := m }) rest nxt := by
  rw [lseg_append] at hl
  obtain ⟨h1, h2⟩ := hl
  exact ⟨h1, h2.1, h2.2.1, h2.2.2.1, h2.2.2.2⟩

theorem eraseIdx_eq_filter {α β : Type} [DecidableEq β] (f : α → β) :
    ∀ (l : List α) (k : Nat) (e : α), (l.map f).Nodup → l[k]? = some e →
      l.eraseIdx k = l.filter (fun x => decide (f x ≠ f e))
  | [], _, _, _, h => by simp at h
  | a :: t, 0, e, hnd, h => by
    simp only [List.getElem?_cons_zero, Option.some.injEq] at h
    subst h
    simp only [List.map_cons, List.nodup_cons, List.mem_map, not_exists, not_and] at hnd
    simp only [List.eraseIdx_cons_zero, List.filter_cons, ne_eq, not_true_eq_false, decide_False,
      Bool.false_eq_true, if_false]
    symm
    rw [List.filter_eq_self]
    intro x hx
    simpa using hnd.1 x hx
  | a :: t, k + 1, e, hnd, h => by
    simp only [List.getElem?_cons_succ] at h
    simp only [List.map_cons, List.nodup_cons, List.mem_map, not_exists, not_and] at hnd
    have hmem : e ∈ t := List.mem_iff_getElem?.mpr ⟨k, h⟩
    have hne : f a ≠ f e := fun hc => hnd.1 e hmem hc.symm
    simp only [List.eraseIdx_cons_succ, List.filter_cons, hne, ne_eq, not_false_eq_true, decide_True,
      if_true]
    rw [eraseIdx_eq_filter f t k e hnd.2 h]

theorem gap_lookup (g : List gap_t) (n : Nat) (e : gap_t) (hn : n ≤ g.length)
    (hnd : ((g.take n).map gap_t.node).Nodup) (he : e ∈ g.take n) :
    ∃ k, k < n ∧ g[k]? = some e ∧ (g.take n)[k]? = some e ∧
      ∀ j, j < k → ∀ x, g[j]? = some x → x.node ≠ e.node := by
  obtain ⟨k, hk⟩ := List.getElem?_of_mem he
  have hkn : k < n := by
    have := (List.getElem?_eq_some_iff.mp hk).1
    simp at this; omega
  have hgk : g[k]? = some e := by
    rw [List.getElem?_take] at hk
    simpa [hkn] using hk
  refine ⟨k, hkn, hgk, hk, ?_⟩
  intro j hj x hx hc
  have hjn : j < n := by omega
  have h1 : ((g.take n).map gap_t.node)[j]? = some x.node := by
    simp [List.getElem?_map, List.getElem?_take, hjn, hx]
  have h2 : ((g.take n).map gap_t.node)[k]? = some e.node := by
    rw [List.getElem?_map, hk]; rfl
  rw [hc, ← h2] at h1
  have hjl : j < ((g.take n).map gap_t.node).length := by
    simp; omega
  have hkl : k < ((g.take n).map gap_t.node).length := by
    simp; omega
  rw [List.getElem?_eq_getElem hjl, List.getElem?_eq_getElem hkl, Option.some.injEq] at h1
  have := (List.Nodup.getElem_inj_iff hnd).mp h1
  omega


theorem merge_next_free (st : pool_mgr_t) (pre post : List Nat) (m s : Nat)
    (hwf : wf st (pre ++ m :: s :: post) (some m))
    (hsf : (nd st.heaps st.node_heap s).allocated = 0) :
    ∃ st', merge_next st { heap := st.node_heap, idx := m } = some st' ∧
      wf st' (pre ++ m :: post) (some m) ∧ merge_rel st st' m s := by
  -- the slots involved
  have hnd := hwf.nodup
  simp only [List.nodup_append, List.nodup_cons, List.mem_cons, not_or, List.disjoint_cons_right,
    List.Disjoint] at hnd
  obtain ⟨hpre_nd, ⟨⟨hms, hm_post⟩, hs_post, hpost_nd⟩, hdisj⟩ := hnd
  have hm_pre : m ∉ pre := fun hc => hdisj hc (Or.inl rfl)
  have hs_pre : s ∉ pre := fun hc => hdisj hc (Or.inr (Or.inl rfl))
  have hpp : ∀ i, i ∈ pre → i ∉ post := fun i hi hc => hdisj hi (Or.inr (Or.inr hc))
  have hmN : m < hlen st.heaps st.node_heap := by
    rw [hwf.heap_len]; exact hwf.in_range m (by simp)
  have hsN : s < hlen st.heaps st.node_heap := by
    rw [hwf.heap_len]; exact hwf.in_range s (by simp)
  -- the links
  obtain ⟨L1, um, pm, nm, L2⟩ := lseg_mid _ _ pre (s :: post) m none none hwf.chain
  obtain ⟨us, ps, ns, L3⟩ := L2
  -- the gap-index entry of `s`
  obtain ⟨e, he, hen⟩ := hwf.gap_complete s (by simp) (by simp; exact fun hc => hms hc.symm) hsf
  have hng : st.pool.num_gaps ≤ st.gap_ix.length := Nat.le_trans hwf.gaps_le hwf.cap_le
  obtain ⟨k, hk1, hk2, hk3, hk4⟩ := gap_lookup st.gap_ix st.pool.num_gaps e hng hwf.gap_nodup he
  obtain ⟨g', hrem, hg1, hg2⟩ := remove_spec st (nd st.heaps st.node_heap s).size
    (some { heap := st.node_heap, idx := s }) k e hng
    (by have := hwf.gaps_le; have := hwf.cap_lt; omega) hk1 hk2 hen (by rw [← hen]; exact hk4)
  have hgaps : (g'.take (st.pool.num_gaps - 1)) =
      (gaps st).filter (fun x => decide (x.node ≠ some { heap := st.node_heap, idx := s })) := by
    rw [hg2, eraseIdx_eq_filter gap_t.node (st.gap_ix.take st.pool.num_gaps) k e hwf.gap_nodup hk3, hen]
    rfl
  -- the successor of `s`
  have hq : ∀ q, (nd st.heaps st.node_heap s).next = some q →
      q.heap = st.node_heap ∧ q.idx < hlen st.heaps st.node_heap ∧ q.idx ≠ m ∧ q.idx ≠ s := by
    intro q hq
    rw [ns] at hq
    cases post with
    | nil => simp [next_of] at hq
    | cons q0 post' =>
      simp only [next_of, Option.some.injEq] at hq
      subst hq
      refine ⟨rfl, ?_, ?_, ?_⟩
      · rw [hwf.heap_len]; exact hwf.in_range q0 (by simp)
      · show q0 ≠ m
        exact fun hc => hm_post (hc ▸ List.mem_cons_self _ _)
      · show q0 ≠ s
        exact fun hc => hs_post (hc ▸ List.mem_cons_self _ _)
  have hlen := nodup_length_le _ _ hwf.nodup hwf.in_range
  have hu1 : 0 < st.used_nodes := by rw [hwf.used_count]; simp
  have hu2 : st.used_nodes < 4294967296 := by
    rw [hwf.used_count]; have := hwf.total_lt; omega
  have heval := merge_next_eval st m s g' hmN hsN hms nm hsf hrem hq hu1 hu2
  have hnode := nd_merge_next_heaps st.heaps st.node_heap m s hmN hsN hms hq
  -- sizes do not overflow
  have hsum := hwf.sizes
  simp only [List.map_append, List.map_cons, List.sum_append, List.sum_cons] at hsum
  have hsz : u64 ((nd st.heaps st.node_heap m).size + (nd st.heaps st.node_heap s).size) =
      (nd st.heaps st.node_heap m).size + (nd st.heaps st.node_heap s).size := by
    have := hwf.size_lt
    unfold u64
    omega
  -- nodes other than `m` and `s`
  have hpre_same : ∀ i ∈ pre, nd (merge_next_heaps st.heaps st.node_heap m s) st.node_heap i =
      nd st.heaps st.node_heap i := by
    intro i hi
    rw [hnode i]
    have e1 : i ≠ s := fun hc => hs_pre (hc ▸ hi)
    have e2 : i ≠ m := fun hc => hm_pre (hc ▸ hi)
    have e3 : ¬ (nd st.heaps st.node_heap s).next = some { heap := st.node_heap, idx := i } := by
      rw [ns]
      cases post with
      | nil => simp [next_of]
      | cons q0 post' =>
        simp only [next_of, Option.some.injEq, NodeRef.mk.injEq, true_and]
        exact fun hc => hpp i hi (by simp [hc])
    simp only [e1, e2, e3, if_false]
  refine ⟨_, heval, ?_, ?_⟩
  · -- the invariant
    refine
      { heap_len := by simp only [hlen_merge_next_heaps]; exact hwf.heap_len
        total_lt := hwf.total_lt
        nodup := ?_
        in_range := fun i hi => hwf.in_range i (by
          simp only [List.mem_append, List.mem_cons] at hi ⊢
          rcases hi with hi | hi | hi
          · exact Or.inl hi
          · exact Or.inr (Or.inl hi)
          · exact Or.inr (Or.inr (Or.inr hi)))
        chain := ?_
        unused := ?_
        used_count := ?_
        sizes := ?_
        size_lt := hwf.size_lt
        gaps_le := by
          show st.pool.num_gaps - 1 ≤ st.gap_ix_capacity
          have := hwf.gaps_le; omega
        cap_le := by
          show st.gap_ix_capacity ≤ g'.length
          rw [hg1]; exact hwf.cap_le
        cap_lt := hwf.cap_lt
        gap_nodup := ?_
        gap_sound := ?_
        gap_complete := ?_ }
    · simp only [List.nodup_append, List.nodup_cons, List.Disjoint, List.mem_cons]
      exact ⟨hpre_nd, ⟨hm_post, hpost_nd⟩, fun i hi hc => by
        rcases hc with hc | hc
        · exact hm_pre (hc ▸ hi)
        · exact hpp i hi hc⟩
    · -- chain
      show lseg (merge_next_heaps st.heaps st.node_heap m s) st.node_heap none
        (pre ++ m :: post) none
      rw [lseg_append]
      refine ⟨?_, ?_⟩
      · rw [lseg_congr _ _ _ pre _ _ hpre_same]; exact L1
      · have hm' := hnode m
        simp only [hms, if_false, if_true] at hm'
        refine ⟨by rw [hm']; exact um, by rw [hm']; exact pm, by rw [hm']; exact ns, ?_⟩
        cases post with
        | nil => trivial
        | cons q0 post' =>
          have hq0 := hnode q0
          have e1 : q0 ≠ s := fun hc => hs_post (by simp [hc])
          have e2 : q0 ≠ m := fun hc => hm_post (by simp [hc])
          have e3 : (nd st.heaps st.node_heap s).next = some { heap := st.node_heap, idx := q0 } := by
            rw [ns]; rfl
          simp only [e1, e2, e3, if_false, if_true] at hq0
          obtain ⟨uq, pq, nq, L4⟩ := L3
          refine ⟨by rw [hq0]; exact uq, by rw [hq0], by rw [hq0]; exact nq, ?_⟩
          have hpost_same : ∀ i ∈ post', nd (merge_next_heaps st.heaps st.node_heap m s)
              st.node_heap i = nd st.heaps st.node_heap i := by
            intro i hi
            rw [hnode i]
            have f1 : i ≠ s := fun hc => hs_post (by simp [← hc, hi])
            have f2 : i ≠ m := fun hc => hm_post (by simp [← hc, hi])
            have f3 : ¬ (nd st.heaps st.node_heap s).next =
                some { heap := st.node_heap, idx := i } := by
              rw [e3]
              simp only [Option.some.injEq, NodeRef.mk.injEq, true_and]
              intro hc
              simp only [List.nodup_cons] at hpost_nd
              exact hpost_nd.1 (hc ▸ hi)
            simp only [f1, f2, f3, if_false]
          rw [lseg_congr _ _ _ post' _ _ hpost_same]; exact L4
    · -- slots outside the chain
      intro i hi hni
      show (nd (merge_next_heaps st.heaps st.node_heap m s) st.node_heap i).used = 0 ∧
        (nd (merge_next_heaps st.heaps st.node_heap m s) st.node_heap i).next = none
      rw [hnode i]
      by_cases e1 : i = s
      · simp [e1]
      · have e2 : i ≠ m := fun hc => hni (by simp [hc])
        have hni' : i ∉ pre ++ m :: s :: post := by
          simp only [List.mem_append, List.mem_cons, not_or] at hni ⊢
          exact ⟨hni.1, hni.2.1, e1, hni.2.2⟩
        have hun := hwf.unused i hi hni'
        have e3 : ¬ (nd st.heaps st.node_heap s).next =
            some { heap := st.node_heap, idx := i } := by
          rw [ns]
          cases post with
          | nil => simp [next_of]
          | cons q0 post' =>
            simp only [next_of, Option.some.injEq, NodeRef.mk.injEq, true_and]
            intro hc
            exact hni (by simp [hc])
        simp only [e1, e2, e3, if_false]
        exact hun
    · show st.used_nodes - 1 = (pre ++ m :: post).length
      rw [hwf.used_count]; simp
    · -- sizes
      show ((pre ++ m :: post).map fun i =>
        (nd (merge_next_heaps st.heaps st.node_heap m s) st.node_heap i).size).sum = st.pool.total_size
      have hm' := hnode m
      simp only [hms, if_false, if_true] at hm'
      have hpost_size : ∀ i ∈ post, (nd (merge_next_heaps st.heaps st.node_heap m s)
          st.node_heap i).size = (nd st.heaps st.node_heap i).size := by
        intro i hi
        rw [hnode i]
        have f1 : i ≠ s := fun hc => hs_post (hc ▸ hi)
        have f2 : i ≠ m := fun hc => hm_post (hc ▸ hi)
        simp only [f1, f2, if_false]
        split <;> rfl
      simp only [List.map_append, List.map_cons, List.sum_append, List.sum_cons]
      rw [List.map_congr_left (fun i hi => congrArg node_t.size (hpre_same i hi)),
        List.map_congr_left hpost_size, hm']
      simp only [hsz]
      omega
    · show ((List.take (st.pool.num_gaps - 1) g').map gap_t.node).Nodup
      rw [hgaps]
      exact (hwf.gap_nodup).sublist ((List.filter_sublist _).map _)
    · intro x hx
      change x ∈ List.take (st.pool.num_gaps - 1) g' at hx
      rw [hgaps, List.mem_filter] at hx
      obtain ⟨hx1, hx2⟩ := hx
      obtain ⟨i, hi, h1, h2, h3, h4⟩ := hwf.gap_sound x hx1
      have e1 : i ≠ s := by
        intro hc; subst hc
        simp [h1] at hx2
      have e2 : i ≠ m := fun hc => h2 (by rw [hc])
      refine ⟨i, ?_, h1, h2, ?_, ?_⟩
      · simp only [List.mem_append, List.mem_cons] at hi ⊢
        rcases hi with hi | hi | hi | hi
        · exact Or.inl hi
        · exact absurd hi e2
        · exact absurd hi e1
        · exact Or.inr (Or.inr hi)
      · show (nd (merge_next_heaps st.heaps st.node_heap m s) st.node_heap i).allocated = 0
        rw [hnode i]; simp only [e1, e2, if_false]
        split <;> exact h3
      · show x.size = (nd (merge_next_heaps st.heaps st.node_heap m s) st.node_heap i).size
        rw [hnode i]; simp only [e1, e2, if_false]
        split <;> exact h4
    · intro i hi hne hfree
      change (nd (merge_next_heaps st.heaps st.node_heap m s) st.node_heap i).allocated = 0 at hfree
      show ∃ x ∈ List.take (st.pool.num_gaps - 1) g', x.node = some { heap := st.node_heap, idx := i }
      have e2 : i ≠ m := fun hc => hne (by rw [hc])
      have e1 : i ≠ s := by
        intro hc; subst hc
        simp only [List.mem_append, List.mem_cons] at hi
        rcases hi with hi | hi | hi
        · exact hs_pre hi
        · exact hms hi.symm
        · exact hs_post hi
      rw [hnode i] at hfree
      simp only [e1, e2, if_false] at hfree
      have hfree' : (nd st.heaps st.node_heap i).allocated = 0 := by
        split at hfree <;> exact hfree
      obtain ⟨x, hx1, hx2⟩ := hwf.gap_complete i (by
        simp only [List.mem_append, List.mem_cons] at hi ⊢
        rcases hi with hi | hi | hi
        · exact Or.inl hi
        · exact Or.inr (Or.inl hi)
        · exact Or.inr (Or.inr (Or.inr hi))) hne hfree'
      refine ⟨x, ?_, hx2⟩
      rw [hgaps, List.mem_filter]
      refine ⟨hx1, ?_⟩
      simp only [hx2, ne_eq, Option.some.injEq, NodeRef.mk.injEq, true_and, decide_eq_true_eq]
      exact e1
  · -- what the step did
    refine
      { same_policy := rfl, same_total_size := rfl, same_alloc_size := rfl, same_num_allocs := rfl,
        node_heap := rfl
        total_nodes := rfl, gap_ix_capacity := rfl
        gaps_down := by show st.pool.num_gaps - 1 + 1 = st.pool.num_gaps; omega
        used_nodes := by show st.used_nodes - 1 + 1 = st.used_nodes; omega
        gaps := hgaps
        others := ?_
        size := ?_
        allocated := ?_ }
    · intro i e2 e1
      show (nd (merge_next_heaps st.heaps st.node_heap m s) st.node_heap i).size = _ ∧
        (nd (merge_next_heaps st.heaps st.node_heap m s) st.node_heap i).allocated = _
      rw [hnode i]; simp only [e1, e2, if_false]
      split <;> exact ⟨rfl, rfl⟩
    · show (nd (merge_next_heaps st.heaps st.node_heap m s) st.node_heap m).size = _
      rw [hnode m]; simp only [hms, if_false, if_true]
      exact hsz
    · show (nd (merge_next_heaps st.heaps st.node_heap m s) st.node_heap m).allocated = _
      rw [hnode m]; simp only [hms, if_false, if_true]


theorem hlen_merge_prev_heaps (hs : List (List node_t)) (h m p h' : Nat) :
    hlen (merge_prev_heaps hs h m p) h' = hlen hs h' := by
  unfold merge_prev_heaps
  cases (nd hs h p).prev <;> simp only [hlen_upd]

theorem merge_prev_eval (st : pool_mgr_t) (m p : Nat) (g' : List gap_t)
    (hm : m < hlen st.heaps st.node_heap) (hp : p < hlen st.heaps st.node_heap) (hmp : m ≠ p)
    (hprev : (nd st.heaps st.node_heap m).prev = some { heap := st.node_heap, idx := p })
    (hfree : (nd st.heaps st.node_heap p).allocated = 0)
    (hrem : _mem_remove_from_gap_ix st (nd st.heaps st.node_heap p).size
        (some { heap := st.node_heap, idx := p }) =
      some ({ st with pool.num_gaps := st.pool.num_gaps - 1, gap_ix := g' }, alloc_status.ALLOC_OK))
    (hq : ∀ q, (nd st.heaps st.node_heap p).prev = some q →
      q.heap = st.node_heap ∧ q.idx < hlen st.heaps st.node_heap ∧ q.idx ≠ m ∧ q.idx ≠ p)
    (hu1 : 0 < st.used_nodes) (hu2 : st.used_nodes < 4294967296) :
    merge_prev st { heap := st.node_heap, idx := m } =
        some { st with pool.num_gaps := st.pool.num_gaps - 1, gap_ix := g',
                       heaps := merge_prev_heaps st.heaps st.node_heap m p,
                       used_nodes := st.used_nodes - 1 } := by
  cases hnx : (nd st.heaps st.node_heap p).prev with
  | none =>
    simp only [merge_prev, merge_prev_heaps, getNode_cur _ _ _ hm, hprev, getNode_cur _ _ _ hp, hfree,
      if_true, hrem,
      modNode_cur, hm, hp, hlen_upd, Option.bind_some, Option.some_bind, getNode_cur, nd_upd_same,
      nd_upd_ne _ _ _ _ _ (Ne.symm hmp), nd_upd_ne _ _ _ _ _ hmp, hnx,
      sub32_one _ hu1 hu2]
  | some q =>
    obtain ⟨q1, q2, q3, q4⟩ := hq q hnx
    obtain ⟨qh, qi⟩ := q
    simp only at q1 q2 q3 q4
    subst q1
    simp only [merge_prev, merge_prev_heaps, getNode_cur _ _ _ hm, hprev, getNode_cur _ _ _ hp, hfree,
      if_true, hrem,
      modNode_cur, hm, hp, q2, hlen_upd, Option.bind_some, Option.some_bind, getNode_cur, nd_upd_same,
      nd_upd_ne _ _ _ _ _ (Ne.symm hmp), nd_upd_ne _ _ _ _ _ hmp, hnx,
      nd_upd_ne _ _ _ _ _ (Ne.symm q4), nd_upd_ne _ _ _ _ _ (Ne.symm q3),
      sub32_one _ hu1 hu2]

theorem nd_merge_prev_heaps (hs : List (List node_t)) (h m p : Nat)
    (hm : m < hlen hs h) (hp : p < hlen hs h) (hmp : m ≠ p)
    (hq : ∀ q, (nd hs h p).prev = some q →
      q.heap = h ∧ q.idx < hlen hs h ∧ q.idx ≠ m ∧ q.idx ≠ p) (i : Nat) :
    nd (merge_prev_heaps hs h m p) h i =
      if i = p then { nd hs h p with used := 0, next := none, prev := none, size := 0 }
      else if i = m then
        { nd hs h m with size := u64 ((nd hs h m).size + (nd hs h p).size)
                         prev := (nd hs h p).prev }
      else if (nd hs h p).prev = some { heap := h, idx := i } then
        { nd hs h i with next := some { heap := h, idx := m } }
      else nd hs h i := by
  cases hnx : (nd hs h p).prev with
  | none =>
    by_cases e1 : i = p
    · subst e1
      simp [merge_prev_heaps, nd_upd_same, hm, hp, hlen_upd, nd_upd_ne _ _ _ _ _ (Ne.symm hmp), hnx]
    · by_cases e2 : i = m
      · subst e2
        simp [merge_prev_heaps, nd_upd_same, hm, hp, hlen_upd, nd_upd_ne _ _ _ _ _ hmp,
          nd_upd_ne _ _ _ _ _ e1, e1, hnx]
      · simp [merge_prev_heaps, nd_upd_ne _ _ _ _ _ e1, nd_upd_ne _ _ _ _ _ e2, e1, e2, hnx]
  | some q =>
    obtain ⟨q1, q2, q3, q4⟩ := hq q hnx
    obtain ⟨qh, qi⟩ := q
    simp only at q1 q2 q3 q4
    subst q1
    by_cases e1 : i = p
    · subst e1
      simp [merge_prev_heaps, nd_upd_same, hm, hp, q2, hlen_upd, nd_upd_ne _ _ _ _ _ (Ne.symm hmp),
        hnx, nd_upd_ne _ _ _ _ _ (Ne.symm q4)]
    · by_cases e2 : i = m
      · subst e2
        simp [merge_prev_heaps, nd_upd_same, hm, hp, q2, hlen_upd, nd_upd_ne _ _ _ _ _ hmp,
          nd_upd_ne _ _ _ _ _ e1, e1,
          hnx, nd_upd_ne _ _ _ _ _ (Ne.symm q3), nd_upd_ne _ _ _ _ _ (Ne.symm q4)]
      · by_cases e3 : i = qi
        · subst e3
          simp [merge_prev_heaps, nd_upd_same, hm, hp, q2, hlen_upd, nd_upd_ne _ _ _ _ _ e1,
            nd_upd_ne _ _ _ _ _ e2, e1, e2, hnx]
        · have : ¬ qi = i := fun hc => e3 hc.symm
          simp [merge_prev_heaps, nd_upd_ne _ _ _ _ _ e1, nd_upd_ne _ _ _ _ _ e2,
            nd_upd_ne _ _ _ _ _ e3, e1, e2, this, hnx]

theorem last_of_mem (h : Nat) : ∀ (a : List Nat) (i : Nat),
    last_of h a none = some { heap := h, idx := i } → i ∈ a
  | [], i, hc => by simp [last_of] at hc
  | x :: rest, i, hc => by
    simp only [last_of] at hc
    rw [List.getLast?_eq_getLast _ (List.cons_ne_nil x rest)] at hc
    simp only [Option.some.injEq, NodeRef.mk.injEq, true_and] at hc
    rw [← hc]
    exact List.getLast_mem _

theorem last_of_cons_cons (h : Nat) (i j : Nat) (rest : List Nat) (p : Option NodeRef) :
    last_of h (i :: j :: rest) p = last_of h (j :: rest) none := by
  simp only [last_of, List.getLast?_cons_cons]
  rw [List.getLast?_eq_getLast _ (List.cons_ne_nil j rest)]

theorem lseg_relink_last (hs hs' : List (List node_t)) (h : Nat) (t t' : Option NodeRef) :
    ∀ (a : List Nat) (prev : Option NodeRef), a.Nodup → lseg hs h prev a t →
      (∀ i ∈ a, nd hs' h i =
        if last_of h a none = some { heap := h, idx := i } then { nd hs h i with next := t' }
        else nd hs h i) →
      lseg hs' h prev a t'
  | [], _, _, _, _ => trivial
  | [i], prev, _, hl, hc => by
    have hi := hc i (List.mem_cons_self _ _)
    simp only [last_of, List.getLast?_singleton, if_true] at hi
    exact ⟨by rw [hi]; exact hl.1, by rw [hi]; exact hl.2.1, by rw [hi]; rfl, trivial⟩
  | i :: j :: rest, prev, hnd, hl, hc => by
    have hi := hc i (List.mem_cons_self _ _)
    simp only [List.nodup_cons] at hnd
    have hne : ¬ last_of h (i :: j :: rest) none = some { heap := h, idx := i } := by
      rw [last_of_cons_cons]
      intro hx
      exact hnd.1 (last_of_mem h _ _ hx)
    simp only [hne, if_false] at hi
    refine ⟨by rw [hi]; exact hl.1, by rw [hi]; exact hl.2.1, by rw [hi]; exact hl.2.2.1, ?_⟩
    refine lseg_relink_last hs hs' h t t' (j :: rest) _ (List.nodup_cons.mpr hnd.2) hl.2.2.2 ?_
    intro x hx
    have := hc x (List.mem_cons_of_mem _ hx)
    rw [last_of_cons_cons] at this
    exact this


theorem merge_prev_free (st : pool_mgr_t) (pre post : List Nat) (p m : Nat)
    (hwf : wf st (pre ++ p :: m :: post) (some m))
    (hpf : (nd st.heaps st.node_heap p).allocated = 0) :
    ∃ st', merge_prev st { heap := st.node_heap, idx := m } = some st' ∧
      wf st' (pre ++ m :: post) (some m) ∧ merge_rel st st' m p := by
  -- the slots involved
  have hnd := hwf.nodup
  simp only [List.nodup_append, List.nodup_cons, List.mem_cons, not_or, List.disjoint_cons_right,
    List.Disjoint] at hnd
  obtain ⟨hpre_nd, ⟨⟨hpm, hp_post⟩, hm_post, hpost_nd⟩, hdisj⟩ := hnd
  have hmp : m ≠ p := fun hc => hpm hc.symm
  have hp_pre : p ∉ pre := fun hc => hdisj hc (Or.inl rfl)
  have hm_pre : m ∉ pre := fun hc => hdisj hc (Or.inr (Or.inl rfl))
  have hpp : ∀ i, i ∈ pre → i ∉ post := fun i hi hc => hdisj hi (Or.inr (Or.inr hc))
  have hmN : m < hlen st.heaps st.node_heap := by
    rw [hwf.heap_len]; exact hwf.in_range m (by simp)
  have hpN : p < hlen st.heaps st.node_heap := by
    rw [hwf.heap_len]; exact hwf.in_range p (by simp)
  -- the links
  obtain ⟨L1, up, pp, np, L2⟩ := lseg_mid _ _ pre (m :: post) p none none hwf.chain
  obtain ⟨um, pm, nm, L3⟩ := L2
  -- the gap-index entry of `p`
  obtain ⟨e, he, hen⟩ := hwf.gap_complete p (by simp) (by simp; exact hpm) hpf
  have hng : st.pool.num_gaps ≤ st.gap_ix.length := Nat.le_trans hwf.gaps_le hwf.cap_le
  obtain ⟨k, hk1, hk2, hk3, hk4⟩ := gap_lookup st.gap_ix st.pool.num_gaps e hng hwf.gap_nodup he
  obtain ⟨g', hrem, hg1, hg2⟩ := remove_spec st (nd st.heaps st.node_heap p).size
    (some { heap := st.node_heap, idx := p }) k e hng
    (by have := hwf.gaps_le; have := hwf.cap_lt; omega) hk1 hk2 hen (by rw [← hen]; exact hk4)
  have hgaps : (g'.take (st.pool.num_gaps - 1)) =
      (gaps st).filter (fun x => decide (x.node ≠ some { heap := st.node_heap, idx := p })) := by
    rw [hg2, eraseIdx_eq_filter gap_t.node (st.gap_ix.take st.pool.num_gaps) k e hwf.gap_nodup hk3, hen]
    rfl
  -- the predecessor of `p`
  have hq : ∀ q, (nd st.heaps st.node_heap p).prev = some q →
      q.heap = st.node_heap ∧ q.idx < hlen st.heaps st.node_heap ∧ q.idx ≠ m ∧ q.idx ≠ p := by
    intro q hq
    rw [pp] at hq
    obtain ⟨qh, qi⟩ := q
    have hh : qh = st.node_heap := by
      simp only [last_of] at hq
      cases hl : pre.getLast? with
      | none => simp [hl] at hq
      | some j => simp [hl] at hq; exact hq.1.symm
    subst hh
    have hmem := last_of_mem _ _ _ hq
    refine ⟨rfl, ?_, ?_, ?_⟩
    · rw [hwf.heap_len]; exact hwf.in_range qi (by simp [hmem])
    · show qi ≠ m
      exact fun hc => hm_pre (hc ▸ hmem)
    · show qi ≠ p
      exact fun hc => hp_pre (hc ▸ hmem)
  have hlen := nodup_length_le _ _ hwf.nodup hwf.in_range
  have hu1 : 0 < st.used_nodes := by rw [hwf.used_count]; simp
  have hu2 : st.used_nodes < 4294967296 := by
    rw [hwf.used_count]; have := hwf.total_lt; omega
  have heval := merge_prev_eval st m p g' hmN hpN hmp pm hpf hrem hq hu1 hu2
  have hnode := nd_merge_prev_heaps st.heaps st.node_heap m p hmN hpN hmp hq
  -- sizes do not overflow
  have hsum := hwf.sizes
  simp only [List.map_append, List.map_cons, List.sum_append, List.sum_cons] at hsum
  have hsz : u64 ((nd st.heaps st.node_heap m).size + (nd st.heaps st.node_heap p).size) =
      (nd st.heaps st.node_heap m).size + (nd st.heaps st.node_heap p).size := by
    have := hwf.size_lt
    unfold u64
    omega
  -- nodes after `m`
  have hpost_same : ∀ i ∈ post, nd (merge_prev_heaps st.heaps st.node_heap m p) st.node_heap i =
      nd st.heaps st.node_heap i := by
    intro i hi
    rw [hnode i]
    have e1 : i ≠ p := fun hc => hp_post (hc ▸ hi)
    have e2 : i ≠ m := fun hc => hm_post (hc ▸ hi)
    have e3 : ¬ (nd st.heaps st.node_heap p).prev = some { heap := st.node_heap, idx := i } := by
      rw [pp]
      intro hc
      exact hpp i (last_of_mem _ _ _ hc) hi
    simp only [e1, e2, e3, if_false]
  -- nodes before `p`
  have hpre_node : ∀ i ∈ pre, nd (merge_prev_heaps st.heaps st.node_heap m p) st.node_heap i =
      if last_of st.node_heap pre none = some { heap := st.node_heap, idx := i } then
        { nd st.heaps st.node_heap i with next := some { heap := st.node_heap, idx := m } }
      else nd st.heaps st.node_heap i := by
    intro i hi
    rw [hnode i]
    have e1 : i ≠ p := fun hc => hp_pre (hc ▸ hi)
    have e2 : i ≠ m := fun hc => hm_pre (hc ▸ hi)
    simp only [e1, e2, if_false, pp]
  have hpre_fields : ∀ i ∈ pre,
      (nd (merge_prev_heaps st.heaps st.node_heap m p) st.node_heap i).size =
        (nd st.heaps st.node_heap i).size ∧
      (nd (merge_prev_heaps st.heaps st.node_heap m p) st.node_heap i).allocated =
        (nd st.heaps st.node_heap i).allocated := by
    intro i hi
    rw [hpre_node i hi]
    split <;> exact ⟨rfl, rfl⟩
  refine ⟨_, heval, ?_, ?_⟩
  · -- the invariant
    refine
      { heap_len := by simp only [hlen_merge_prev_heaps]; exact hwf.heap_len
        total_lt := hwf.total_lt
        nodup := ?_
        in_range := fun i hi => hwf.in_range i (by
          simp only [List.mem_append, List.mem_cons] at hi ⊢
          rcases hi with hi | hi | hi
          · exact Or.inl hi
          · exact Or.inr (Or.inr (Or.inl hi))
          · exact Or.inr (Or.inr (Or.inr hi)))
        chain := ?_
        unused := ?_
        used_count := ?_
        sizes := ?_
        size_lt := hwf.size_lt
        gaps_le := by
          show st.pool.num_gaps - 1 ≤ st.gap_ix_capacity
          have := hwf.gaps_le; omega
        cap_le := by
          show st.gap_ix_capacity ≤ g'.length
          rw [hg1]; exact hwf.cap_le
        cap_lt := hwf.cap_lt
        gap_nodup := ?_
        gap_sound := ?_
        gap_complete := ?_ }
    · simp only [List.nodup_append, List.nodup_cons, List.Disjoint, List.mem_cons]
      exact ⟨hpre_nd, ⟨hm_post, hpost_nd⟩, fun i hi hc => by
        rcases hc with hc | hc
        · exact hm_pre (hc ▸ hi)
        · exact hpp i hi hc⟩
    · -- chain
      show lseg (merge_prev_heaps st.heaps st.node_heap m p) st.node_heap none
        (pre ++ m :: post) none
      rw [lseg_append]
      refine ⟨?_, ?_⟩
      · exact lseg_relink_last _ _ _ _ _ pre none hpre_nd L1 hpre_node
      · have hm' := hnode m
        simp only [hmp, if_false, if_true] at hm'
        refine ⟨by rw [hm']; exact um, by rw [hm']; exact pp, by rw [hm']; exact nm, ?_⟩
        rw [lseg_congr _ _ _ post _ _ hpost_same]; exact L3
    · -- slots outside the chain
      intro i hi hni
      show (nd (merge_prev_heaps st.heaps st.node_heap m p) st.node_heap i).used = 0 ∧
        (nd (merge_prev_heaps st.heaps st.node_heap m p) st.node_heap i).next = none
      rw [hnode i]
      by_cases e1 : i = p
      · simp [e1]
      · have e2 : i ≠ m := fun hc => hni (by simp [hc])
        have hni' : i ∉ pre ++ p :: m :: post := by
          simp only [List.mem_append, List.mem_cons, not_or] at hni ⊢
          exact ⟨hni.1, e1, hni.2.1, hni.2.2⟩
        have hun := hwf.unused i hi hni'
        have e3 : ¬ (nd st.heaps st.node_heap p).prev =
            some { heap := st.node_heap, idx := i } := by
          rw [pp]
          intro hc
          exact hni (by simp [last_of_mem _ _ _ hc])
        simp only [e1, e2, e3, if_false]
        exact hun
    · show st.used_nodes - 1 = (pre ++ m :: post).length
      rw [hwf.used_count]; simp
    · -- sizes
      show ((pre ++ m :: post).map fun i =>
        (nd (merge_prev_heaps st.heaps st.node_heap m p) st.node_heap i).size).sum = st.pool.total_size
      have hm' := hnode m
      simp only [hmp, if_false, if_true] at hm'
      simp only [List.map_append, List.map_cons, List.sum_append, List.sum_cons]
      rw [List.map_congr_left (fun i hi => (hpre_fields i hi).1),
        List.map_congr_left (fun i hi => congrArg node_t.size (hpost_same i hi)), hm']
      simp only [hsz]
      omega
    · show ((List.take (st.pool.num_gaps - 1) g').map gap_t.node).Nodup
      rw [hgaps]
      exact (hwf.gap_nodup).sublist ((List.filter_sublist _).map _)
    · intro x hx
      change x ∈ List.take (st.pool.num_gaps - 1) g' at hx
      rw [hgaps, List.mem_filter] at hx
      obtain ⟨hx1, hx2⟩ := hx
      obtain ⟨i, hi, h1, h2, h3, h4⟩ := hwf.gap_sound x hx1
      have e1 : i ≠ p := by
        intro hc; subst hc
        simp [h1] at hx2
      have e2 : i ≠ m := fun hc => h2 (by rw [hc])
      refine ⟨i, ?_, h1, h2, ?_, ?_⟩
      · simp only [List.mem_append, List.mem_cons] at hi ⊢
        rcases hi with hi | hi | hi | hi
        · exact Or.inl hi
        · exact absurd hi e1
        · exact absurd hi e2
        · exact Or.inr (Or.inr hi)
      · show (nd (merge_prev_heaps st.heaps st.node_heap m p) st.node_heap i).allocated = 0
        rw [hnode i]; simp only [e1, e2, if_false]
        split <;> exact h3
      · show x.size = (nd (merge_prev_heaps st.heaps st.node_heap m p) st.node_heap i).size
        rw [hnode i]; simp only [e1, e2, if_false]
        split <;> exact h4
    · intro i hi hne hfree
      change (nd (merge_prev_heaps st.heaps st.node_heap m p) st.node_heap i).allocated = 0 at hfree
      show ∃ x ∈ List.take (st.pool.num_gaps - 1) g', x.node = some { heap := st.node_heap, idx := i }
      have e2 : i ≠ m := fun hc => hne (by rw [hc])
      have e1 : i ≠ p := by
        intro hc; subst hc
        simp only [List.mem_append, List.mem_cons] at hi
        rcases hi with hi | hi | hi
        · exact hp_pre hi
        · exact hpm hi
        · exact hp_post hi
      rw [hnode i] at hfree
      simp only [e1, e2, if_false] at hfree
      have hfree' : (nd st.heaps st.node_heap i).allocated = 0 := by
        split at hfree <;> exact hfree
      obtain ⟨x, hx1, hx2⟩ := hwf.gap_complete i (by
        simp only [List.mem_append, List.mem_cons] at hi ⊢
        rcases hi with hi | hi | hi
        · exact Or.inl hi
        · exact Or.inr (Or.inr (Or.inl hi))
        · exact Or.inr (Or.inr (Or.inr hi))) hne hfree'
      refine ⟨x, ?_, hx2⟩
      rw [hgaps, List.mem_filter]
      refine ⟨hx1, ?_⟩
      simp only [hx2, ne_eq, Option.some.injEq, NodeRef.mk.injEq, true_and, decide_eq_true_eq]
      exact e1
  · -- what the step did
    refine
      { same_policy := rfl, same_total_size := rfl, same_alloc_size := rfl, same_num_allocs := rfl,
        node_heap := rfl
        total_nodes := rfl, gap_ix_capacity := rfl
        gaps_down := by show st.pool.num_gaps - 1 + 1 = st.pool.num_gaps; omega
        used_nodes := by show st.used_nodes - 1 + 1 = st.used_nodes; omega
        gaps := hgaps
        others := ?_
        size := ?_
        allocated := ?_ }
    · intro i e2 e1
      show (nd (merge_prev_heaps st.heaps st.node_heap m p) st.node_heap i).size = _ ∧
        (nd (merge_prev_heaps st.heaps st.node_heap m p) st.node_heap i).allocated = _
      rw [hnode i]; simp only [e1, e2, if_false]
      split <;> exact ⟨rfl, rfl⟩
    · show (nd (merge_prev_heaps st.heaps st.node_heap m p) st.node_heap m).size = _
      rw [hnode m]; simp only [hmp, if_false, if_true]
      exact hsz
    · show (nd (merge_prev_heaps st.heaps st.node_heap m p) st.node_heap m).allocated = _
      rw [hnode m]; simp only [hmp, if_false, if_true]


/-! ## The steps of `mem_del_alloc` -/

theorem del_eval (st : pool_mgr_t) (m : Nat) (hm : m < hlen st.heaps st.node_heap)
    (ht : hlen st.heaps st.node_heap = st.total_nodes) :
    mem_del_alloc st { heap := st.node_heap, idx := m } =
      (merge_next (mark_free st m) { heap := st.node_heap, idx := m }).bind fun st2 =>
      (merge_prev st2 { heap := st.node_heap, idx := m }).bind fun st3 =>
      (getNode st3.heaps (some { heap := st.node_heap, idx := m })).bind fun h3 =>
      (_mem_add_to_gap_ix st3 h3.size (some { heap := st.node_heap, idx := m })).bind fun r =>
      if r.2 = alloc_status.ALLOC_FAIL then some (r.1, alloc_status.ALLOC_FAIL)
      else some (r.1, alloc_status.ALLOC_OK) := by
  have hmt : m < st.total_nodes := ht ▸ hm
  have hfind := find_del_index_spec st.heaps st.node_heap m hm st.total_nodes 0 (Nat.zero_le _)
    (by omega)
  have hne : ¬ m = st.total_nodes := by omega
  unfold mem_del_alloc
  simp only [getNode_cur _ _ _ hm, setNode_cur _ _ _ _ hm, hfind, hne, if_false]
  unfold mark_free
  cases merge_next _ { heap := st.node_heap, idx := m } with
  | none => rfl
  | some st2 =>
    simp only [Option.bind_some, Option.some_bind]
    cases merge_prev st2 { heap := st.node_heap, idx := m } with
    | none => rfl
    | some st3 =>
      simp only [Option.bind_some, Option.some_bind]
      cases getNode st3.heaps (some { heap := st.node_heap, idx := m }) with
      | none => rfl
      | some h3 =>
        simp only [Option.bind_some, Option.some_bind]
        cases _mem_add_to_gap_ix st3 h3.size (some { heap := st.node_heap, idx := m }) with
        | none => rfl
        | some r => rfl

theorem nd_mark_free (st : pool_mgr_t) (m : Nat) (hm : m < hlen st.heaps st.node_heap) (i : Nat) :
    nd (mark_free st m).heaps st.node_heap i =
      if i = m then { nd st.heaps st.node_heap m with allocated := 0 }
      else nd st.heaps st.node_heap i := by
  unfold mark_free
  by_cases e : i = m
  · subst e; simp [nd_upd_same, hm]
  · simp [nd_upd_ne _ _ _ _ _ e, e]

theorem wf_mark_free (st : pool_mgr_t) (c : List Nat) (m : Nat) (hwf : wf st c none)
    (hmc : m ∈ c) (hma : (nd st.heaps st.node_heap m).allocated ≠ 0) :
    wf (mark_free st m) c (some m) := by
  have hmN : m < hlen st.heaps st.node_heap := by
    rw [hwf.heap_len]; exact hwf.in_range m hmc
  have hnode := nd_mark_free st m hmN
  have hfields : ∀ i, (nd (mark_free st m).heaps st.node_heap i).used =
        (nd st.heaps st.node_heap i).used ∧
      (nd (mark_free st m).heaps st.node_heap i).prev = (nd st.heaps st.node_heap i).prev ∧
      (nd (mark_free st m).heaps st.node_heap i).next = (nd st.heaps st.node_heap i).next ∧
      (nd (mark_free st m).heaps st.node_heap i).size = (nd st.heaps st.node_heap i).size := by
    intro i
    rw [hnode i]
    by_cases e : i = m
    · subst e; simp
    · simp [e]
  have hlseg : ∀ (c : List Nat) (prev nxt : Option NodeRef),
      lseg (mark_free st m).heaps st.node_heap prev c nxt ↔ lseg st.heaps st.node_heap prev c nxt := by
    intro c
    induction c with
    | nil => intro _ _; simp [lseg]
    | cons i rest ih =>
      intro prev nxt
      simp only [lseg, (hfields i).1, (hfields i).2.1, (hfields i).2.2.1, ih]
  refine
    { heap_len := by
        show hlen (upd _ _ _) _ = _
        rw [hlen_upd]; exact hwf.heap_len
      total_lt := hwf.total_lt
      nodup := hwf.nodup
      in_range := hwf.in_range
      chain := (hlseg c none none).mpr hwf.chain
      unused := fun i hi hni => by
        have := hwf.unused i hi hni
        show (nd (mark_free st m).heaps st.node_heap i).used = 0 ∧
          (nd (mark_free st m).heaps st.node_heap i).next = none
        rw [(hfields i).1, (hfields i).2.2.1]; exact this
      used_count := hwf.used_count
      sizes := by
        show (c.map fun i => (nd (mark_free st m).heaps st.node_heap i).size).sum = st.pool.total_size
        rw [List.map_congr_left (fun i _ => (hfields i).2.2.2)]; exact hwf.sizes
      size_lt := hwf.size_lt
      gaps_le := hwf.gaps_le
      cap_le := hwf.cap_le
      cap_lt := hwf.cap_lt
      gap_nodup := hwf.gap_nodup
      gap_sound := ?_
      gap_complete := ?_ }
  · intro e he
    obtain ⟨i, hi, h1, _, h3, h4⟩ := hwf.gap_sound e he
    have e1 : i ≠ m := fun hc => hma (hc ▸ h3)
    refine ⟨i, hi, h1, by simpa using e1, ?_, ?_⟩
    · show (nd (mark_free st m).heaps st.node_heap i).allocated = 0
      rw [hnode i]; simp only [e1, if_false]; exact h3
    · show e.size = (nd (mark_free st m).heaps st.node_heap i).size
      rw [(hfields i).2.2.2]; exact h4
  · intro i hi hne hfree
    change (nd (mark_free st m).heaps st.node_heap i).allocated = 0 at hfree
    have e1 : i ≠ m := fun hc => hne (by rw [hc])
    rw [hnode i] at hfree
    simp only [e1, if_false] at hfree
    exact hwf.gap_complete i hi (by simp) hfree

theorem wf_add_gap (st : pool_mgr_t) (c : List Nat) (m : Nat) (hwf : wf st c (some m))
    (hmc : m ∈ c) (hmf : (nd st.heaps st.node_heap m).allocated = 0)
    (hroom : st.pool.num_gaps < st.gap_ix_capacity) :
    ∃ st', _mem_add_to_gap_ix st (nd st.heaps st.node_heap m).size
        (some { heap := st.node_heap, idx := m }) = some (st', alloc_status.ALLOC_OK) ∧
      wf st' c none ∧ st'.heaps = st.heaps ∧ st'.node_heap = st.node_heap ∧
      st'.used_nodes = st.used_nodes ∧ st'.pool.num_gaps = st.pool.num_gaps + 1 ∧
      st'.gap_ix_capacity = st.gap_ix_capacity ∧ st'.total_nodes = st.total_nodes ∧
      st'.pool.policy = st.pool.policy ∧ st'.pool.total_size = st.pool.total_size ∧
      (gaps st').Perm
        ({ size := (nd st.heaps st.node_heap m).size,
           node := some { heap := st.node_heap, idx := m } } :: gaps st) := by
  obtain ⟨g', h1, h2, h3⟩ := add_spec st (nd st.heaps st.node_heap m).size
    (some { heap := st.node_heap, idx := m }) hroom
    (Nat.lt_of_lt_of_le hroom hwf.cap_le) (by have := hwf.cap_lt; omega)
  refine ⟨_, h1, ?_, rfl, rfl, rfl, rfl, rfl, rfl, rfl, rfl, h3⟩
  have hmem : ∀ x, x ∈ g'.take (st.pool.num_gaps + 1) ↔
      x = { size := (nd st.heaps st.node_heap m).size,
            node := some { heap := st.node_heap, idx := m } } ∨ x ∈ gaps st := by
    intro x
    rw [h3.mem_iff, List.mem_cons]; rfl
  refine
    { heap_len := hwf.heap_len
      total_lt := hwf.total_lt
      nodup := hwf.nodup
      in_range := hwf.in_range
      chain := hwf.chain
      unused := hwf.unused
      used_count := hwf.used_count
      sizes := hwf.sizes
      size_lt := hwf.size_lt
      gaps_le := by show st.pool.num_gaps + 1 ≤ st.gap_ix_capacity; omega
      cap_le := by show st.gap_ix_capacity ≤ g'.length; rw [h2]; exact hwf.cap_le
      cap_lt := hwf.cap_lt
      gap_nodup := ?_
      gap_sound := ?_
      gap_complete := ?_ }
  · show ((g'.take (st.pool.num_gaps + 1)).map gap_t.node).Nodup
    rw [(h3.map gap_t.node).nodup_iff, List.map_cons, List.nodup_cons]
    refine ⟨?_, hwf.gap_nodup⟩
    intro hc
    obtain ⟨x, hx1, hx2⟩ := List.mem_map.mp hc
    obtain ⟨i, _, h4, h5, _, _⟩ := hwf.gap_sound x hx1
    rw [h4] at hx2
    simp only [Option.some.injEq, NodeRef.mk.injEq, true_and] at hx2
    exact h5 (by rw [hx2])
  · intro x hx
    change x ∈ g'.take (st.pool.num_gaps + 1) at hx
    rcases (hmem x).mp hx with hx | hx
    · subst hx
      exact ⟨m, hmc, rfl, by simp, hmf, rfl⟩
    · obtain ⟨i, hi, h4, _, h6, h7⟩ := hwf.gap_sound x hx
      exact ⟨i, hi, h4, by simp, h6, h7⟩
  · intro i hi _ hfree
    show ∃ x ∈ g'.take (st.pool.num_gaps + 1), x.node = some { heap := st.node_heap, idx := i }
    by_cases e : i = m
    · subst e
      exact ⟨_, (hmem _).mpr (Or.inl rfl), rfl⟩
    · obtain ⟨x, hx1, hx2⟩ := hwf.gap_complete i hi (by simpa using e) hfree
      exact ⟨x, (hmem x).mpr (Or.inr hx1), hx2⟩


theorem del_compose (st st2 st3 : pool_mgr_t) (c3 : List Nat) (m : Nat)
    (hm : m < hlen st.heaps st.node_heap) (ht : hlen st.heaps st.node_heap = st.total_nodes)
    (e2 : merge_next (mark_free st m) { heap := st.node_heap, idx := m } = some st2)
    (e3 : merge_prev st2 { heap := st.node_heap, idx := m } = some st3)
    (hn : st3.node_heap = st.node_heap)
    (w3 : wf st3 c3 (some m)) (hmc : m ∈ c3)
    (hmf : (nd st3.heaps st.node_heap m).allocated = 0)
    (hroom : st3.pool.num_gaps < st3.gap_ix_capacity) :
    ∃ st', mem_del_alloc st { heap := st.node_heap, idx := m } =
        some (st', alloc_status.ALLOC_OK) ∧
      wf st' c3 none ∧ st'.heaps = st3.heaps ∧ st'.node_heap = st.node_heap ∧
      st'.used_nodes = st3.used_nodes ∧ st'.pool.num_gaps = st3.pool.num_gaps + 1 ∧
      st'.gap_ix_capacity = st3.gap_ix_capacity ∧ st'.total_nodes = st3.total_nodes ∧
      st'.pool.policy = st3.pool.policy ∧ st'.pool.total_size = st3.pool.total_size ∧
      (gaps st').Perm
        ({ size := (nd st3.heaps st.node_heap m).size,
           node := some { heap := st.node_heap, idx := m } } :: gaps st3) := by
  have hmf' : (nd st3.heaps st3.node_heap m).allocated = 0 := by rw [hn]; exact hmf
  obtain ⟨st', a1, a2, a3, a4, a5, a6, a7, a8, a9, a10, a11⟩ := wf_add_gap st3 c3 m w3 hmc hmf' hroom
  rw [hn] at a1 a11
  have hm3 : m < hlen st3.heaps st.node_heap := by
    have := w3.heap_len
    rw [hn] at this
    rw [this]
    exact w3.in_range m hmc
  refine ⟨st', ?_, a2, a3, a4.trans hn, a5, a6, a7, a8, a9, a10, a11⟩
  rw [del_eval st m hm ht, e2]
  simp only [Option.bind_some, Option.some_bind, e3, getNode_cur _ _ _ hm3, a1, reduceCtorEq,
    if_false]


/-- C1 (code evaluated at a failing input): on a BEST_FIT pool of 1000 bytes the
32 calls of `calls_slot0_second` lead to a state whose chain partitions the pool
(head in slot 1, sizes summing to 1000, 40 slots).  Four further calls, each
freeing a live allocation or requesting a positive size, then leave a state in
which no segment of the segment array is a chain head, the walk from
`node_heap[0]` meets sizes summing to 0, the walk from the head that
`mem_inspect_pool` locates never reaches a tail, and the sizes of the segments
in service sum to 999, not 1000. -/
theorem C1_partition_lost_after_growth :
    valid_calls []
        (calls_slot0_second ++ [Call.alloc 1, Call.alloc 2, Call.free 30, Call.free 31]) = true ∧
    (run (mem_pool_open_mgr 1000 alloc_policy.BEST_FIT) [] calls_slot0_second).map
        (fun r => (r.1.total_nodes, heads r.1, (chain_inspect r.1).map total))
      = some (40, [1], some 1000) ∧
    (run (mem_pool_open_mgr 1000 alloc_policy.BEST_FIT) []
        (calls_slot0_second ++ [Call.alloc 1, Call.alloc 2, Call.free 30, Call.free 31])).map
        (fun r => (heads r.1, (chain_from_slot0 r.1).map total,
                   (chain_inspect r.1).map total, total (in_service r.1)))
      = some ([], some 0, none, 999) :=
  ⟨rfl, rfl, rfl⟩

/-- C2 (code evaluated at a failing input): on a BEST_FIT pool of 1000 bytes,
after the 32 calls of `calls_slot0_second` and one more allocation of one byte
(which grows the segment array), `alloc_size` is 137 and `num_allocs` is 29,
while the allocated segments in service hold 136 bytes, the chain found from the
head that `mem_inspect_pool` locates holds 136 allocated bytes, and the walk
from `node_heap[0]` never reaches a tail. -/
theorem C2_alloc_size_differs_after_growth :
    valid_calls [] (calls_slot0_second ++ [Call.alloc 1]) = true ∧
    (run (mem_pool_open_mgr 1000 alloc_policy.BEST_FIT) []
        (calls_slot0_second ++ [Call.alloc 1])).map
        (fun r => (r.1.pool.alloc_size, r.1.pool.num_allocs, total_allocated (in_service r.1),
                   (chain_inspect r.1).map total_allocated, (chain_from_slot0 r.1).map total))
      = some (137, 29, 136, some 136, none) :=
  ⟨rfl, rfl⟩

/-- C3 (code evaluated at a failing input): on a FIRST_FIT pool of 1000 bytes,
after 29 allocations of one byte, the release of the second one and one more
allocation of one byte (which grows the segment array while the pool has two
gaps), `num_gaps` is 2 and the gap index holds a cleared entry with a null
reference before the entry of the only free segment of the chain (971 bytes). -/
theorem C3_gap_index_phantom_entry :
    valid_calls [] (calls_two_gaps ++ [Call.alloc 1]) = true ∧
    (run (mem_pool_open_mgr 1000 alloc_policy.FIRST_FIT) []
        (calls_two_gaps ++ [Call.alloc 1])).map
        (fun r => (r.1.pool.num_gaps, gaps r.1, heads r.1,
                   (chain_inspect r.1).map
                     (fun l => (segments l).filter (fun p => p.2 == 0))))
      = some (2, [gap_zero, { size := 971, node := some { heap := 1, idx := 29 } }], [0],
              some [(971, 0)]) :=
  ⟨rfl, rfl⟩

/-- C4 (code evaluated at a failing input): on a FIRST_FIT pool of 1000 bytes,
after allocate 100, allocate 200 and the release of both, the chain is one
free segment of 1000 bytes held in slot 1 (slot 0 was retired by the merge with
the predecessor), and a request of 50 bytes returns `NULL` and leaves the pool
as it was. -/
theorem C4_first_fit_misses_the_gap :
    valid_calls [] [Call.alloc 100, Call.alloc 200, Call.free 0, Call.free 1] = true ∧
    (run (mem_pool_open_mgr 1000 alloc_policy.FIRST_FIT) []
        [Call.alloc 100, Call.alloc 200, Call.free 0, Call.free 1]).map
        (fun r => ((chain_inspect r.1).map segments, heads r.1, r.1.pool.policy,
                   decide (mem_new_alloc r.1 50 = some (r.1, none))))
      = some (some [(1000, 0)], [1], alloc_policy.FIRST_FIT, true) :=
  ⟨rfl, rfl⟩

/-- C5 (code evaluated at a failing input): on a BEST_FIT pool, after the 32
calls of `calls_slot0_tail` the gap index is sorted and lists exactly the two
free segments of the chain; the segment array is at its fill threshold and the
chain head is slot 1.  A request of 4 bytes then (pool of 1000 bytes) is served
from the gap of 856 bytes although a free segment of exactly 4 bytes exists,
and (pool of 146 bytes, gaps of 2 and 4 bytes) returns `NULL` although a free
segment of 4 bytes exists. -/
theorem C5_best_fit_after_growth :
    (run (mem_pool_open_mgr 1000 alloc_policy.BEST_FIT) [] calls_slot0_tail).map
        (fun r => (gaps r.1, (chain_inspect r.1).map
                     (fun l => (segments l).filter (fun p => p.2 == 0)),
                   (mem_new_alloc r.1 4).map
                     (fun q => (q.2, (getNode q.1.heaps q.2).map node_t.size, gaps q.1))))
      = some ([{ size := 4, node := some { heap := 0, idx := 1 } },
               { size := 856, node := some { heap := 0, idx := 0 } }],
              some [(4, 0), (856, 0)],
              some (some { heap := 1, idx := 0 }, some 4,
                    [gap_zero, { size := 852, node := some { heap := 1, idx := 1 } }])) ∧
    (run (mem_pool_open_mgr 146 alloc_policy.BEST_FIT) [] calls_slot0_tail).map
        (fun r => (gaps r.1, (chain_inspect r.1).map
                     (fun l => (segments l).filter (fun p => p.2 == 0)),
                   (mem_new_alloc r.1 4).map Prod.snd))
      = some ([{ size := 2, node := some { heap := 0, idx := 0 } },
               { size := 4, node := some { heap := 0, idx := 1 } }],
              some [(4, 0), (2, 0)],
              some none) :=
  ⟨rfl, rfl⟩

/-- C6 (code evaluated at a failing input): on a BEST_FIT pool of 1000 bytes,
after the 8 calls of `calls_equal_gaps` the chain has two free segments of 10
bytes, at offsets 30 (slot 3) and 990 (slot 0, the tail); the gap index lists
the one in slot 0 first, and a request of 10 bytes is served from it: the
segment that becomes allocated is the last one of the chain. -/
theorem C6_tie_break_takes_later_segment :
    valid_calls [] (calls_equal_gaps ++ [Call.alloc 10]) = true ∧
    (run (mem_pool_open_mgr 1000 alloc_policy.BEST_FIT) [] calls_equal_gaps).map
        (fun r => ((chain_inspect r.1).map segments, gaps r.1,
                   (mem_new_alloc r.1 10).map
                     (fun q => (q.2, (chain_inspect q.1).map segments))))
      = some (some [(20, 0), (10, 1), (10, 0), (950, 1), (10, 0)],
              [{ size := 10, node := some { heap := 0, idx := 0 } },
               { size := 10, node := some { heap := 0, idx := 3 } },
               { size := 20, node := some { heap := 0, idx := 1 } }],
              some (some { heap := 0, idx := 0 },
                    some [(20, 0), (10, 1), (10, 0), (950, 1), (10, 1)])) :=
  ⟨rfl, rfl⟩


set_option maxRecDepth 100000 in
/-- C7 (code evaluated at a failing input): the BEST_FIT pool of 1000 bytes
reached by the 32 calls of `calls_slot0_second` is well formed; its chain is an
allocation of 1 byte (slot 1, the head), a gap of 3 bytes (slot 0), 27
allocations of 5 bytes and a gap of 861 bytes, and 30 of its 40 slots are in
service.  A request of 1 byte is served from the gap of 3 bytes and the counters
`num_allocs` and `alloc_size` go up by 1, but the chain is not the chain before
with that gap split: the segment array, grown by the call, holds no chain head,
the walk from `node_heap[0]` never reaches a tail, the segments in service are
the 27 allocations, the new allocation of 1 byte and the gaps of 861 and 2
bytes (the head allocation is missing), and the chain that `mem_inspect_pool`
reaches still shows the gap of 3 bytes. -/
theorem C7_split_lost_after_growth :
    well_formed state_slot0_second chain_slot0_second ∧
    slot_segments state_slot0_second chain_slot0_second =
      [(1, 1), (3, 0)] ++ List.replicate 27 (5, 1) ++ [(861, 0)] ∧
    (state_slot0_second.pool.num_allocs, state_slot0_second.pool.alloc_size,
      state_slot0_second.used_nodes, state_slot0_second.total_nodes) = (28, 136, 30, 40) ∧
    (mem_new_alloc state_slot0_second 1).map
        (fun q => (q.2, q.1.pool.num_allocs, q.1.pool.alloc_size, heads q.1,
                   (chain_from_slot0 q.1).map segments, segments (in_service q.1),
                   (chain_inspect q.1).map segments))
      = some (some { heap := 1, idx := 0 }, 29, 137, [], none,
              [(1, 1)] ++ List.replicate 27 (5, 1) ++ [(861, 0), (2, 0)],
              some ([(1, 1), (3, 0)] ++ List.replicate 27 (5, 1) ++ [(861, 0)])) :=
  ⟨by decide, rfl, rfl, rfl⟩

/-- C10: for every pool state that satisfies the data-model invariant `wf` with
chain `pre ++ p :: m :: s :: post`, the segment in slot `m` being allocated and
the segments in slots `p` and `s` free, `mem_del_alloc` of `m` succeeds and
leaves the chain `pre ++ m :: post`: the segments of `pre` and `post` keep their
size and flag, slot `m` is a free segment of size `size p + size m + size s`,
the gap index is the former one without the entries of `p` and `s` and with one
entry of the summed size referencing `m`, `num_gaps` is one less and
`used_nodes` two less (the invariant of the new state makes the slots `p` and
`s` out of service). -/

theorem C10_three_way_coalescing (st : pool_mgr_t) (pre post : List Nat) (p m s : Nat)
    (hwf : wf st (pre ++ p :: m :: s :: post) none)
    (hp : (nd st.heaps st.node_heap p).allocated = 0)
    (hm : (nd st.heaps st.node_heap m).allocated ≠ 0)
    (hs : (nd st.heaps st.node_heap s).allocated = 0) :
    ∃ st', mem_del_alloc st { heap := st.node_heap, idx := m } =
        some (st', alloc_status.ALLOC_OK) ∧
      wf st' (pre ++ m :: post) none ∧ st'.node_heap = st.node_heap ∧
      slot_segments st' (pre ++ m :: post) =
        slot_segments st pre ++
          ((nd st.heaps st.node_heap p).size + (nd st.heaps st.node_heap m).size +
            (nd st.heaps st.node_heap s).size, 0) :: slot_segments st post ∧
      (gaps st').Perm
        ({ size := (nd st.heaps st.node_heap p).size + (nd st.heaps st.node_heap m).size +
             (nd st.heaps st.node_heap s).size,
           node := some { heap := st.node_heap, idx := m } } ::
          (gaps st).filter (fun e =>
            decide (e.node ≠ some { heap := st.node_heap, idx := p } ∧
              e.node ≠ some { heap := st.node_heap, idx := s }))) ∧
      st'.pool.num_gaps + 1 = st.pool.num_gaps ∧ st'.used_nodes + 2 = st.used_nodes := by
  -- the slots
  have hnd := hwf.nodup
  simp only [List.nodup_append, List.nodup_cons, List.mem_cons, not_or, List.disjoint_cons_right,
    List.Disjoint] at hnd
  obtain ⟨hpre_nd, ⟨⟨hpm, hps, hp_post⟩, ⟨hms, hm_post⟩, hs_post, hpost_nd⟩, hdisj⟩ := hnd
  have hp_pre : p ∉ pre := fun hc => hdisj hc (Or.inl rfl)
  have hm_pre : m ∉ pre := fun hc => hdisj hc (Or.inr (Or.inl rfl))
  have hs_pre : s ∉ pre := fun hc => hdisj hc (Or.inr (Or.inr (Or.inl rfl)))
  have hsm : ¬ s = m := fun hc => hms hc.symm
  have hmc : m ∈ pre ++ p :: m :: s :: post := by simp
  have hmN : m < hlen st.heaps st.node_heap := by
    rw [hwf.heap_len]; exact hwf.in_range m hmc
  -- step 1: mark free
  have w1 := wf_mark_free st _ m hwf hmc hm
  have n1 := nd_mark_free st m hmN
  have hc1 : pre ++ p :: m :: s :: post = (pre ++ [p]) ++ m :: s :: post := by simp
  rw [hc1] at w1
  have hs1 : (nd (mark_free st m).heaps (mark_free st m).node_heap s).allocated = 0 := by
    show (nd (mark_free st m).heaps st.node_heap s).allocated = 0
    rw [n1 s]; simp only [hsm, if_false]; exact hs
  -- step 2: merge the successor
  obtain ⟨st2, e2, w2, r2⟩ := merge_next_free (mark_free st m) (pre ++ [p]) post m s w1 hs1
  have hn2 : st2.node_heap = st.node_heap := r2.node_heap
  have hc2 : (pre ++ [p]) ++ m :: post = pre ++ p :: m :: post := by simp
  rw [hc2] at w2
  have hp2 : (nd st2.heaps st2.node_heap p).allocated = 0 := by
    rw [hn2]
    have := (r2.others p hpm (fun hc => hps hc)).2
    rw [show (mark_free st m).node_heap = st.node_heap from rfl] at this
    rw [this, n1 p]; simp only [hpm, if_false]; exact hp
  -- step 3: merge the predecessor
  obtain ⟨st3, e3, w3, r3⟩ := merge_prev_free st2 pre post p m w2 hp2
  rw [hn2] at e3
  have hn3 : st3.node_heap = st.node_heap := r3.node_heap.trans hn2
  have r2s := r2.size
  have r2a := r2.allocated
  have r3s := r3.size
  have r3a := r3.allocated
  have r3o := r3.others
  have r2o := r2.others
  rw [show (mark_free st m).node_heap = st.node_heap from rfl] at r2s r2a r2o
  rw [hn2] at r3s r3a r3o
  have hsize3 : (nd st3.heaps st.node_heap m).size =
      (nd st.heaps st.node_heap p).size + (nd st.heaps st.node_heap m).size +
        (nd st.heaps st.node_heap s).size := by
    rw [r3s, r2s, (r2o p hpm hps).1, n1 m, n1 s, n1 p]
    simp only [if_true, hsm, hpm, if_false]
    omega
  have halloc3 : (nd st3.heaps st.node_heap m).allocated = 0 := by
    rw [r3a, r2a, n1 m]; simp
  have hother3 : ∀ i, i ≠ m → i ≠ p → i ≠ s →
      (nd st3.heaps st.node_heap i).size = (nd st.heaps st.node_heap i).size ∧
      (nd st3.heaps st.node_heap i).allocated = (nd st.heaps st.node_heap i).allocated := by
    intro i h1 h2 h3
    rw [(r3o i h1 h2).1, (r3o i h1 h2).2, (r2o i h1 h3).1, (r2o i h1 h3).2, n1 i]
    simp only [h1, if_false, and_self]
  have hg3 : gaps st3 = (gaps st).filter (fun e =>
      decide (e.node ≠ some { heap := st.node_heap, idx := p } ∧
        e.node ≠ some { heap := st.node_heap, idx := s })) := by
    rw [r3.gaps, r2.gaps, hn2, List.filter_filter]
    show List.filter _ (gaps st) = _
    congr 1
    funext e
    simp only [ne_eq, Bool.decide_and, Bool.and_comm]
    rfl
  have hng3 : st3.pool.num_gaps + 2 = st.pool.num_gaps := by
    have h1 := r3.gaps_down
    have h2 := r2.gaps_down
    have h3 : (mark_free st m).pool.num_gaps = st.pool.num_gaps := rfl
    omega
  have hcap3 : st3.gap_ix_capacity = st.gap_ix_capacity := by
    rw [r3.gap_ix_capacity, r2.gap_ix_capacity]; rfl
  have hu3 : st3.used_nodes + 2 = st.used_nodes := by
    have h1 := r3.used_nodes
    have h2 := r2.used_nodes
    have h3 : (mark_free st m).used_nodes = st.used_nodes := rfl
    omega
  -- step 4: index the merged segment
  obtain ⟨st', d1, d2, d3, d4, d5, d6, d7, d8, d9, d10, d11⟩ :=
    del_compose st st2 st3 (pre ++ m :: post) m hmN hwf.heap_len e2 e3 hn3 w3 (by simp) halloc3
      (by have := hwf.gaps_le; omega)
  refine ⟨st', d1, d2, d4, ?_, ?_, by omega, by omega⟩
  · simp only [slot_segments, d3, d4, List.map_append, List.map_cons, hsize3, halloc3]
    congr 1
    · apply List.map_congr_left
      intro i hi
      have := hother3 i (fun hc => hm_pre (hc ▸ hi)) (fun hc => hp_pre (hc ▸ hi))
        (fun hc => hs_pre (hc ▸ hi))
      rw [this.1, this.2]
    · congr 1
      apply List.map_congr_left
      intro i hi
      have := hother3 i (fun hc => hm_post (hc ▸ hi)) (fun hc => hp_post (hc ▸ hi))
        (fun hc => hs_post (hc ▸ hi))
      rw [this.1, this.2]
  · rw [hsize3, hg3] at d11
    exact d11

/-- Witness of C10: the FIRST_FIT pool of 1000 bytes whose chain is a gap of 100
bytes, an allocation of 200 bytes and a gap of 700 bytes; freeing the allocation
leaves one gap of 1000 bytes. -/
theorem C10_witness :
    wf state_free_alloc_free [0, 1, 2] none ∧
    slot_segments state_free_alloc_free [0, 1, 2] = [(100, 0), (200, 1), (700, 0)] ∧
    ∃ st', mem_del_alloc state_free_alloc_free { heap := 0, idx := 1 } =
        some (st', alloc_status.ALLOC_OK) ∧
      wf st' [1] none ∧ slot_segments st' [1] = [(1000, 0)] ∧
      (gaps st').Perm [{ size := 1000, node := some { heap := 0, idx := 1 } }] ∧
      st'.pool.num_gaps + 1 = 2 ∧ st'.used_nodes + 2 = 3 := by
  have hw : wf state_free_alloc_free [0, 1, 2] none := by decide
  obtain ⟨st', h1, h2, _, h4, h5, h6, h7⟩ :=
    C10_three_way_coalescing state_free_alloc_free [] [] 0 1 2 hw (by decide) (by decide)
      (by decide)
  exact ⟨hw, rfl, st', h1, h2, h4, h5, h6, h7⟩


/-! ## The pool store: lemmas -/

theorem resize_store_empty (w : store_t) (h : w.pool_store_size = 0) :
    _mem_resize_pool_store w = some (w, alloc_status.ALLOC_OK) := by
  unfold _mem_resize_pool_store
  rw [h]
  rfl

theorem inspect_first_used_spec (hs : List (List node_t)) (h : Nat) :
    ∀ (n i : Nat), i + n ≤ hlen hs h →
      (∃ k, i ≤ k ∧ k < i + n ∧ (nd hs h k).used ≠ 0) →
      ∃ k, i ≤ k ∧ k < i + n ∧ (nd hs h k).used ≠ 0 ∧
        inspect_first_used hs h n i = some (some { heap := h, idx := k })
  | 0, i, _, ⟨k, h1, h2, _⟩ => by omega
  | n + 1, i, hn, ⟨k, h1, h2, h3⟩ => by
    have hi : i < hlen hs h := by omega
    by_cases hu : (nd hs h i).used ≠ 0
    · exact ⟨i, Nat.le_refl _, by omega, hu, by
        simp only [inspect_first_used, getNode_cur _ _ _ hi, hu, ne_eq, not_false_eq_true, if_true]⟩
    · have hki : k ≠ i := fun hc => hu (hc ▸ h3)
      obtain ⟨k', a1, a2, a3, a4⟩ := inspect_first_used_spec hs h n (i + 1) (by omega)
        ⟨k, by omega, by omega, h3⟩
      refine ⟨k', by omega, by omega, a3, ?_⟩
      simp only [inspect_first_used, getNode_cur _ _ _ hi, hu, if_false]
      exact a4

theorem walk_prev_spec (hs : List (List node_t)) (h : Nat) :
    ∀ (pre : List Nat) (k : Nat) (post : List Nat) (nxt : Option NodeRef) (fuel : Nat),
      lseg hs h none (pre ++ k :: post) nxt → (∀ j ∈ pre ++ k :: post, j < hlen hs h) →
      pre.length < fuel →
      walk_prev hs fuel { heap := h, idx := k } =
        some { heap := h, idx := (pre ++ [k]).headD 0 } := by
  intro pre
  induction pre using List.reverseRecOn with
  | nil =>
    intro k post nxt fuel hl hr hf
    obtain ⟨f, rfl⟩ : ∃ f, fuel = f + 1 := ⟨fuel - 1, by simp at hf; omega⟩
    have hk := hr k (by simp)
    have hp : (nd hs h k).prev = none := hl.2.1
    simp only [walk_prev, getNode_cur _ _ _ hk, hp, List.nil_append, List.headD_cons]
  | append_singleton L p ih =>
    intro k post nxt fuel hl hr hf
    obtain ⟨f, rfl⟩ : ∃ f, fuel = f + 1 := ⟨fuel - 1, by simp at hf; omega⟩
    have hk := hr k (by simp)
    have hmid := lseg_mid hs h (L ++ [p]) post k none nxt hl
    have hp : (nd hs h k).prev = some { heap := h, idx := p } := by
      rw [hmid.2.2.1]
      simp [last_of]
    simp only [walk_prev, getNode_cur _ _ _ hk, hp]
    have hl' : lseg hs h none (L ++ p :: (k :: post)) nxt := by
      have : L ++ p :: (k :: post) = (L ++ [p]) ++ k :: post := by simp
      rw [this]; exact hl
    rw [ih p (k :: post) nxt f hl' (by
      intro j hj; apply hr; simpa using hj) (by simp at hf; omega)]
    congr 2
    cases L <;> simp

theorem inspect_emit_spec (hs : List (List node_t)) (h : Nat) :
    ∀ (rest : List Nat) (k : Nat) (prev : Option NodeRef) (n i : Nat) (segs : List pool_segment_t),
      lseg hs h prev (k :: rest) none → (∀ j ∈ k :: rest, j < hlen hs h) →
      rest.length < n → i + (k :: rest).length ≤ segs.length →
      ∃ segs', inspect_emit hs n i segs { heap := h, idx := k } = some segs' ∧
        segs'.length = segs.length ∧
        ∀ j, segs'[j]? =
          if i ≤ j ∧ j < i + (k :: rest).length then
            ((k :: rest)[j - i]?).map
              (fun x => ({ size := (nd hs h x).size, allocated := (nd hs h x).allocated } :
                pool_segment_t))
          else segs[j]?
  | [], k, prev, n, i, segs, hl, hr, hn, hi => by
    obtain ⟨f, rfl⟩ : ∃ f, n = f + 1 := ⟨n - 1, by simp at hn; omega⟩
    have hk := hr k (by simp)
    have hnx : (nd hs h k).next = none := hl.2.2.1
    have hlt : i < segs.length := by simp at hi; omega
    refine ⟨segs.set i { size := (nd hs h k).size, allocated := (nd hs h k).allocated }, ?_,
      by simp, ?_⟩
    · simp only [inspect_emit, getNode_cur _ _ _ hk, hlt, if_true, hnx]
    · intro j
      simp only [List.getElem?_set, List.length_singleton]
      by_cases hij : i = j
      · subst hij
        simp [hlt]
      · have : ¬ (i ≤ j ∧ j < i + 1) := by omega
        simp [hij, this]
  | r :: rest, k, prev, n, i, segs, hl, hr, hn, hi => by
    obtain ⟨f, rfl⟩ : ∃ f, n = f + 1 := ⟨n - 1, by simp at hn; omega⟩
    have hk := hr k (by simp)
    have hnx : (nd hs h k).next = some { heap := h, idx := r } := hl.2.2.1
    have hlt : i < segs.length := by simp at hi; omega
    obtain ⟨segs', e1, e2, e3⟩ := inspect_emit_spec hs h rest r _ f (i + 1)
      (segs.set i { size := (nd hs h k).size, allocated := (nd hs h k).allocated })
      hl.2.2.2 (fun j hj => hr j (List.mem_cons_of_mem _ hj)) (by simp at hn; omega)
      (by simp at hi ⊢; omega)
    refine ⟨segs', ?_, by simpa using e2, ?_⟩
    · simp only [inspect_emit, getNode_cur _ _ _ hk, hlt, if_true, hnx]
      exact e1
    · intro j
      rw [e3 j]
      simp only [List.getElem?_set, List.length_cons]
      by_cases hij : i = j
      · subst hij
        have c1 : ¬ (i + 1 ≤ i ∧ i < i + 1 + (rest.length + 1)) := by omega
        have c2 : i ≤ i ∧ i < i + (rest.length + 1 + 1) := by omega
        simp [c1, c2, hlt]
      · by_cases c1 : i + 1 ≤ j ∧ j < i + 1 + (rest.length + 1)
        · have c2 : i ≤ j ∧ j < i + (rest.length + 1 + 1) := by omega
          obtain ⟨d, rfl⟩ : ∃ d, j = i + 1 + d := ⟨j - (i + 1), by omega⟩
          have e4 : i + 1 + d - (i + 1) = d := by omega
          have e5 : i + 1 + d - i = d + 1 := by omega
          simp only [c1, c2, and_self, if_true, e4, e5, List.getElem?_cons_succ]
        · have c2 : ¬ (i ≤ j ∧ j < i + (rest.length + 1 + 1)) := by omega
          simp [c1, c2, hij]

theorem hlen_le_memory_slots : ∀ (hs : List (List node_t)) (h : Nat), hlen hs h ≤ memory_slots hs
  | [], h => by simp [hlen]
  | l :: hs, 0 => by simp [hlen, memory_slots]
  | l :: hs, h + 1 => by
    have := hlen_le_memory_slots hs h
    simp only [hlen, memory_slots, List.getElem?_cons_succ, List.map_cons, List.sum_cons] at this ⊢
    omega

theorem inspect_spec (st : pool_mgr_t) (c : List Nat) (hwf : wf st c none) (hne : c ≠ []) :
    mem_inspect_pool st = some (st, slot_records st c, st.used_nodes) := by
  obtain ⟨c0, ct, rfl⟩ := List.exists_cons_of_ne_nil hne
  have hhl := hwf.heap_len
  have hin : ∀ j ∈ c0 :: ct, j < hlen st.heaps st.node_heap := by
    intro j hj; rw [hhl]; exact hwf.in_range j hj
  have hcl := nodup_length_le _ _ hwf.nodup hwf.in_range
  -- the first slot in service
  obtain ⟨k, _, hk2, hk3, hk4⟩ := inspect_first_used_spec st.heaps st.node_heap st.total_nodes 0
    (by omega) ⟨c0, Nat.zero_le _, by have := hwf.in_range c0 (by simp); omega, by
      have : (nd st.heaps st.node_heap c0).used = 1 := hwf.chain.1
      omega⟩
  have hkc : k ∈ c0 :: ct := by
    by_contra hc
    exact hk3 (hwf.unused k (by omega) hc).1
  obtain ⟨pre, post, hsplit⟩ := List.append_of_mem hkc
  -- back to the head
  have hhead : (pre ++ [k]).headD 0 = c0 := by
    cases pre with
    | nil => simp at hsplit ⊢; exact hsplit.1.symm
    | cons a t => simp at hsplit ⊢; exact hsplit.1.symm
  have hwalk := walk_prev_spec st.heaps st.node_heap pre k post none (memory_slots st.heaps)
    (hsplit ▸ hwf.chain) (hsplit ▸ hin) (by
      have h1 := hlen_le_memory_slots st.heaps st.node_heap
      have h2 : pre.length < (c0 :: ct).length := by rw [hsplit]; simp
      omega)
  rw [hhead] at hwalk
  -- forward to the tail
  obtain ⟨segs', e1, e2, e3⟩ := inspect_emit_spec st.heaps st.node_heap ct c0 none st.total_nodes 0
    (List.replicate st.used_nodes { size := 0, allocated := 0 }) hwf.chain hin
    (by simp at hcl; omega) (by simp [hwf.used_count])
  have hsegs : segs' = slot_records st (c0 :: ct) := by
    apply List.ext_getElem?
    intro j
    rw [e3 j]
    by_cases hj : j < (c0 :: ct).length
    · have c1 : 0 ≤ j ∧ j < 0 + (c0 :: ct).length := by omega
      simp only [c1, and_self, if_true, Nat.sub_zero, slot_records, List.getElem?_map]
    · have c1 : ¬ (0 ≤ j ∧ j < 0 + (c0 :: ct).length) := by omega
      have hj2 : (c0 :: ct).length ≤ j := by omega
      simp only [c1, if_false, slot_records]
      rw [List.getElem?_eq_none (by simp [hwf.used_count]; simpa using hj2),
        List.getElem?_eq_none (by simpa using hj2)]
  unfold mem_inspect_pool
  simp only [hk4, hwalk, e1, hsegs]

/-! ## The gap index stays sorted -/

theorem gsz_eq (g : List gap_t) (k : Nat) (hk : k < g.length) : gsz g k = g[k].size := by
  simp [gsz, List.getElem?_eq_getElem hk]

theorem gsz_set (g : List gap_t) (i k : Nat) (e : gap_t) (hi : i < g.length) :
    gsz (g.set i e) k = if i = k then e.size else gsz g k := by
  simp only [gsz, List.getElem?_set, hi, if_true]
  by_cases h : i = k <;> simp [h]

theorem gsz_of_eq (g g' : List gap_t) (k : Nat) (h : g'[k]? = g[k]?) : gsz g' k = gsz g k := by
  simp [gsz, h]

theorem gap_sorted_of_ginv (st : pool_mgr_t) (h : ginv st.gap_ix st.pool.num_gaps) :
    gap_sorted st := by
  obtain ⟨h1, h2, _⟩ := h
  unfold gap_sorted List.Sorted
  rw [List.pairwise_iff_getElem]
  intro i j hi hj hij
  simp only [gaps, List.length_map, List.length_take] at hi hj
  have hi' : i < st.gap_ix.length := by omega
  have hj' : j < st.gap_ix.length := by omega
  have := h1 i j hij (by omega)
  rw [gsz_eq _ _ hi', gsz_eq _ _ hj'] at this
  simpa [gaps] using this

theorem sort_loop_sorted : ∀ (i : Nat) (g : List gap_t) (n : Nat), i ≤ n → n < g.length →
    (∀ a b, a < b → b ≤ n → a ≠ i → b ≠ i → gsz g a ≤ gsz g b) →
    (∀ b, i < b → b ≤ n → gsz g i ≤ gsz g b) →
    ∃ g', sort_loop g i = some g' ∧ g'.length = g.length ∧
      (∀ a b, a < b → b ≤ n → gsz g' a ≤ gsz g' b)
  | 0, g, n, _, _, h1, h2 => by
    refine ⟨g, by simp [sort_loop], rfl, ?_⟩
    intro a b hab hb
    by_cases ha : a = 0
    · subst ha; exact h2 b hab hb
    · exact h1 a b hab hb ha (by omega)
  | i + 1, g, n, hin, hn, h1, h2 => by
    have hi : i < g.length := by omega
    have hi1 : i + 1 < g.length := by omega
    have e0 : gsz g i = g[i].size := gsz_eq g i hi
    have e1 : gsz g (i + 1) = g[i + 1].size := gsz_eq g (i + 1) hi1
    simp only [sort_loop, List.getElem?_eq_getElem hi, List.getElem?_eq_getElem hi1]
    split
    · rename_i hsw
      have hle : g[i + 1].size ≤ g[i].size := by
        simp only [Bool.or_eq_true, decide_eq_true_eq, Bool.and_eq_true, beq_iff_eq] at hsw
        rcases hsw with h | ⟨h, _⟩ <;> omega
      have hset : ∀ k, gsz ((g.set (i + 1) g[i]).set i g[i + 1]) k =
          if k = i then g[i + 1].size else if k = i + 1 then g[i].size else gsz g k := by
        intro k
        rw [gsz_set _ _ _ _ (by simp; omega), gsz_set _ _ _ _ hi1]
        by_cases c1 : i = k
        · subst c1; simp
        · have c1' : ¬ k = i := fun h => c1 h.symm
          by_cases c2 : i + 1 = k
          · subst c2; simp
          · have c2' : ¬ k = i + 1 := fun h => c2 h.symm
            simp [c1, c2, c1', c2']
      obtain ⟨g', a1, a2, a3⟩ := sort_loop_sorted i ((g.set (i + 1) g[i]).set i g[i + 1]) n
        (by omega) (by simp; omega)
        (by
          intro a b hab hb ha hbi
          rw [hset a, hset b]
          simp only [ha, hbi, if_false]
          by_cases ca : a = i + 1
          · have cb : ¬ b = i + 1 := by omega
            simp only [ca, cb, if_true, if_false]
            rw [← e0]
            exact h1 i b (by omega) hb (by omega) cb
          · by_cases cb : b = i + 1
            · simp only [ca, cb, if_true, if_false]
              rw [← e0]
              exact h1 a i (by omega) (by omega) ca (by omega)
            · simp only [ca, cb, if_false]
              exact h1 a b hab hb ca cb)
        (by
          intro b hib hb
          rw [hset i, hset b]
          have cb : ¬ b = i := by omega
          simp only [if_true, cb, if_false]
          by_cases cb1 : b = i + 1
          · simp only [cb1, if_true]; exact hle
          · simp only [cb1, if_false]
            rw [← e1]
            exact h2 b (by omega) hb)
      exact ⟨g', a1, by simpa using a2, a3⟩
    · rename_i hsw
      have hle : g[i].size ≤ g[i + 1].size := by
        simp only [Bool.or_eq_true, decide_eq_true_eq, Bool.and_eq_true, beq_iff_eq, not_or] at hsw
        omega
      rw [← e0, ← e1] at hle
      exact sort_loop_sorted i g n (by omega) hn
        (by
          intro a b hab hb ha hbi
          by_cases ca : a = i + 1
          · subst ca
            exact h2 b hab hb
          · by_cases cb : b = i + 1
            · subst cb
              exact Nat.le_trans (h1 a i (by omega) (by omega) ca (by omega)) hle
            · exact h1 a b hab hb ca cb)
        (by
          intro b hib hb
          by_cases cb1 : b = i + 1
          · subst cb1; exact hle
          · exact h1 i b hib hb (by omega) cb1)

theorem sort_inv (st st' : pool_mgr_t) (r : alloc_status)
    (hn : 0 < st.pool.num_gaps) (hl : st.pool.num_gaps ≤ st.gap_ix.length)
    (hb : st.gap_ix.length ≤ 2147483648)
    (hs : ∀ a b, a < b → b + 1 < st.pool.num_gaps → gsz st.gap_ix a ≤ gsz st.gap_ix b)
    (h : _mem_sort_gap_ix st = some (st', r)) :
    ginv st'.gap_ix st'.pool.num_gaps ∧ st'.pool = st.pool ∧ st'.heaps = st.heaps ∧
      st'.node_heap = st.node_heap ∧ st'.total_nodes = st.total_nodes ∧
      st'.used_nodes = st.used_nodes ∧ st'.gap_ix_capacity = st.gap_ix_capacity := by
  rw [sort_gap_ix_eq st hn (by omega)] at h
  obtain ⟨g', a1, a2, a3⟩ := sort_loop_sorted (st.pool.num_gaps - 1) st.gap_ix
    (st.pool.num_gaps - 1) (Nat.le_refl _) (by omega)
    (by intro a b hab hb1 ha hb2; exact hs a b hab (by omega))
    (by intro b h1 h2; omega)
  rw [a1] at h
  simp only [Option.map_some', Option.some.injEq, Prod.mk.injEq] at h
  obtain ⟨h, _⟩ := h
  subst h
  refine ⟨⟨?_, ?_, ?_⟩, rfl, rfl, rfl, rfl, rfl, rfl⟩
  · intro a b hab hb
    have hb' : b < st.pool.num_gaps := hb
    exact a3 a b hab (by omega)
  · show st.pool.num_gaps ≤ g'.length
    omega
  · show g'.length ≤ 2147483648
    omega

theorem same_but_gaps_refl (st : pool_mgr_t) : same_but_gaps st st :=
  ⟨rfl, rfl, rfl, rfl, rfl, rfl, rfl, rfl⟩

theorem same_counters_refl (st : pool_mgr_t) : same_counters st st :=
  ⟨rfl, rfl, rfl, rfl, rfl, rfl⟩

theorem same_counters_trans (a b c : pool_mgr_t) (h1 : same_counters a b)
    (h2 : same_counters b c) : same_counters a c := by
  unfold same_counters at h1 h2 ⊢
  refine ⟨?_, ?_, ?_, ?_, ?_, ?_⟩
  · rw [h2.1, h1.1]
  · rw [h2.2.1, h1.2.1]
  · rw [h2.2.2.1, h1.2.2.1]
  · rw [h2.2.2.2.1, h1.2.2.2.1]
  · rw [h2.2.2.2.2.1, h1.2.2.2.2.1]
  · rw [h2.2.2.2.2.2, h1.2.2.2.2.2]

theorem same_counters_of_gaps (a b : pool_mgr_t) (h : same_but_gaps a b) : same_counters a b := by
  obtain ⟨_, a2, a3, _, a5, a6, a7, a8⟩ := h
  exact ⟨a2, a3, a5, a6, a7, a8⟩

theorem realloc_gap_ix_spec (g : List gap_t) (bytes : Nat) :
    (realloc_gap_ix g bytes).length = bytes / sizeof_gap_t ∧
    ∀ k, k < g.length → k < bytes / sizeof_gap_t → (realloc_gap_ix g bytes)[k]? = g[k]? := by
  constructor
  · simp only [realloc_gap_ix, List.length_append, List.length_take, List.length_replicate]
    omega
  · intro k h1 h2
    simp only [realloc_gap_ix, List.getElem?_append, List.length_take]
    have : k < min (bytes / sizeof_gap_t) g.length := by omega
    simp only [this, if_true, List.getElem?_take, h2]

theorem resize_gap_ix_inv (st st1 : pool_mgr_t) (r : alloc_status)
    (hb : st.gap_ix.length ≤ 2147483648) (h : _mem_resize_gap_ix st = some (st1, r)) :
    same_but_gaps st st1 ∧ st1.pool.num_gaps = st.pool.num_gaps ∧
      st1.gap_ix.length ≤ 2147483648 ∧
      ∀ k, k < st.gap_ix.length → k < st1.gap_ix.length → st1.gap_ix[k]? = st.gap_ix[k]? := by
  unfold _mem_resize_gap_ix at h
  split at h
  · simp at h
  · split at h
    · simp only [Option.some.injEq, Prod.mk.injEq] at h
      obtain ⟨h, _⟩ := h
      subst h
      have hsp := realloc_gap_ix_spec st.gap_ix
        (u64 (u32 (st.gap_ix_capacity * MEM_GAP_IX_EXPAND_FACTOR) * sizeof_pool_mgr_pt))
      refine ⟨⟨rfl, rfl, rfl, rfl, rfl, rfl, rfl, rfl⟩, rfl, ?_, ?_⟩
      · show (realloc_gap_ix _ _).length ≤ _
        rw [hsp.1]
        have : u32 (st.gap_ix_capacity * MEM_GAP_IX_EXPAND_FACTOR) < 4294967296 :=
          Nat.mod_lt _ (by decide)
        have h2 : u64 (u32 (st.gap_ix_capacity * MEM_GAP_IX_EXPAND_FACTOR) * sizeof_pool_mgr_pt) ≤
            u32 (st.gap_ix_capacity * MEM_GAP_IX_EXPAND_FACTOR) * sizeof_pool_mgr_pt :=
          Nat.mod_le _ _
        simp only [sizeof_pool_mgr_pt, sizeof_gap_t] at h2 ⊢
        omega
      · intro k h1 h2
        have h2' : k < (realloc_gap_ix st.gap_ix
            (u64 (u32 (st.gap_ix_capacity * MEM_GAP_IX_EXPAND_FACTOR) * sizeof_pool_mgr_pt))).length :=
          h2
        rw [hsp.1] at h2'
        exact hsp.2 k h1 h2'
    · simp only [Option.some.injEq, Prod.mk.injEq] at h
      obtain ⟨h, _⟩ := h
      subst h
      exact ⟨same_but_gaps_refl _, rfl, hb, fun _ _ _ => rfl⟩

theorem add_inv (st st' : pool_mgr_t) (sz : Nat) (node : Option NodeRef) (r : alloc_status)
    (hg : ginv st.gap_ix st.pool.num_gaps)
    (h : _mem_add_to_gap_ix st sz node = some (st', r)) :
    ginv st'.gap_ix st'.pool.num_gaps ∧ same_but_gaps st st' ∧
      st'.pool.num_gaps = st.pool.num_gaps + 1 := by
  obtain ⟨g1, g2, g3⟩ := hg
  -- the state after the resize, if any
  have hres : ∃ st1, (if st.pool.num_gaps = st.gap_ix_capacity then
        (_mem_resize_gap_ix st).map Prod.fst else some st) = some st1 ∧
      same_but_gaps st st1 ∧ st1.pool.num_gaps = st.pool.num_gaps ∧
      st1.gap_ix.length ≤ 2147483648 ∧
      ∀ k, k < st.gap_ix.length → k < st1.gap_ix.length → st1.gap_ix[k]? = st.gap_ix[k]? := by
    unfold _mem_add_to_gap_ix at h
    by_cases hc : st.pool.num_gaps = st.gap_ix_capacity
    · simp only [hc, if_true] at h ⊢
      cases hr : _mem_resize_gap_ix st with
      | none => rw [hr] at h; simp at h
      | some x =>
        obtain ⟨st1, r1⟩ := x
        obtain ⟨a1, a2, a3, a4⟩ := resize_gap_ix_inv st st1 r1 g3 hr
        exact ⟨st1, rfl, a1, a2.trans hc, a3, a4⟩
    · simp only [hc, if_false]
      exact ⟨st, rfl, same_but_gaps_refl _, rfl, g3, fun _ _ _ => rfl⟩
  obtain ⟨st1, e1, f1, n1, b1, p1⟩ := hres
  unfold _mem_add_to_gap_ix at h
  simp only [e1] at h
  split at h
  · rename_i hlt
    rw [n1] at hlt
    have hu : u32 (st1.pool.num_gaps + 1) = st.pool.num_gaps + 1 := by
      rw [n1]; unfold u32; omega
    rw [hu, n1] at h
    obtain ⟨s1, s2, s3, s4, s5, s6, s7⟩ := sort_inv _ st' r
      (by show 0 < st.pool.num_gaps + 1; omega)
      (by show st.pool.num_gaps + 1 ≤ (st1.gap_ix.set _ _).length; simp; omega)
      (by show (st1.gap_ix.set _ _).length ≤ _; simpa using b1)
      (by
        intro a b hab hb
        have hb' : b + 1 < st.pool.num_gaps + 1 := hb
        show gsz (st1.gap_ix.set _ _) a ≤ gsz (st1.gap_ix.set _ _) b
        rw [gsz_set _ _ _ _ hlt, gsz_set _ _ _ _ hlt]
        have ca : ¬ st.pool.num_gaps = a := by omega
        have cb : ¬ st.pool.num_gaps = b := by omega
        simp only [ca, cb, if_false]
        rw [gsz_of_eq _ _ a (p1 a (by omega) (by omega)),
          gsz_of_eq _ _ b (p1 b (by omega) (by omega))]
        exact g1 a b hab (by omega)) h
    obtain ⟨f11, f12, f13, f14, f15, f16, f17, f18⟩ := f1
    refine ⟨s1, ⟨s3.trans f11, s4.trans f12, s5.trans f13, s6.trans f14, ?_, ?_, ?_, ?_⟩, ?_⟩
    · rw [s2]; exact f15
    · rw [s2]; exact f16
    · rw [s2]; exact f17
    · rw [s2]; exact f18
    · rw [s2]
  · simp at h

theorem gap_find_le (g : List gap_t) (node : Option NodeRef) :
    ∀ (n i k : Nat), gap_find g node n i = some k → i ≤ k ∧ k ≤ i + n
  | 0, i, k, h => by
    simp only [gap_find, Option.some.injEq] at h
    omega
  | n + 1, i, k, h => by
    simp only [gap_find] at h
    split at h
    · simp at h
    · split at h
      · simp only [Option.some.injEq] at h
        omega
      · have := gap_find_le g node n (i + 1) k h
        omega

theorem rem_inv (st st' : pool_mgr_t) (sz : Nat) (node : Option NodeRef) (r : alloc_status)
    (hg : ginv st.gap_ix st.pool.num_gaps)
    (h : _mem_remove_from_gap_ix st sz node = some (st', r)) :
    ginv st'.gap_ix st'.pool.num_gaps ∧ same_but_gaps st st' ∧
      st'.pool.num_gaps + 1 = st.pool.num_gaps ∧
      st'.gap_ix_capacity = st.gap_ix_capacity := by
  obtain ⟨g1, g2, g3⟩ := hg
  unfold _mem_remove_from_gap_ix at h
  split at h
  · simp at h
  · rename_i h0
    cases hf : gap_find st.gap_ix node st.pool.num_gaps 0 with
    | none => rw [hf] at h; simp at h
    | some k =>
      rw [hf] at h
      simp only at h
      have hk := gap_find_le _ _ _ _ _ hf
      have hsub : sub32 st.pool.num_gaps 1 = st.pool.num_gaps - 1 :=
        sub32_one _ (by omega) (by omega)
      rw [hsub] at h
      by_cases hkn : k < st.pool.num_gaps
      · obtain ⟨g', e1, e2, e3⟩ := gap_shift_spec (st.pool.num_gaps - 1 - k) st.gap_ix k (by omega)
        rw [e1] at h
        simp only at h
        split at h
        · rename_i hj
          simp only [Option.some.injEq, Prod.mk.injEq] at h
          obtain ⟨h, _⟩ := h
          subst h
          refine ⟨⟨?_, ?_, ?_⟩, ⟨rfl, rfl, rfl, rfl, rfl, rfl, rfl, rfl⟩, ?_, rfl⟩
          · intro a b hab hb
            have hb' : b < st.pool.num_gaps - 1 := hb
            show gsz (g'.set _ _) a ≤ gsz (g'.set _ _) b
            rw [gsz_set _ _ _ _ hj, gsz_set _ _ _ _ hj]
            have ca : ¬ k + (st.pool.num_gaps - 1 - k) = a := by omega
            have cb : ¬ k + (st.pool.num_gaps - 1 - k) = b := by omega
            simp only [ca, cb, if_false]
            simp only [gsz, e3]
            by_cases c1 : k ≤ a ∧ a < k + (st.pool.num_gaps - 1 - k)
            · have c2 : k ≤ b ∧ b < k + (st.pool.num_gaps - 1 - k) := by omega
              simp only [c1, c2, and_self, if_true]
              exact g1 (a + 1) (b + 1) (by omega) (by omega)
            · by_cases c2 : k ≤ b ∧ b < k + (st.pool.num_gaps - 1 - k)
              · simp only [c1, c2, and_self, if_true, if_false]
                exact g1 a (b + 1) (by omega) (by omega)
              · simp only [c1, c2, if_false]
                exact g1 a b hab (by omega)
          · show st.pool.num_gaps - 1 ≤ (g'.set _ _).length
            simp; omega
          · show (g'.set _ _).length ≤ _
            simp; omega
          · show st.pool.num_gaps - 1 + 1 = _
            omega
        · simp at h
      · have hke : k = st.pool.num_gaps := by omega
        have hz : st.pool.num_gaps - 1 - k = 0 := by omega
        rw [hz] at h
        simp only [gap_shift] at h
        split at h
        · rename_i hj
          simp only [Option.some.injEq, Prod.mk.injEq] at h
          obtain ⟨h, _⟩ := h
          subst h
          refine ⟨⟨?_, ?_, ?_⟩, ⟨rfl, rfl, rfl, rfl, rfl, rfl, rfl, rfl⟩, ?_, rfl⟩
          · intro a b hab hb
            have hb' : b < st.pool.num_gaps - 1 := hb
            show gsz (st.gap_ix.set _ _) a ≤ gsz (st.gap_ix.set _ _) b
            rw [gsz_set _ _ _ _ hj, gsz_set _ _ _ _ hj]
            have ca : ¬ k = a := by omega
            have cb : ¬ k = b := by omega
            simp only [ca, cb, if_false]
            exact g1 a b hab (by omega)
          · show st.pool.num_gaps - 1 ≤ (st.gap_ix.set _ _).length
            simp; omega
          · show (st.gap_ix.set _ _).length ≤ _
            simp; omega
          · show st.pool.num_gaps - 1 + 1 = _
            omega
        · simp at h

/-! ## The gap index stays sorted: growth and the user-facing calls -/

theorem invalidate_loop_spec : ∀ (n i : Nat) (g g' : List gap_t),
    invalidate_loop g n i = some g' →
      g'.length = g.length ∧ ∀ k, gsz g' k = if i ≤ k ∧ k < i + n then 0 else gsz g k
  | 0, i, g, g', h => by
    simp only [invalidate_loop, Option.some.injEq] at h
    subst h
    refine ⟨rfl, fun k => ?_⟩
    have : ¬ (i ≤ k ∧ k < i + 0) := by omega
    simp only [this, if_false]
  | n + 1, i, g, g', h => by
    simp only [invalidate_loop] at h
    split at h
    · rename_i hi
      obtain ⟨a1, a2⟩ := invalidate_loop_spec n (i + 1) _ g' h
      refine ⟨by simpa using a1, fun k => ?_⟩
      rw [a2 k, gsz_set _ _ _ _ hi]
      by_cases c1 : i + 1 ≤ k ∧ k < i + 1 + n
      · have c2 : i ≤ k ∧ k < i + (n + 1) := by omega
        simp only [c1, c2, and_self, if_true]
      · by_cases c3 : i = k
        · subst c3
          have c2 : i ≤ i ∧ i < i + (n + 1) := by omega
          simp only [c1, c2, and_self, if_true, if_false, gap_zero]
        · have c2 : ¬ (i ≤ k ∧ k < i + (n + 1)) := by omega
          simp only [c1, c2, c3, if_false]
    · simp at h

theorem resize_copy_inv (newh : Nat) : ∀ (f : Nat) (st : pool_mgr_t) (p : Option NodeRef) (i : Nat)
    (st' : pool_mgr_t), ginv st.gap_ix st.pool.num_gaps →
    resize_copy newh f st p i = some st' →
      ginv st'.gap_ix st'.pool.num_gaps ∧ same_counters st st' ∧ st'.used_nodes = st.used_nodes
  | f, st, none, i, st', hg, h => by
    cases f <;>
    · simp only [resize_copy, Option.some.injEq] at h
      subst h
      exact ⟨hg, same_counters_refl _, rfl⟩
  | 0, st, some r, i, st', hg, h => by simp [resize_copy] at h
  | f + 1, st, some r, i, st', hg, h => by
    simp only [resize_copy] at h
    split at h
    · simp at h
    · rename_i n hn
      split at h
      · simp at h
      · rename_i hs1 hhs1
        by_cases ha : n.allocated = 0
        · simp only [ha, if_true] at h
          cases hadd : _mem_add_to_gap_ix { st with heaps := hs1 } n.size
              (some { heap := newh, idx := i }) with
          | none => rw [hadd] at h; simp at h
          | some x =>
            obtain ⟨st2, r2⟩ := x
            rw [hadd] at h
            simp only [Option.map_some'] at h
            obtain ⟨b1, b2, _⟩ := add_inv _ st2 _ _ r2 (by exact hg) hadd
            have sc : same_counters st st2 := by
              obtain ⟨_, a2, a3, _, a5, a6, a7, a8⟩ := b2
              exact ⟨a2, a3, a5, a6, a7, a8⟩
            have su : st2.used_nodes = st.used_nodes := b2.2.2.2.1
            split at h
            · simp at h
            · obtain ⟨c1, c2, c3⟩ := resize_copy_inv newh f st2 _ (i + 1) st' b1 h
              exact ⟨c1, same_counters_trans _ _ _ sc c2, c3.trans su⟩
        · simp only [ha, if_false] at h
          split at h
          · simp at h
          · obtain ⟨c1, c2, c3⟩ := resize_copy_inv newh f { st with heaps := hs1 } _ (i + 1) st'
              (by exact hg) h
            exact ⟨c1, c2, c3⟩

theorem match_mgr_inv {β : Type} (o : Option pool_mgr_t) (k : pool_mgr_t → Option β) (y : β)
    (h : (match o with
          | none => none
          | some x => k x) = some y) : ∃ x, o = some x ∧ k x = some y := by
  cases o with
  | none => simp at h
  | some x => exact ⟨x, rfl, h⟩

theorem match_heaps_inv {β : Type} (o : Option (List (List node_t)))
    (k : List (List node_t) → Option β) (y : β)
    (h : (match o with
          | none => none
          | some x => k x) = some y) : ∃ x, o = some x ∧ k x = some y := by
  cases o with
  | none => simp at h
  | some x => exact ⟨x, rfl, h⟩

theorem resize_node_heap_inv (st st' : pool_mgr_t) (r : alloc_status)
    (hg : ginv st.gap_ix st.pool.num_gaps) (h0 : st.pool.num_gaps ≠ 0)
    (h : _mem_resize_node_heap st = some (st', r)) :
    ginv st'.gap_ix st'.pool.num_gaps := by
  unfold _mem_resize_node_heap at h
  -- the decrements and the state after the first one are kept abstract while
  -- the hypothesis is taken apart
  obtain ⟨dec, hdec⟩ : ∃ dec, sub32 = dec := ⟨_, rfl⟩
  rw [hdec] at h
  split at h
  · split at h
    · simp at h
    · rename_i st1 x heq
      generalize hV : ({ st1 with pool.num_gaps := dec st1.pool.num_gaps 1 } : pool_mgr_t) = v2 at h
      have e1 : v2.gap_ix = st1.gap_ix := by rw [← hV]
      have e2 : v2.pool.num_gaps = dec st1.pool.num_gaps 1 := by rw [← hV]
      clear hV
      dsimp only at h
      unfold _mem_invalidate_gap_ix at heq
      cases hinv : invalidate_loop st.gap_ix st.pool.num_gaps 0 with
      | none => rw [hinv] at heq; simp at heq
      | some g =>
        rw [hinv] at heq
        simp only [Option.some.injEq, Prod.mk.injEq] at heq
        obtain ⟨heq, _⟩ := heq
        have f1 : st1.gap_ix = g := by rw [← heq]
        have f2 : st1.pool.num_gaps = st.pool.num_gaps := by rw [← heq]
        clear heq
        obtain ⟨i1, i2⟩ := invalidate_loop_spec _ _ _ _ hinv
        obtain ⟨g1, g2, g3⟩ := hg
        have e1' : v2.gap_ix = g := e1.trans f1
        have e2' : v2.pool.num_gaps = st.pool.num_gaps - 1 := by
          rw [e2, ← hdec, f2]; exact sub32_one _ (by omega) (by omega)
        obtain ⟨st4, hcopy, h⟩ := match_mgr_inv _ _ _ h
        obtain ⟨c1, _, _⟩ := resize_copy_inv _ _ _ _ _ st4 (by
          show ginv v2.gap_ix v2.pool.num_gaps
          rw [e1', e2']
          refine ⟨?_, ?_, ?_⟩
          · intro a b hab hb
            rw [i2 a, i2 b]
            have ca : 0 ≤ a ∧ a < 0 + st.pool.num_gaps := by omega
            have cb : 0 ≤ b ∧ b < 0 + st.pool.num_gaps := by omega
            simp only [ca, cb, and_self, if_true, Nat.le_refl]
          · rw [i1]; omega
          · rw [i1]; exact g3) hcopy
        obtain ⟨hs5, _, h⟩ := match_heaps_inv _ _ _ h
        obtain ⟨hs6, _, h⟩ := match_heaps_inv _ _ _ h
        simp only [Option.some.injEq, Prod.mk.injEq] at h
        obtain ⟨h, _⟩ := h
        subst h
        exact c1
  · simp only [Option.some.injEq, Prod.mk.injEq] at h
    obtain ⟨h, _⟩ := h
    subst h
    exact hg

theorem new_gap_loop_frame (new_alloc : NodeRef) (rem : Nat) :
    ∀ (n i : Nat) (st st' : pool_mgr_t) (g : Option NodeRef),
      new_gap_loop new_alloc rem n i st = some (st', g) →
        st'.gap_ix = st.gap_ix ∧ st'.pool = st.pool ∧ st'.gap_ix_capacity = st.gap_ix_capacity ∧
        st'.node_heap = st.node_heap ∧ st'.total_nodes = st.total_nodes
  | 0, i, st, st', g, h => by
    simp only [new_gap_loop, Option.some.injEq, Prod.mk.injEq] at h
    obtain ⟨h, _⟩ := h
    subst h
    exact ⟨rfl, rfl, rfl, rfl, rfl⟩
  | n + 1, i, st, st', g, h => by
    simp only [new_gap_loop] at h
    split at h
    · simp at h
    · split at h
      · split at h
        · simp at h
        · simp only [Option.some.injEq, Prod.mk.injEq] at h
          obtain ⟨h, _⟩ := h
          subst h
          exact ⟨rfl, rfl, rfl, rfl, rfl⟩
      · exact new_gap_loop_frame new_alloc rem n (i + 1) st st' g h

theorem merge_next_inv (st st' : pool_mgr_t) (r : NodeRef)
    (hg : ginv st.gap_ix st.pool.num_gaps) (h : merge_next st r = some st') :
    ginv st'.gap_ix st'.pool.num_gaps ∧ same_counters st st' := by
  unfold merge_next at h
  obtain ⟨dec, hdec⟩ : ∃ dec, sub32 = dec := ⟨_, rfl⟩
  rw [hdec] at h
  split at h
  · simp at h
  · split at h
    · simp only [Option.some.injEq] at h
      subst h
      exact ⟨hg, same_counters_refl _⟩
    · split at h
      · simp at h
      · split at h
        · split at h
          · simp at h
          · rename_i st1 _ hrem
            obtain ⟨a1, a2, _⟩ := rem_inv _ _ _ _ _ hg hrem
            dsimp only at h
            split at h
            · simp at h
            · simp only [Option.some.injEq] at h
              subst h
              have sc : same_counters st st1 := same_counters_of_gaps _ _ a2
              exact ⟨a1, sc⟩
        · simp only [Option.some.injEq] at h
          subst h
          exact ⟨hg, same_counters_refl _⟩

theorem merge_prev_inv (st st' : pool_mgr_t) (r : NodeRef)
    (hg : ginv st.gap_ix st.pool.num_gaps) (h : merge_prev st r = some st') :
    ginv st'.gap_ix st'.pool.num_gaps ∧ same_counters st st' := by
  unfold merge_prev at h
  obtain ⟨dec, hdec⟩ : ∃ dec, sub32 = dec := ⟨_, rfl⟩
  rw [hdec] at h
  split at h
  · simp at h
  · split at h
    · simp only [Option.some.injEq] at h
      subst h
      exact ⟨hg, same_counters_refl _⟩
    · split at h
      · simp at h
      · split at h
        · split at h
          · simp at h
          · rename_i st1 _ hrem
            obtain ⟨a1, a2, _⟩ := rem_inv _ _ _ _ _ hg hrem
            dsimp only at h
            split at h
            · simp at h
            · simp only [Option.some.injEq] at h
              subst h
              have sc : same_counters st st1 := same_counters_of_gaps _ _ a2
              exact ⟨a1, sc⟩
        · simp only [Option.some.injEq] at h
          subst h
          exact ⟨hg, same_counters_refl _⟩

theorem del_alloc_inv (st st' : pool_mgr_t) (alloc : NodeRef) (r : alloc_status)
    (hg : ginv st.gap_ix st.pool.num_gaps) (h : mem_del_alloc st alloc = some (st', r)) :
    ginv st'.gap_ix st'.pool.num_gaps ∧ st'.pool.policy = st.pool.policy := by
  unfold mem_del_alloc at h
  obtain ⟨dec, hdec⟩ : ∃ dec, sub32 = dec := ⟨_, rfl⟩
  rw [hdec] at h
  split at h
  · simp at h
  · split at h
    · simp only [Option.some.injEq, Prod.mk.injEq] at h
      obtain ⟨h, _⟩ := h
      subst h
      exact ⟨hg, rfl⟩
    · dsimp only at h
      split at h
      · simp at h
      · split at h
        · simp at h
        · split at h
          · simp at h
          · rename_i st2 hm2
            obtain ⟨a1, a2⟩ := merge_next_inv _ st2 _ (by exact hg) hm2
            split at h
            · simp at h
            · rename_i st3 hm3
              obtain ⟨b1, b2⟩ := merge_prev_inv _ st3 _ a1 hm3
              split at h
              · simp at h
              · split at h
                · simp at h
                · rename_i st4 status hadd
                  obtain ⟨c1, c2, _⟩ := add_inv _ _ _ _ _ b1 hadd
                  have hpol : st4.pool.policy = st.pool.policy := by
                    rw [c2.2.2.2.2.1, b2.2.2.1, a2.2.2.1]
                  split at h
                  · simp only [Option.some.injEq, Prod.mk.injEq] at h
                    obtain ⟨h, _⟩ := h
                    subst h
                    exact ⟨c1, hpol⟩
                  · simp only [Option.some.injEq, Prod.mk.injEq] at h
                    obtain ⟨h, _⟩ := h
                    subst h
                    exact ⟨c1, hpol⟩


theorem new_alloc_inv (st st' : pool_mgr_t) (size : Nat) (r : Option NodeRef)
    (hg : ginv st.gap_ix st.pool.num_gaps) (h : mem_new_alloc st size = some (st', r)) :
    ginv st'.gap_ix st'.pool.num_gaps := by
  unfold mem_new_alloc at h
  split at h
  · simp only [Option.some.injEq, Prod.mk.injEq] at h
    obtain ⟨h, _⟩ := h
    subst h
    exact hg
  · rename_i h0
    split at h
    · simp at h
    · rename_i st1 _ hres
      have a1 := resize_node_heap_inv st st1 _ hg h0 hres
      split at h
      · simp only [Option.some.injEq, Prod.mk.injEq] at h
        obtain ⟨h, _⟩ := h
        subst h
        exact a1
      · dsimp only at h
        split at h
        · simp at h
        · simp only [Option.some.injEq, Prod.mk.injEq] at h
          obtain ⟨h, _⟩ := h
          subst h
          exact a1
        · split at h
          · simp at h
          · split at h
            · simp only [Option.some.injEq, Prod.mk.injEq] at h
              obtain ⟨h, _⟩ := h
              subst h
              exact a1
            · split at h
              · simp at h
              · rename_i st2 _ hrem
                obtain ⟨b1, _⟩ := rem_inv _ st2 _ _ _ (by exact a1) hrem
                split at h
                · simp at h
                · split at h
                  · split at h
                    · simp at h
                    · rename_i st4 new_gap hloop
                      obtain ⟨f1, f2, _⟩ := new_gap_loop_frame _ _ _ _ _ _ _ hloop
                      have b4 : ginv st4.gap_ix st4.pool.num_gaps := by
                        rw [f1, f2]; exact b1
                      split at h
                      · simp at h
                      · rename_i st5 status hadd
                        obtain ⟨c1, _⟩ := add_inv _ _ _ _ _ b4 hadd
                        split at h
                        · simp only [Option.some.injEq, Prod.mk.injEq] at h
                          obtain ⟨h, _⟩ := h
                          subst h
                          exact c1
                        · simp only [Option.some.injEq, Prod.mk.injEq] at h
                          obtain ⟨h, _⟩ := h
                          subst h
                          exact c1
                  · simp only [Option.some.injEq, Prod.mk.injEq] at h
                    obtain ⟨h, _⟩ := h
                    subst h
                    exact b1

theorem run_inv : ∀ (cs : List Call) (st : pool_mgr_t) (hs : List (Option NodeRef))
    (st' : pool_mgr_t) (hs' : List (Option NodeRef)),
    ginv st.gap_ix st.pool.num_gaps → run st hs cs = some (st', hs') →
      ginv st'.gap_ix st'.pool.num_gaps
  | [], st, hs, st', hs', hg, h => by
    simp only [run, Option.some.injEq, Prod.mk.injEq] at h
    obtain ⟨h, _⟩ := h
    subst h
    exact hg
  | Call.alloc s :: cs, st, hs, st', hs', hg, h => by
    simp only [run] at h
    split at h
    · simp at h
    · rename_i st1 r1 h1
      exact run_inv cs st1 _ st' hs' (new_alloc_inv st st1 s r1 hg h1) h
  | Call.free k :: cs, st, hs, st', hs', hg, h => by
    simp only [run] at h
    split at h
    · split at h
      · simp at h
      · rename_i st1 r1 h1
        exact run_inv cs st1 _ st' hs' (del_alloc_inv st st1 _ r1 hg h1).1 h
    · simp at h

theorem run_take : ∀ (cs : List Call) (k : Nat) (st : pool_mgr_t) (hs : List (Option NodeRef))
    (st' : pool_mgr_t) (hs' : List (Option NodeRef)),
    run st hs cs = some (st', hs') → ∃ r, run st hs (cs.take k) = some r
  | [], k, st, hs, st', hs', h => by simp [run]
  | c :: cs, 0, st, hs, st', hs', h => by simp [run]
  | Call.alloc s :: cs, k + 1, st, hs, st', hs', h => by
    simp only [run, List.take_succ_cons] at h ⊢
    split at h
    · simp at h
    · rename_i st1 r1 h1
      exact run_take cs k st1 _ st' hs' h
  | Call.free j :: cs, k + 1, st, hs, st', hs', h => by
    simp only [run, List.take_succ_cons] at h ⊢
    split at h
    · rename_i h0
      split at h
      · simp at h
      · rename_i st1 r1 h1
        exact run_take cs k st1 _ st' hs' h
    · simp at h

theorem ginv_open (size : Nat) (policy : alloc_policy) :
    ginv (mem_pool_open_mgr size policy).gap_ix (mem_pool_open_mgr size policy).pool.num_gaps := by
  refine ⟨?_, ?_, ?_⟩
  · intro a b hab hb
    have : b < 1 := hb
    omega
  · simp [mem_pool_open_mgr, MEM_GAP_IX_INIT_CAPACITY]
  · simp [mem_pool_open_mgr, MEM_GAP_IX_INIT_CAPACITY]

/-! ## The steps of `mem_new_alloc`: lemmas -/

theorem hlen_append_old (hs : List (List node_t)) (l : List node_t) (k : Nat)
    (hk : k < hs.length) : hlen (hs ++ [l]) k = hlen hs k := by
  unfold hlen
  rw [List.getElem?_append_left hk]

theorem next_run_of_lseg (hs : List (List node_t)) (h : Nat) :
    ∀ (c : List Nat) (prev : Option NodeRef), lseg hs h prev c none → next_run hs h c
  | [], _, _ => trivial
  | _ :: rest, _, hl => ⟨hl.2.2.1, next_run_of_lseg hs h rest _ hl.2.2.2⟩

theorem run_append : ∀ (cs1 cs2 : List Call) (st : pool_mgr_t) (hs : List (Option NodeRef)),
    run st hs (cs1 ++ cs2) = (run st hs cs1).bind fun r => run r.1 r.2 cs2
  | [], cs2, st, hs => by simp [run]
  | Call.alloc s :: cs1, cs2, st, hs => by
    simp only [List.cons_append, run]
    cases mem_new_alloc st s with
    | none => rfl
    | some r =>
      obtain ⟨st1, h⟩ := r
      exact run_append cs1 cs2 st1 _
  | Call.free k :: cs1, cs2, st, hs => by
    simp only [List.cons_append, run]
    cases hs[k]? with
    | none => rfl
    | some o =>
      cases o with
      | none => rfl
      | some h =>
        simp only
        cases mem_del_alloc st h with
        | none => rfl
        | some r =>
          obtain ⟨st1, x⟩ := r
          exact run_append cs1 cs2 st1 _

theorem run_append_some (cs1 cs2 : List Call) (st st1 : pool_mgr_t)
    (hs hs1 : List (Option NodeRef)) (h : run st hs cs1 = some (st1, hs1)) :
    run st hs (cs1 ++ cs2) = run st1 hs1 cs2 := by
  rw [run_append, h]
  rfl

set_option maxRecDepth 1000000 in
set_option maxHeartbeats 4000000 in
theorem forty_gaps_first : run (mem_pool_open_mgr 1000 alloc_policy.FIRST_FIT) []
    (calls_forty_gaps.take 44) = some (state_after_44, handles_after 1) := by
  decide

set_option maxRecDepth 1000000 in
set_option maxHeartbeats 4000000 in
theorem forty_gaps_second : run state_after_44 (handles_after 1)
    ((calls_forty_gaps.drop 44).take 17) = some (state_after_61, handles_after 12) := by
  decide

set_option maxRecDepth 1000000 in
set_option maxHeartbeats 4000000 in
theorem forty_gaps_third :
    (run state_after_61 (handles_after 12) (calls_forty_gaps.drop 61)).map full_index_view =
      some (some (slot 1 51), (40, 40, 40, some gap_zero),
            ((13, 1, 1, slot 1 50, slot 1 52), 1, 1), some (40, 40), 40, none, none, none) :=
  rfl

theorem forty_gaps_initial :
    run (mem_pool_open_mgr 1000 alloc_policy.FIRST_FIT) [] calls_forty_gaps =
      run state_after_61 (handles_after 12) (calls_forty_gaps.drop 61) := by
  have e1 := run_append_some (calls_forty_gaps.take 44) (calls_forty_gaps.drop 44) _ _ _ _
    forty_gaps_first
  rw [List.take_append_drop] at e1
  have e2 := run_append_some ((calls_forty_gaps.drop 44).take 17)
    ((calls_forty_gaps.drop 44).drop 17) _ _ _ _ forty_gaps_second
  rw [List.take_append_drop, List.drop_drop] at e2
  rw [e1, e2]

/-! ## The later claims -/

/-- C14 (code evaluated at a failing input): after `mem_init ()`, a call
`mem_pool_open (size, policy)` succeeds and returns a pointer to a manager
holding the new pool, but no entry of the pool store references it and
`pool_store_size` is still `0` (the linking loop runs `pool_store_size`
iterations).  `mem_free ()` then returns `ALLOC_OK` and resets the pool store to
`NULL` although the pool has not been closed and is still in memory. -/
theorem C14_open_pool_is_not_registered (size : Nat) (policy : alloc_policy) :
    (mem_pool_open (mem_init store_start).1 size policy).map
        (fun r => (r.2, mgr_of r.1 r.2, r.1.pool_store, r.1.pool_store_size,
                   (mem_free r.1).map
                     (fun q => (q.2, q.1.pool_store, q.1.pool_store_capacity, mgr_of q.1 r.2))))
      = some (some 0, some (mem_pool_open_mgr size policy),
              some (List.replicate 20 none), 0,
              some (alloc_status.ALLOC_OK, none, 0, some (mem_pool_open_mgr size policy))) :=
  rfl

set_option maxRecDepth 100000 in
/-- C18 (code evaluated at a failing input): the BEST_FIT pool of 1000 bytes
reached by the 32 calls of `calls_slot0_second` is well formed, its chain runs
from slot 1 (the head) over slot 0 to slot 29, and 30 of its 40 slots are in
service, so that the growth step is due.  `_mem_resize_node_heap` doubles
`total_nodes` to 80 and leaves `used_nodes` at 30, but the new segment array
does not hold the chain: none of its slots is a chain head, the walk from
`node_heap[0]` starts at the gap of 3 bytes and ends in a zeroed slot, the
segments in service are 29 and their sizes sum to 999 (the head allocation of 1
byte was not copied), and the head that the walk along `prev` reaches lies in
the old node heap. -/
theorem C18_growth_drops_the_head :
    valid_calls [] calls_slot0_second = true ∧
    run (mem_pool_open_mgr 1000 alloc_policy.BEST_FIT) [] calls_slot0_second ≠ none ∧
    well_formed state_slot0_second chain_slot0_second ∧
    fill_factor_reached state_slot0_second.used_nodes state_slot0_second.total_nodes = true ∧
    (mem_inspect_pool state_slot0_second).map (fun r => r.2.1) =
      some (slot_records state_slot0_second chain_slot0_second) ∧
    slot_segments state_slot0_second chain_slot0_second =
      [(1, 1), (3, 0)] ++ List.replicate 27 (5, 1) ++ [(861, 0)] ∧
    (_mem_resize_node_heap state_slot0_second).map
        (fun r => (r.1.total_nodes, r.1.used_nodes, r.1.node_heap, heads r.1,
                   (chain_from_slot0 r.1).map segments,
                   (in_service r.1).length, total (in_service r.1),
                   walk_prev r.1.heaps (memory_slots r.1.heaps) { heap := r.1.node_heap, idx := 0 }))
      = some (80, 30, 1, [],
              some ([(3, 0)] ++ List.replicate 27 (5, 1) ++ [(861, 0), (0, 0)]),
              29, 999, some { heap := 0, idx := 1 }) :=
  ⟨rfl, by decide, by decide, rfl, rfl, rfl, rfl⟩

set_option maxRecDepth 100000 in
/-- C19 (code evaluated at a failing input): the FIRST_FIT pool of 1000 bytes
reached by 29 allocations of one byte and the release of the second one is well
formed, with the chain head in slot 0, 30 of 40 slots in service and two free
segments (1 byte and 971 bytes).  After `_mem_resize_node_heap` the rebuilt
chain has the same two free segments, but `num_gaps` is 3 and the first entry
of the gap index is a cleared entry with a null reference. -/
theorem C19_growth_leaves_a_cleared_entry :
    well_formed state_two_gaps (List.range 30) ∧
    fill_factor_reached state_two_gaps.used_nodes state_two_gaps.total_nodes = true ∧
    gaps state_two_gaps = [{ size := 1, node := some { heap := 0, idx := 1 } },
                           { size := 971, node := some { heap := 0, idx := 29 } }] ∧
    (_mem_resize_node_heap state_two_gaps).map
        (fun r => (r.1.pool.num_gaps, gaps r.1,
                   (mem_inspect_pool r.1).map
                     (fun q => q.2.1.filter (fun s => s.allocated == 0))))
      = some (3, [{ size := 0, node := none },
                  { size := 1, node := some { heap := 1, idx := 1 } },
                  { size := 971, node := some { heap := 1, idx := 29 } }],
              some [{ size := 1, allocated := 0 }, { size := 971, allocated := 0 }]) :=
  ⟨by decide, rfl, rfl, rfl⟩

/-- C20 (code evaluated at a failing input): on a freshly opened pool of 1000
bytes, whose `alloc_size` is 0, under either policy, a request of 1000 bytes
succeeds and the address recorded in the allocated segment is the base of the
buffer plus 1000, the value of `alloc_size` after the call, one past the end of
the buffer; a request of 100 bytes records the base plus 100, the address at
which the remainder gap starts. -/
theorem C20_recorded_address_includes_the_request (policy : alloc_policy) :
    (mem_pool_open_mgr 1000 policy).pool.alloc_size = 0 ∧
    (mem_new_alloc (mem_pool_open_mgr 1000 policy) 1000).map
        (fun r => (r.2, (getNode r.1.heaps r.2).map (fun n => (n.size, n.mem)),
                   r.1.pool.alloc_size))
      = some (some { heap := 0, idx := 0 }, some (1000, some 1000), 1000) ∧
    (mem_new_alloc (mem_pool_open_mgr 1000 policy) 100).map
        (fun r => (r.2, (getNode r.1.heaps r.2).map (fun n => (n.size, n.mem)),
                   r.1.pool.alloc_size))
      = some (some { heap := 0, idx := 0 }, some (100, some 100), 100) := by
  cases policy <;> exact ⟨rfl, rfl, rfl⟩


/-- C16: for every pool state that satisfies the data-model invariant `wf` with a
non-empty chain `chain`, whichever slot holds the head, `mem_inspect_pool` returns;
the array it stores has exactly `used_nodes` entries, its `i`-th entry is the
size and the allocation flag of the `i`-th segment of the chain counted from the
head, the number it stores is `used_nodes`, and the pool state after the call
is the state before it. -/
theorem C16_inspector_snapshot (st : pool_mgr_t) (chain : List Nat) (hwf : wf st chain none)
    (hne : chain ≠ []) :
    mem_inspect_pool st = some (st, slot_records st chain, st.used_nodes) ∧
    (slot_records st chain).length = st.used_nodes ∧
    ∀ (i x : Nat), chain[i]? = some x →
      (slot_records st chain)[i]? =
        some ({ size := (nd st.heaps st.node_heap x).size
                allocated := (nd st.heaps st.node_heap x).allocated } : pool_segment_t) := by
  refine ⟨inspect_spec st chain hwf hne, by simp [slot_records, hwf.used_count], ?_⟩
  intro i x hx
  simp [slot_records, List.getElem?_map, hx]

set_option maxRecDepth 100000 in
/-- Witness of C16: the BEST_FIT pool of 1000 bytes reached by the calls of
`calls_slot0_second`, whose chain head is in slot 1. -/
theorem C16_witness :
    chain_slot0_second.head? = some 1 ∧
    mem_inspect_pool state_slot0_second =
      some (state_slot0_second, slot_records state_slot0_second chain_slot0_second, 30) :=
  ⟨rfl, (C16_inspector_snapshot state_slot0_second chain_slot0_second (by decide) (by decide)).1⟩

/-- C17: for every pool opened with any size and policy and every sequence of
`mem_new_alloc` / `mem_del_alloc` calls on it that the program runs to the end,
after each call (that is, after every initial part of the sequence) the sizes
of the entries `gap_ix[0 .. num_gaps)` are in non-decreasing order. -/
theorem C17_gap_index_stays_sorted (size : Nat) (policy : alloc_policy) (calls : List Call)
    (st : pool_mgr_t) (hs : List (Option NodeRef))
    (hrun : run (mem_pool_open_mgr size policy) [] calls = some (st, hs)) :
    gap_sorted st ∧
    ∀ k, ∃ r, run (mem_pool_open_mgr size policy) [] (calls.take k) = some r ∧
      gap_sorted r.1 := by
  refine ⟨gap_sorted_of_ginv st
    (run_inv calls _ [] st hs (ginv_open size policy) hrun), ?_⟩
  intro k
  obtain ⟨r, hr⟩ := run_take calls k _ [] st hs hrun
  exact ⟨r, hr, gap_sorted_of_ginv r.1 (run_inv _ _ [] r.1 r.2 (ginv_open size policy) hr)⟩

/-- Witness of C17: the BEST_FIT pool of 1000 bytes and the calls of
`calls_equal_gaps`, after which the gap index lists gaps of 10, 10 and 20
bytes. -/
theorem C17_witness :
    (gaps (state_after 1000 alloc_policy.BEST_FIT calls_equal_gaps)).map gap_t.size =
      [10, 10, 20] ∧
    gap_sorted (state_after 1000 alloc_policy.BEST_FIT calls_equal_gaps) :=
  ⟨rfl, (C17_gap_index_stays_sorted 1000 alloc_policy.BEST_FIT calls_equal_gaps
    (state_after 1000 alloc_policy.BEST_FIT calls_equal_gaps)
    [some { heap := 0, idx := 0 }, some { heap := 0, idx := 1 }, some { heap := 0, idx := 2 },
     some { heap := 0, idx := 3 }, some { heap := 0, idx := 4 }] rfl).1⟩

/-- C21 (code evaluated at a failing input): the 78 calls of `calls_forty_gaps`
on a FIRST_FIT pool of 1000 bytes, every release naming a live allocation, run
to the end and leave `num_gaps = gap_ix_capacity = 40`, the block of the gap
index holding 40 entries, the first of which has size 0.  The 52nd allocation
(13 bytes) is in slot 51 of the segment array, between two allocated segments.
Its release inserts a gap: `_mem_add_to_gap_ix` calls `_mem_resize_gap_ix`,
whose test reads `gap_ix->size` (0 here) and leaves the capacity at 40 (had the
test fired, the block returned by `realloc` would still hold 40 entries), and
the entry is written at index `num_gaps = 40`, outside the block, so that the
insertion, the release and the sequence of 79 calls have no defined result. -/
theorem C21_insertion_at_full_capacity :
    valid_calls [] (calls_forty_gaps ++ [Call.free 51]) = true ∧
    (run (mem_pool_open_mgr 1000 alloc_policy.FIRST_FIT) [] calls_forty_gaps).map
        full_index_view =
      some (some (slot 1 51), (40, 40, 40, some gap_zero),
            ((13, 1, 1, slot 1 50, slot 1 52), 1, 1), some (40, 40), 40, none, none, none) ∧
    run (mem_pool_open_mgr 1000 alloc_policy.FIRST_FIT) [] (calls_forty_gaps ++ [Call.free 51]) =
      none := by
  have h2 : (run (mem_pool_open_mgr 1000 alloc_policy.FIRST_FIT) [] calls_forty_gaps).map
        full_index_view =
      some (some (slot 1 51), (40, 40, 40, some gap_zero),
            ((13, 1, 1, slot 1 50, slot 1 52), 1, 1), some (40, 40), 40, none, none, none) := by
    rw [forty_gaps_initial]
    exact forty_gaps_third
  refine ⟨by decide, h2, ?_⟩
  rw [run_append]
  cases hr : run (mem_pool_open_mgr 1000 alloc_policy.FIRST_FIT) [] calls_forty_gaps with
  | none => rfl
  | some r =>
    rw [hr] at h2
    simp only [Option.map_some', Option.some.injEq, Prod.mk.injEq, full_index_view] at h2
    exact h2.2.2.2.2.2.2.2

set_option maxRecDepth 100000 in
/-- C22 (code evaluated at a failing input): the 32 calls of `calls_slot0_second`
on a BEST_FIT pool of 1000 bytes, every release naming a live allocation, lead
to a well-formed state in which no free segment has a free neighbour.  The next
call, an allocation of one byte, runs to the end and returns a segment; after it
the segment in slot 28 of the segment array is in service and free (861 bytes)
and its successor, the segment in slot 29, is in service and free as well
(2 bytes); both are listed in the gap index.  The growth step of the call has
linked slot 28 to slot 29, the first slot out of service, which the split of
the same call then takes for the remainder. -/
theorem C22_free_segment_with_free_successor :
    valid_calls [] (calls_slot0_second ++ [Call.alloc 1]) = true ∧
    well_formed state_slot0_second chain_slot0_second ∧
    coalesced state_slot0_second chain_slot0_second ∧
    (mem_new_alloc state_slot0_second 1).map
        (fun r => (r.2, decide (r.1 = state_after_growth))) =
      some (some { heap := 1, idx := 0 }, true) ∧
    state_after_growth.node_heap = 1 ∧
    slot_links state_after_growth 28 =
      (861, 1, 0, some { heap := 1, idx := 27 }, some { heap := 1, idx := 29 }) ∧
    slot_links state_after_growth 29 =
      (2, 1, 0, some { heap := 1, idx := 0 }, some { heap := 1, idx := 1 }) ∧
    gaps state_after_growth =
      [{ size := 0, node := none }, { size := 2, node := some { heap := 1, idx := 29 } },
       { size := 861, node := some { heap := 1, idx := 28 } }] :=
  ⟨rfl, by decide, by decide, rfl, rfl, rfl, rfl, rfl⟩

set_option maxRecDepth 100000 in
/-- C23 (code evaluated at a failing input): the 32 calls of `calls_slot0_second`
on a BEST_FIT pool of 1000 bytes, every release naming a live allocation, lead
to a well-formed state whose chain head is in slot 1.  After the next call, an
allocation of one byte that grows the segment array, `used_nodes` is 31 while 30
slots of the segment array are in service; none of them is a head (the
predecessor of slot 0 lies in the old segment array); the walk from
`node_heap[0]` along `next` does not end (slot 29 leads back to slot 1); the
successor of slot 28 is slot 29 while the predecessor of slot 29 is slot 0. -/
theorem C23_chain_broken_by_growth :
    valid_calls [] (calls_slot0_second ++ [Call.alloc 1]) = true ∧
    well_formed state_slot0_second chain_slot0_second ∧
    run (mem_pool_open_mgr 1000 alloc_policy.BEST_FIT) [] (calls_slot0_second ++ [Call.alloc 1])
      ≠ none ∧
    (state_after_growth.node_heap, state_after_growth.total_nodes,
      state_after_growth.used_nodes, (in_service state_after_growth).length,
      heads state_after_growth) = (1, 80, 31, 30, []) ∧
    chain_from_slot0 state_after_growth = none ∧
    (slot_links state_after_growth 0).2.2.2 =
      (some { heap := 0, idx := 1 }, some { heap := 1, idx := 29 }) ∧
    (slot_links state_after_growth 28).2.2.2 =
      (some { heap := 1, idx := 27 }, some { heap := 1, idx := 29 }) ∧
    (slot_links state_after_growth 29).2.2.2 =
      (some { heap := 1, idx := 0 }, some { heap := 1, idx := 1 }) :=
  ⟨rfl, by decide, by decide, rfl, rfl, rfl, rfl, rfl⟩

end MemPool
